import Mathlib

/-!
TerraFERMA buckettools: the bucket timeloop and its registries.

A shallow embedding of `buckettools/cpp/Bucket.cpp` and of the solver callbacks of
`buckettools/cpp/BucketPETScBase.cpp`, with a model of the field split builder declared in
`buckettools/include/SpudSolverBucket.h`.

* `double` values are rationals, `int` values are integers (signed overflow is
  undefined in the source language and is left out of the model).  Sums and differences of
  times are exact in `dump_`, `output`, `timeloop` and `run`, and rounded to the nearest
  `double` in `dump_rounded`, `output_rounded`, `timeloop_rounded` and `run_rounded`.
* A `std::map` is the list of its entries in increasing key order.
* A shared pointer that may be empty is an `Option`; for the three diagnostics files only
  whether the pointer is set is kept.
* Methods are written in state passing style.  A method that can raise `dolfin::error`
  or fail an assertion returns an `Outcome`, which keeps the state reached at that point.
* Calls that leave the bucket (systems, diagnostics files, the signal handler) act on an
  abstract world `W` through `Collaborators W`, and are recorded in a trace.
-/

namespace buckettools

/-! ## Pointers and errors -/

/-- GenericFunction_ptr: `none` is the empty pointer, `some i` points to object `i`. -/
abbrev GenericFunction_ptr := Option Nat

/-- Mesh_ptr. -/
abbrev Mesh_ptr := Option Nat

/-- FunctionSpace_ptr. -/
abbrev FunctionSpace_ptr := Option Nat

/-- GenericDetectors_ptr. -/
abbrev GenericDetectors_ptr := Option Nat

/-- Ways in which a call can end other than by returning. -/
inductive Error where
  /-- dolfin::error("... named \"%s\" already exists ...") -/
  | already_exists (name : String)
  /-- dolfin::error("... named \"%s\" does not exist ...") -/
  | does_not_exist (name : String)
  /-- A failed `assert`. -/
  | assertion_failed
  /-- Dereference of an empty shared pointer. -/
  | null_pointer
deriving DecidableEq, Repr

/-- Result of a call on state `σ` with return type `α`. -/
inductive Outcome (σ α : Type) where
  /-- The call returned `a`, leaving state `s`. -/
  | returned (a : α) (s : σ)
  /-- The call raised `e`; `s` is the state at that point. -/
  | aborted (e : Error) (s : σ)
  /-- The loop was still running when the step budget ran out; `s` is the state then. -/
  | unfinished (s : σ)
deriving DecidableEq, Repr

/-- State after the call, however it ended. -/
def Outcome.state {σ α : Type} : Outcome σ α → σ
  | .returned _ s => s
  | .aborted _ s => s
  | .unfinished s => s

/-! ## std::map -/

/-- A `std::map<κ, α>`: its entries listed in increasing key order. -/
abbrev StdMap (κ α : Type) := List (κ × α)

/-- The call `m.find(k)`: the mapped value, `none` standing for `m.end()`. -/
def StdMap.find {κ α : Type} [DecidableEq κ] : StdMap κ α → κ → Option α
  | [], _ => none
  | (k', v') :: rest, k => if k = k' then some v' else StdMap.find rest k

/-- The assignment `m[k] = v`: overwrite the entry of `k` if there is one, else insert it in key order. -/
def StdMap.assign {κ α : Type} [DecidableEq κ] [LT κ] [DecidableRel (fun a b : κ => a < b)] :
    StdMap κ α → κ → α → StdMap κ α
  | [], k, v => [(k, v)]
  | (k', v') :: rest, k, v =>
    if k = k' then (k, v) :: rest
    else if k < k' then (k, v) :: (k', v') :: rest
    else (k', v') :: StdMap.assign rest k v

/-- The keys of the map, in iteration order. -/
def StdMap.keys {κ α : Type} (m : StdMap κ α) : List κ := m.map Prod.fst

/-- The call `m.size()`. -/
def StdMap.size {κ α : Type} (m : StdMap κ α) : Nat := m.length

/-- The cast `(int) n` for an unsigned size `n`: reduction to the 32 bit two's complement range. -/
def int_cast (n : Nat) : Int := ((n : Int) + 2147483648) % 4294967296 - 2147483648

/-! ## Systems -/

/-- Modelled from the spec: FunctionBucket (FunctionBucket.h is not part of the sources),
a field or coefficient with its ufl symbol and its three function states. -/
structure FunctionBucket where
  name : String
  uflsymbol : String
  function : GenericFunction_ptr
  oldfunction : GenericFunction_ptr
  iteratedfunction : GenericFunction_ptr
deriving DecidableEq, Repr

/-- Modelled from the spec: SystemBucket (SystemBucket.h is not part of the sources), the
object behind a SystemBucket_ptr: name, ufl symbol, the current, old and iterated
function, and the name keyed maps of its fields and coefficients. -/
structure SystemBucket where
  name : String
  uflsymbol : String
  function : GenericFunction_ptr
  oldfunction : GenericFunction_ptr
  iteratedfunction : GenericFunction_ptr
  fields : StdMap String FunctionBucket
  coeffs : StdMap String FunctionBucket
deriving DecidableEq, Repr

/-- The diagnostics files a bucket holds a handle to. -/
inductive DiagnosticsFile where
  | statfile
  | detfile
  | steadyfile
deriving DecidableEq, Repr

/-! ## The bucket -/

/-- Data members of `Bucket`.  The scalars behind `start_time_`, `current_time_`,
`finish_time_`, `timestep_count_`, `timestep_.second`, `nonlinear_iterations_` and
`iteration_count_` are stored by value: their accessors assert that they are allocated. -/
structure Bucket where
  name_ : String
  start_time_ : ℚ
  current_time_ : ℚ
  finish_time_ : ℚ
  timestep_count_ : Int
  /-- Member `timestep_`: the ufl symbol and the pointer to the timestep constant. -/
  timestep_ : String × GenericFunction_ptr
  /-- Value of the constant behind `timestep_.second`. -/
  timestep_value : ℚ
  nonlinear_iterations_ : Int
  iteration_count_ : Int
  steadystate_tol_ : Option ℚ
  meshes_ : StdMap String Mesh_ptr
  systems_ : StdMap String SystemBucket
  orderedsystems_ : StdMap Int SystemBucket
  baseuflsymbols_ : StdMap String String
  uflsymbols_ : StdMap String GenericFunction_ptr
  coefficientspaces_ : StdMap String FunctionSpace_ptr
  detectors_ : StdMap String GenericDetectors_ptr
  visualization_period_ : Option ℚ
  visualization_dumptime_ : Option ℚ
  visualization_period_timesteps_ : Option Int
  statistics_period_ : Option ℚ
  statistics_dumptime_ : Option ℚ
  statistics_period_timesteps_ : Option Int
  steadystate_period_ : Option ℚ
  steadystate_dumptime_ : Option ℚ
  steadystate_period_timesteps_ : Option Int
  detectors_period_ : Option ℚ
  detectors_dumptime_ : Option ℚ
  detectors_period_timesteps_ : Option Int
  /-- Members `statfile_`, `detfile_`, `steadyfile_`: `true` when the pointer is set. -/
  statfile_ : Bool
  detfile_ : Bool
  steadyfile_ : Bool
deriving DecidableEq, Repr

/-- Method `Bucket::timestep_count()`. -/
def Bucket.timestep_count (b : Bucket) : Int := b.timestep_count_

/-- Method `Bucket::start_time()`. -/
def Bucket.start_time (b : Bucket) : ℚ := b.start_time_

/-- Method `Bucket::current_time()`. -/
def Bucket.current_time (b : Bucket) : ℚ := b.current_time_

/-- Method `Bucket::finish_time()`. -/
def Bucket.finish_time (b : Bucket) : ℚ := b.finish_time_

/-- Method `Bucket::timestep()`. -/
def Bucket.timestep (b : Bucket) : ℚ := b.timestep_value

/-- Method `Bucket::nonlinear_iterations()`. -/
def Bucket.nonlinear_iterations (b : Bucket) : Int := b.nonlinear_iterations_

/-- Method `Bucket::iteration_count()`. -/
def Bucket.iteration_count (b : Bucket) : Int := b.iteration_count_

/-! ## Registries -/

/-- Method `Bucket::register_mesh`. -/
def Bucket.register_mesh (b : Bucket) (mesh : Mesh_ptr) (name : String) : Outcome Bucket Unit :=
  match StdMap.find b.meshes_ name with
  | some _ => .aborted (.already_exists name) b
  | none => .returned () { b with meshes_ := StdMap.assign b.meshes_ name mesh }

/-- Method `Bucket::fetch_mesh`. -/
def Bucket.fetch_mesh (b : Bucket) (name : String) : Outcome Bucket Mesh_ptr :=
  match StdMap.find b.meshes_ name with
  | none => .aborted (.does_not_exist name) b
  | some mesh => .returned mesh b

/-- Method `Bucket::register_system`. -/
def Bucket.register_system (b : Bucket) (system : SystemBucket) (name : String) :
    Outcome Bucket Unit :=
  match StdMap.find b.systems_ name with
  | some _ => .aborted (.already_exists name) b
  | none =>
    let systems := StdMap.assign b.systems_ name system
    .returned () { b with
      systems_ := systems
      orderedsystems_ := StdMap.assign b.orderedsystems_ (int_cast (StdMap.size systems)) system }

/-- Method `Bucket::fetch_system`. -/
def Bucket.fetch_system (b : Bucket) (name : String) : Outcome Bucket SystemBucket :=
  match StdMap.find b.systems_ name with
  | none => .aborted (.does_not_exist name) b
  | some system => .returned system b

/-- Method `Bucket::register_baseuflsymbol`. -/
def Bucket.register_baseuflsymbol (b : Bucket) (baseuflsymbol uflsymbol : String) :
    Outcome Bucket Unit :=
  match StdMap.find b.baseuflsymbols_ uflsymbol with
  | some _ => .aborted (.already_exists uflsymbol) b
  | none =>
    .returned () { b with baseuflsymbols_ := StdMap.assign b.baseuflsymbols_ uflsymbol baseuflsymbol }

/-- Method `Bucket::fetch_baseuflsymbol`. -/
def Bucket.fetch_baseuflsymbol (b : Bucket) (uflsymbol : String) : Outcome Bucket String :=
  match StdMap.find b.baseuflsymbols_ uflsymbol with
  | none => .aborted (.does_not_exist uflsymbol) b
  | some base => .returned base b

/-- Method `Bucket::contains_baseuflsymbol`. -/
def Bucket.contains_baseuflsymbol (b : Bucket) (uflsymbol : String) : Bool :=
  (StdMap.find b.baseuflsymbols_ uflsymbol).isSome

/-- Method `Bucket::register_uflsymbol(function, uflsymbol)`. -/
def Bucket.register_uflsymbol (b : Bucket) (function : GenericFunction_ptr) (uflsymbol : String) :
    Outcome Bucket Unit :=
  match StdMap.find b.uflsymbols_ uflsymbol with
  | some _ => .aborted (.already_exists uflsymbol) b
  | none => .returned () { b with uflsymbols_ := StdMap.assign b.uflsymbols_ uflsymbol function }

/-- Method `Bucket::fetch_uflsymbol`. -/
def Bucket.fetch_uflsymbol (b : Bucket) (uflsymbol : String) : Outcome Bucket GenericFunction_ptr :=
  match StdMap.find b.uflsymbols_ uflsymbol with
  | none => .aborted (.does_not_exist uflsymbol) b
  | some function => .returned function b

/-- Method `Bucket::register_coefficientspace`. -/
def Bucket.register_coefficientspace (b : Bucket) (coefficientspace : FunctionSpace_ptr)
    (uflsymbol : String) : Outcome Bucket Unit :=
  match StdMap.find b.coefficientspaces_ uflsymbol with
  | some _ => .aborted (.already_exists uflsymbol) b
  | none =>
    .returned () { b with
      coefficientspaces_ := StdMap.assign b.coefficientspaces_ uflsymbol coefficientspace }

/-- Method `Bucket::contains_coefficientspace`. -/
def Bucket.contains_coefficientspace (b : Bucket) (uflsymbol : String) : Bool :=
  (StdMap.find b.coefficientspaces_ uflsymbol).isSome

/-- Method `Bucket::fetch_coefficientspace`. -/
def Bucket.fetch_coefficientspace (b : Bucket) (uflsymbol : String) :
    Outcome Bucket FunctionSpace_ptr :=
  match StdMap.find b.coefficientspaces_ uflsymbol with
  | none => .aborted (.does_not_exist uflsymbol) b
  | some space => .returned space b

/-- Method `Bucket::register_detector`. -/
def Bucket.register_detector (b : Bucket) (detector : GenericDetectors_ptr) (name : String) :
    Outcome Bucket Unit :=
  match StdMap.find b.detectors_ name with
  | some _ => .aborted (.already_exists name) b
  | none => .returned () { b with detectors_ := StdMap.assign b.detectors_ name detector }

/-- Method `Bucket::fetch_detector`. -/
def Bucket.fetch_detector (b : Bucket) (name : String) : Outcome Bucket GenericDetectors_ptr :=
  match StdMap.find b.detectors_ name with
  | none => .aborted (.does_not_exist name) b
  | some detector => .returned detector b

/-! ## Collaborators, trace and machine state -/

/-- Modelled from the spec: the collaborators the bucket calls (SystemBucket, the
diagnostics files and SignalHandler are not part of the sources), acting on a world `W`. -/
structure Collaborators (W : Type) where
  /-- Method `SystemBucket::solve()` -/
  system_solve : SystemBucket → W → W
  /-- Method `SystemBucket::update()` -/
  system_update : SystemBucket → W → W
  /-- Method `SystemBucket::output()` -/
  system_output : SystemBucket → W → W
  /-- Method `SystemBucket::maxchange()` -/
  system_maxchange : SystemBucket → W → ℚ
  /-- Method `write_data()` of a diagnostics file -/
  write_data : DiagnosticsFile → W → W
  /-- The call `(*(*SignalHandler::instance()).return_handler(SIGINT)).received()` -/
  sigint_received : W → Bool

/-- What a run does, in order: entries into the bucket methods called by `run`, the two
assignments of `run`, and the calls to the collaborators. -/
inductive Event where
  /-- Method `Bucket::output()` was entered -/
  | output
  /-- Method `Bucket::solve()` was entered -/
  | solve
  /-- Method `Bucket::update()` was entered -/
  | update
  /-- Method `Bucket::complete()` was called and returned `result` -/
  | complete (result : Bool)
  /-- The scalar `*current_time_` was assigned `t` -/
  | current_time (t : ℚ)
  /-- The scalar `*timestep_count_` was assigned `n` -/
  | timestep_count (n : Int)
  | system_solve (system : SystemBucket)
  | system_update (system : SystemBucket)
  | system_output (system : SystemBucket)
  | write_data (file : DiagnosticsFile)
deriving DecidableEq, Repr

/-- Whether the event is a step of `Bucket::run` itself (not a call made further down). -/
def Event.of_run : Event → Bool
  | .output => true
  | .solve => true
  | .update => true
  | .complete _ => true
  | .current_time _ => true
  | .timestep_count _ => true
  | _ => false

/-- The steps of `Bucket::run` in a trace. -/
def run_steps (trace : List Event) : List Event := trace.filter Event.of_run

/-- The bucket together with the world of its collaborators and the trace so far. -/
structure Machine (W : Type) where
  bucket : Bucket
  world : W
  trace : List Event

/-- Calls `call` on every system of the map in iteration order, recording `event`. -/
def for_each_system {κ W : Type} (call : SystemBucket → W → W) (event : SystemBucket → Event) :
    StdMap κ SystemBucket → W × List Event → W × List Event
  | [], acc => acc
  | (_, system) :: rest, (w, trace) =>
    for_each_system call event rest (call system w, trace ++ [event system])

/-! ## Bucket::run and the methods it calls -/

/-- Method `Bucket::solve`. -/
def solve {W : Type} (env : Collaborators W) (m : Machine W) : Machine W :=
  let r := for_each_system env.system_solve Event.system_solve m.bucket.orderedsystems_
    (m.world, m.trace ++ [Event.solve])
  { m with world := r.1, trace := r.2 }

/-- Method `Bucket::update`. -/
def update {W : Type} (env : Collaborators W) (m : Machine W) : Machine W :=
  let r := for_each_system env.system_update Event.system_update m.bucket.orderedsystems_
    (m.world, m.trace ++ [Event.update])
  { m with world := r.1, trace := r.2 }

/-- Method `Bucket::steadystate_`. -/
def steadystate_ {W : Type} (env : Collaborators W) (m : Machine W) : Bool :=
  match m.bucket.steadystate_tol_ with
  | none => false
  | some tol =>
    let maxchange := m.bucket.systems_.foldl
      (fun maxchange s => max (env.system_maxchange s.2 m.world) maxchange) (0 : ℚ)
    decide (maxchange < tol)

/-- Method `Bucket::complete`. -/
def complete {W : Type} (env : Collaborators W) (m : Machine W) : Bool × Machine W :=
  let completed := false
  let completed := if m.bucket.current_time ≥ m.bucket.finish_time then true else completed
  let completed := if steadystate_ env m then true else completed
  let completed := if env.sigint_received m.world then true else completed
  (completed, { m with trace := m.trace ++ [Event.complete completed] })

/-- Method `Bucket::dump_`: the decision and the value left in `*previous_dump_time`.  The
difference of the two times is exact here; `dump_rounded` has it rounded. -/
def dump_ (b : Bucket) (dump_period previous_dump_time : Option ℚ)
    (dump_period_timesteps : Option Int) : Except Error (Bool × Option ℚ) :=
  match dump_period with
  | some period =>
    if b.current_time = b.start_time then .ok (true, previous_dump_time)
    else
      match previous_dump_time with
      | none => .error .assertion_failed
      | some previous =>
        if b.current_time - previous > period then .ok (true, some b.current_time)
        else .ok (false, some previous)
  | none =>
    match dump_period_timesteps with
    | some period_timesteps =>
      if b.timestep_count = 0 then .ok (true, previous_dump_time)
      else .ok (decide (Int.tmod period_timesteps b.timestep_count = 0), previous_dump_time)
    | none => .ok (true, previous_dump_time)

/-- The writes of `Bucket::output` once the four dump decisions are taken. -/
def output_write {W : Type} (env : Collaborators W) (write_vis write_stat write_steady
    write_det : Bool) (m : Machine W) : Outcome (Machine W) Unit :=
  if write_stat && !m.bucket.statfile_ then .aborted .null_pointer m
  else
    let m := if write_stat then
        { m with world := env.write_data .statfile m.world,
                 trace := m.trace ++ [Event.write_data .statfile] }
      else m
    let m := if write_det && m.bucket.detfile_ then
        { m with world := env.write_data .detfile m.world,
                 trace := m.trace ++ [Event.write_data .detfile] }
      else m
    let m := if write_steady && m.bucket.steadyfile_ && decide (m.bucket.timestep_count > 0) then
        { m with world := env.write_data .steadyfile m.world,
                 trace := m.trace ++ [Event.write_data .steadyfile] }
      else m
    let m := if write_vis then
        let r := for_each_system env.system_output Event.system_output m.bucket.systems_
          (m.world, m.trace)
        { m with world := r.1, trace := r.2 }
      else m
    .returned () m

/-- Method `Bucket::output`. -/
def output {W : Type} (env : Collaborators W) (m : Machine W) : Outcome (Machine W) Unit :=
  let m := { m with trace := m.trace ++ [Event.output] }
  match dump_ m.bucket m.bucket.visualization_period_ m.bucket.visualization_dumptime_
      m.bucket.visualization_period_timesteps_ with
  | .error e => .aborted e m
  | .ok (write_vis, t) =>
    let m := { m with bucket := { m.bucket with visualization_dumptime_ := t } }
    match dump_ m.bucket m.bucket.statistics_period_ m.bucket.statistics_dumptime_
        m.bucket.statistics_period_timesteps_ with
    | .error e => .aborted e m
    | .ok (write_stat, t) =>
      let m := { m with bucket := { m.bucket with statistics_dumptime_ := t } }
      match dump_ m.bucket m.bucket.steadystate_period_ m.bucket.steadystate_dumptime_
          m.bucket.steadystate_period_timesteps_ with
      | .error e => .aborted e m
      | .ok (write_steady, t) =>
        let m := { m with bucket := { m.bucket with steadystate_dumptime_ := t } }
        match dump_ m.bucket m.bucket.detectors_period_ m.bucket.detectors_dumptime_
            m.bucket.detectors_period_timesteps_ with
        | .error e => .aborted e m
        | .ok (write_det, t) =>
          let m := { m with bucket := { m.bucket with detectors_dumptime_ := t } }
          output_write env write_vis write_stat write_steady write_det m

/-- The loop over the nonlinear iterations in `Bucket::run`, entered after
`*iteration_count_ = 0`: while `*iteration_count_ < nonlinear_iterations()`, call `solve()`
and increment `*iteration_count_`. -/
def nonlinear_loop {W : Type} (env : Collaborators W) (m : Machine W) : Machine W :=
  if m.bucket.iteration_count_ < m.bucket.nonlinear_iterations then
    nonlinear_loop env
      { solve env m with bucket := { m.bucket with iteration_count_ := m.bucket.iteration_count_ + 1 } }
  else m
termination_by (m.bucket.nonlinear_iterations_ - m.bucket.iteration_count_).toNat
decreasing_by
  simp only [Bucket.nonlinear_iterations] at *
  omega

/-- The timeloop of `Bucket::run`: `while (continue_timestepping)`, entered with the flag
set.  `fuel` bounds the number of timesteps; when it runs out the result is `unfinished`.
The sum of the time and the timestep is exact here; `timeloop_rounded` has it rounded. -/
def timeloop {W : Type} (env : Collaborators W) : Nat → Machine W → Outcome (Machine W) Unit
  | 0, m => .unfinished m
  | fuel + 1, m =>
    let m1 : Machine W :=
      nonlinear_loop env { m with bucket := { m.bucket with iteration_count_ := 0 } }
    let t : ℚ := m1.bucket.current_time_ + m1.bucket.timestep
    let m2 : Machine W :=
      { m1 with bucket := { m1.bucket with current_time_ := t },
                trace := m1.trace ++ [Event.current_time t] }
    let n : Int := m2.bucket.timestep_count_ + 1
    let m3 : Machine W :=
      { m2 with bucket := { m2.bucket with timestep_count_ := n },
                trace := m2.trace ++ [Event.timestep_count n] }
    match output env m3 with
    | .aborted e m4 => .aborted e m4
    | .unfinished m4 => .unfinished m4
    | .returned _ m4 =>
      let c := complete env m4
      let continue_timestepping := !c.1
      let m5 := update env c.2
      if continue_timestepping then timeloop env fuel m5 else .returned () m5

/-- Method `Bucket::run`. -/
def run {W : Type} (env : Collaborators W) (fuel : Nat) (m : Machine W) :
    Outcome (Machine W) Unit :=
  match output env m with
  | .aborted e m => .aborted e m
  | .unfinished m => .unfinished m
  | .returned _ m => timeloop env fuel m

/-! ## Sequences of registrations -/

/-- The bucket after the calls `register_system(system, name)` of the list, made in order,
each continuing from the state the previous one left (also when it failed). -/
def register_systems (b : Bucket) (calls : List (SystemBucket × String)) : Bucket :=
  calls.foldl (fun b c => (b.register_system c.1 c.2).state) b

/-- The systems of those calls of the list that register a name for the first time, in
call order; `seen` holds the names registered before the list starts. -/
def first_registrations : List (SystemBucket × String) → List String → List SystemBucket
  | [], _ => []
  | (system, name) :: rest, seen =>
    if name ∈ seen then first_registrations rest seen
    else system :: first_registrations rest (name :: seen)

/-- The entries `(k, s₀), (k + 1, s₁), …` for the systems `s₀, s₁, …`. -/
def numbered_from : Nat → List SystemBucket → StdMap Int SystemBucket
  | _, [] => []
  | k, system :: rest => ((k : Int), system) :: numbered_from (k + 1) rest

/-! ## Vocabulary for statements about the timeloop -/

/-- The bucket `b` with new values in the members that `Bucket::run` assigns: the current
time, the two counters and the last dump time of each of the four streams. -/
def Bucket.advanced (b : Bucket) (t : ℚ) (n i : Int) (vis stat steady det : Option ℚ) : Bucket :=
  { b with
    current_time_ := t
    timestep_count_ := n
    iteration_count_ := i
    visualization_dumptime_ := vis
    statistics_dumptime_ := stat
    steadystate_dumptime_ := steady
    detectors_dumptime_ := det }

/-- No assertion or dereference of `Bucket::output` can fail: the statistics file is set
and every stream with a time period has a last dump time. -/
def Bucket.output_ready (b : Bucket) : Prop :=
  b.statfile_ = true ∧
  (b.visualization_period_.isSome = true → b.visualization_dumptime_.isSome = true) ∧
  (b.statistics_period_.isSome = true → b.statistics_dumptime_.isSome = true) ∧
  (b.steadystate_period_.isSome = true → b.steadystate_dumptime_.isSome = true) ∧
  (b.detectors_period_.isSome = true → b.detectors_dumptime_.isSome = true)

/-- The state a timestep reaches just before its `output()` call: the nonlinear
iterations are done, the time is advanced and the timestep is counted. -/
def before_output {W : Type} (env : Collaborators W) (m : Machine W) : Machine W :=
  let m1 : Machine W :=
    nonlinear_loop env { m with bucket := { m.bucket with iteration_count_ := 0 } }
  let t : ℚ := m1.bucket.current_time_ + m1.bucket.timestep
  let m2 : Machine W :=
    { m1 with bucket := { m1.bucket with current_time_ := t },
              trace := m1.trace ++ [Event.current_time t] }
  let n : Int := m2.bucket.timestep_count_ + 1
  { m2 with bucket := { m2.bucket with timestep_count_ := n },
            trace := m2.trace ++ [Event.timestep_count n] }

/-- The steps of `run` in timesteps that follow each other, for a bucket with `ni`
nonlinear iterations and timestep `dt` that stands at time `t` and count `n`; the list
gives the value `complete()` returns in each of the timesteps. -/
def timeloop_steps (ni : Int) (dt : ℚ) : ℚ → Int → List Bool → List Event
  | _, _, [] => []
  | t, n, completed :: rest =>
    List.replicate ni.toNat Event.solve ++
      [Event.current_time (t + dt), Event.timestep_count (n + 1), Event.output,
        Event.complete completed, Event.update] ++
      timeloop_steps ni dt (t + dt) (n + 1) rest

/-- From `m` the machine `m'` is reached by appending events to the trace whose steps of
`run` are exactly `steps`. -/
def Machine.reaches {W : Type} (m m' : Machine W) (steps : List Event) : Prop :=
  ∃ tr, m'.trace = m.trace ++ tr ∧ run_steps tr = steps

/-- What a call of `Bucket::output` on `m` does: it is one `output` step of `run`; it
assigns at most the four last dump times; it raises an error only if the bucket was not
`output_ready`, and otherwise leaves the bucket `output_ready`. -/
def output_post {W : Type} (m : Machine W) : Outcome (Machine W) Unit → Prop
  | .returned _ m' =>
    (∃ vis stat steady det, m'.bucket = m.bucket.advanced m.bucket.current_time_
      m.bucket.timestep_count_ m.bucket.iteration_count_ vis stat steady det) ∧
    m.reaches m' [Event.output] ∧ (m.bucket.output_ready → m'.bucket.output_ready)
  | .aborted _ m' => m.reaches m' [Event.output] ∧ ¬ m.bucket.output_ready
  | .unfinished _ => False

/-- What the timeloop started on `m` with a budget of `fuel` timesteps does.  When it
returns it has made `j + 1` timesteps for some `j < fuel`, with `complete()` false in the
first `j` and true in the last.  When the budget runs out it has made `fuel` timesteps with
`complete()` false in each.  When it is aborted it has made `j` such timesteps and then one
up to its `output()` call, in which the error was raised. -/
def timeloop_post {W : Type} (fuel : Nat) (m : Machine W) : Outcome (Machine W) Unit → Prop
  | .returned _ m' =>
    ∃ j, j < fuel ∧ m.reaches m'
      (timeloop_steps m.bucket.nonlinear_iterations m.bucket.timestep m.bucket.current_time_
        m.bucket.timestep_count_ (List.replicate j false ++ [true]))
  | .unfinished m' =>
    m.reaches m'
      (timeloop_steps m.bucket.nonlinear_iterations m.bucket.timestep m.bucket.current_time_
        m.bucket.timestep_count_ (List.replicate fuel false))
  | .aborted _ m' =>
    ∃ j, j < fuel ∧ m.reaches m'
      (timeloop_steps m.bucket.nonlinear_iterations m.bucket.timestep m.bucket.current_time_
          m.bucket.timestep_count_ (List.replicate j false) ++
        (List.replicate m.bucket.nonlinear_iterations.toNat Event.solve ++
          [Event.current_time (m.bucket.current_time_ + (j + 1) * m.bucket.timestep),
            Event.timestep_count (m.bucket.timestep_count_ + (j + 1)), Event.output]))

/-- Whether the event is an assignment to `*timestep_count_`. -/
def Event.is_timestep_count : Event → Bool
  | .timestep_count _ => true
  | _ => false

/-! ## Concrete buckets used to exercise the statements -/

/-- Collaborators that do nothing, on a one point world: every maxchange is 0 and no
interrupt arrives. -/
def idle : Collaborators Unit :=
  { system_solve := fun _ w => w
    system_update := fun _ w => w
    system_output := fun _ w => w
    system_maxchange := fun _ _ => 0
    write_data := fun _ w => w
    sigint_received := fun _ => false }

/-- A bucket with empty registries, an open statistics file and no dump period, set up to
run from time 0 to time 3 in steps of 1 with one nonlinear iteration a step. -/
def sample_bucket : Bucket :=
  { name_ := "bucket"
    start_time_ := 0
    current_time_ := 0
    finish_time_ := 3
    timestep_count_ := 0
    timestep_ := ("", none)
    timestep_value := 1
    nonlinear_iterations_ := 1
    iteration_count_ := 0
    steadystate_tol_ := none
    meshes_ := []
    systems_ := []
    orderedsystems_ := []
    baseuflsymbols_ := []
    uflsymbols_ := []
    coefficientspaces_ := []
    detectors_ := []
    visualization_period_ := none
    visualization_dumptime_ := none
    visualization_period_timesteps_ := none
    statistics_period_ := none
    statistics_dumptime_ := none
    statistics_period_timesteps_ := none
    steadystate_period_ := none
    steadystate_dumptime_ := none
    steadystate_period_timesteps_ := none
    detectors_period_ := none
    detectors_dumptime_ := none
    detectors_period_timesteps_ := none
    statfile_ := true
    detfile_ := false
    steadyfile_ := false }

/-- A system named `Stokes`. -/
def sample_system_stokes : SystemBucket :=
  { name := "Stokes", uflsymbol := "us", function := some 1, oldfunction := some 2,
    iteratedfunction := some 3, fields := [], coeffs := [] }

/-- A system named `Advection`. -/
def sample_system_advection : SystemBucket :=
  { name := "Advection", uflsymbol := "ua", function := some 4, oldfunction := some 5,
    iteratedfunction := some 6, fields := [], coeffs := [] }

/-! ## The fill of the symbol registry -/

/-- Continues with `next` from the state in which a call returned; a call that did not
return ends the whole sequence where it ended. -/
def Outcome.and_then {σ : Type} (o : Outcome σ Unit) (next : σ → Outcome σ Unit) :
    Outcome σ Unit :=
  match o with
  | .returned _ s => next s
  | .aborted e s => .aborted e s
  | .unfinished s => .unfinished s

/-- Method `Bucket::register_uflsymbol(uflfunctionpair)`. -/
def Bucket.register_uflsymbol_pair (b : Bucket) (uflfunctionpair : String × GenericFunction_ptr) :
    Outcome Bucket Unit :=
  b.register_uflsymbol uflfunctionpair.2 uflfunctionpair.1

/-- The loop over the fields of `system` in `Bucket::uflsymbols_fill_`, which registers
the functions of the system under the symbols of each field. -/
def uflsymbols_fill_fields (system : SystemBucket) :
    StdMap String FunctionBucket → Bucket → Outcome Bucket Unit
  | [], b => .returned () b
  | (_, field) :: rest, b =>
    (b.register_uflsymbol system.function field.uflsymbol).and_then fun b =>
    (b.register_uflsymbol system.oldfunction (field.uflsymbol ++ "_n")).and_then fun b =>
    (b.register_uflsymbol system.iteratedfunction (field.uflsymbol ++ "_i")).and_then fun b =>
    uflsymbols_fill_fields system rest b

/-- The loop over the coefficients of a system in `Bucket::uflsymbols_fill_`, which
registers the functions of each coefficient under its symbols. -/
def uflsymbols_fill_coeffs : StdMap String FunctionBucket → Bucket → Outcome Bucket Unit
  | [], b => .returned () b
  | (_, coeff) :: rest, b =>
    (b.register_uflsymbol coeff.function coeff.uflsymbol).and_then fun b =>
    (b.register_uflsymbol coeff.oldfunction (coeff.uflsymbol ++ "_n")).and_then fun b =>
    (b.register_uflsymbol coeff.iteratedfunction (coeff.uflsymbol ++ "_i")).and_then fun b =>
    uflsymbols_fill_coeffs rest b

/-- The loop over the systems in `Bucket::uflsymbols_fill_`. -/
def uflsymbols_fill_systems : StdMap String SystemBucket → Bucket → Outcome Bucket Unit
  | [], b => .returned () b
  | (_, system) :: rest, b =>
    (b.register_uflsymbol system.function system.uflsymbol).and_then fun b =>
    (b.register_uflsymbol system.oldfunction (system.uflsymbol ++ "_n")).and_then fun b =>
    (b.register_uflsymbol system.iteratedfunction (system.uflsymbol ++ "_i")).and_then fun b =>
    (uflsymbols_fill_fields system system.fields b).and_then fun b =>
    (uflsymbols_fill_coeffs system.coeffs b).and_then fun b =>
    uflsymbols_fill_systems rest b

/-- Method `Bucket::uflsymbols_fill_`; `timestep_.first.empty()` is `timestep_.1 = ""`. -/
def Bucket.uflsymbols_fill_ (b : Bucket) : Outcome Bucket Unit :=
  (if ¬ b.timestep_.1 = "" then b.register_uflsymbol_pair b.timestep_
    else .returned () b).and_then fun b =>
  uflsymbols_fill_systems b.systems_ b

/-! ## Vocabulary for statements about the fill -/

/-- The calls `register_uflsymbol(function, uflsymbol)` of the list made in order, up to
the first one that fails. -/
def register_each : List (GenericFunction_ptr × String) → Bucket → Outcome Bucket Unit
  | [], b => .returned () b
  | (function, uflsymbol) :: rest, b =>
    (b.register_uflsymbol function uflsymbol).and_then fun b => register_each rest b

/-- The three registrations of a current, old and iterated function under a symbol and
its `_n` and `_i` variants. -/
def three_states (function oldfunction iteratedfunction : GenericFunction_ptr)
    (uflsymbol : String) : List (GenericFunction_ptr × String) :=
  [(function, uflsymbol), (oldfunction, uflsymbol ++ "_n"),
    (iteratedfunction, uflsymbol ++ "_i")]

/-- The registrations the fill makes for the fields of `system`. -/
def fields_registrations (system : SystemBucket) (fields : StdMap String FunctionBucket) :
    List (GenericFunction_ptr × String) :=
  fields.flatMap fun p =>
    three_states system.function system.oldfunction system.iteratedfunction p.2.uflsymbol

/-- The registrations the fill makes for the coefficients of a system. -/
def coeffs_registrations (coeffs : StdMap String FunctionBucket) :
    List (GenericFunction_ptr × String) :=
  coeffs.flatMap fun p =>
    three_states p.2.function p.2.oldfunction p.2.iteratedfunction p.2.uflsymbol

/-- The registrations the fill makes for the systems of the map. -/
def systems_registrations (systems : StdMap String SystemBucket) :
    List (GenericFunction_ptr × String) :=
  systems.flatMap fun p =>
    three_states p.2.function p.2.oldfunction p.2.iteratedfunction p.2.uflsymbol ++
      fields_registrations p.2 p.2.fields ++ coeffs_registrations p.2.coeffs

/-- The registrations the fill makes for the bucket, the timestep first. -/
def fill_registrations (b : Bucket) : List (GenericFunction_ptr × String) :=
  (if ¬ b.timestep_.1 = "" then [(b.timestep_.2, b.timestep_.1)] else []) ++
    systems_registrations b.systems_

/-- The systems of the calls `register_system(system, name)` of the list that returned,
in call order, when the calls are made one after the other starting from `b`. -/
def successful_registrations : Bucket → List (SystemBucket × String) → List SystemBucket
  | _, [] => []
  | b, (system, name) :: rest =>
    match b.register_system system name with
    | .returned _ b' => system :: successful_registrations b' rest
    | .aborted _ b' => successful_registrations b' rest
    | .unfinished b' => successful_registrations b' rest

/-- The bucket after the calls `register_baseuflsymbol(base, name)` for the names of the
list, made in order, each continuing from the state the previous one left. -/
def register_aliases (base : String) (names : List String) (b : Bucket) : Bucket :=
  names.foldl (fun b name => (b.register_baseuflsymbol base name).state) b

/-! ## Concrete buckets used to exercise the statements on the fill and the dumps -/

/-- A field `Velocity` with symbol `v` and own functions 21, 22, 23. -/
def sample_field_velocity : FunctionBucket :=
  { name := "Velocity", uflsymbol := "v", function := some 21, oldfunction := some 22,
    iteratedfunction := some 23 }

/-- A coefficient `Viscosity` with symbol `nu` and own functions 10, 11, 12. -/
def sample_coefficient_viscosity : FunctionBucket :=
  { name := "Viscosity", uflsymbol := "nu", function := some 10, oldfunction := some 11,
    iteratedfunction := some 12 }

/-- A system `Stokes` with symbol `us` and functions 1, 2, 3 that has the field `Velocity`
and the coefficient `Viscosity`. -/
def sample_system_with_coefficient : SystemBucket :=
  { name := "Stokes", uflsymbol := "us", function := some 1, oldfunction := some 2,
    iteratedfunction := some 3, fields := [("Velocity", sample_field_velocity)],
    coeffs := [("Viscosity", sample_coefficient_viscosity)] }

/-- The sample bucket holding the system `Stokes` above, with a timestep named `dt`
(function 9). -/
def sample_bucket_to_fill : Bucket :=
  { sample_bucket with
    timestep_ := ("dt", some 9)
    systems_ := [("Stokes", sample_system_with_coefficient)]
    orderedsystems_ := [(1, sample_system_with_coefficient)] }

/-- The same bucket with a timestep that has no name. -/
def sample_bucket_to_fill_unnamed : Bucket :=
  { sample_bucket_to_fill with timestep_ := ("", some 9) }

/-! ## Destruction of the bucket -/

/-- Method `Bucket::empty_`: the bucket it leaves and the diagnostics files on which it
called `close()`, in order. -/
def Bucket.empty_ (b : Bucket) : Bucket × List DiagnosticsFile :=
  let b' : Bucket :=
    { b with
      meshes_ := []
      systems_ := []
      orderedsystems_ := []
      baseuflsymbols_ := []
      uflsymbols_ := []
      coefficientspaces_ := []
      detectors_ := [] }
  (b', if b.statfile_ then [DiagnosticsFile.statfile] else [])

/-! ## The callbacks of the nonlinear solver (BucketPETScBase.cpp) -/

/-- A vector of the solver: its entries. -/
abbrev Vec := Nat → ℚ

/-- A matrix of the solver: its entries, `none` for a position outside the sparsity
pattern (a structural zero). -/
abbrev Mat := Nat → Nat → Option ℚ

/-- The PETSc flag `MatStructure`. -/
inductive MatStructure where
  | SAME_NONZERO_PATTERN
  | DIFFERENT_NONZERO_PATTERN
  | SAME_PRECONDITIONER
deriving DecidableEq, Repr

/-- Modelled from the spec: SNESCtx (BucketPETScBase.h is not part of the sources), the
context handed to the callbacks: the iterated function of the system, the linear and
bilinear forms, the optional bilinear form of the preconditioner, the boundary conditions
in registration order and the two `ident_zeros` flags.  Functions, forms and boundary
conditions are named by numbers. -/
structure SNESCtx where
  iteratedfunction : Nat
  linear : Nat
  bilinear : Nat
  bilinearpc : Option Nat
  bcs : List Nat
  ident_zeros : Bool
  ident_zeros_pc : Bool
deriving DecidableEq, Repr

/-- The tensors a callback works on: the right hand side `rhs` (the vector `f`), `matrix`
(the matrix `A`) and `matrixpc` (the matrix `B`). -/
inductive Tensor where
  | rhs
  | matrix
  | matrixpc
deriving DecidableEq, Repr

/-- The operations the callbacks call, which are not part of the sources (dolfin and
`Bucket::update_nonlinear`): they are parameters of the callbacks here, acting on a world
`W` that holds the bucket with its functions and coefficients. -/
structure SolverCollaborators (W : Type) where
  /-- The assignment `(*iteratedfunction).vector() = iteratedvec` -/
  set_vector : Nat → Vec → W → W
  /-- Method `Bucket::update_nonlinear()` -/
  update_nonlinear : W → W
  /-- The call `dolfin::assemble(rhs, form, reset_tensor)` -/
  assemble_vector : Nat → Bool → W → Vec → Vec
  /-- The call `dolfin::assemble(matrix, form, reset_tensor)` -/
  assemble_matrix : Nat → Bool → W → Mat → Mat
  /-- The call `(*bc).apply(rhs, iteratedvec)` -/
  apply_vector : Nat → Vec → Vec → Vec
  /-- The call `(*bc).apply(matrix)` -/
  apply_matrix : Nat → Mat → Mat
  /-- The call `matrix.ident_zeros()` -/
  ident_zeros : Mat → Mat

/-- The calls a callback makes, in order. -/
inductive SolverEvent where
  /-- The vector of function `function` was overwritten with the iterate -/
  | set_vector (function : Nat)
  | update_nonlinear
  | assemble (tensor : Tensor) (form : Nat) (reset_tensor : Bool)
  | apply (bc : Nat) (tensor : Tensor)
  | ident_zeros (tensor : Tensor)
deriving DecidableEq, Repr

/-- The world of the collaborators of a callback and the calls made so far. -/
structure SolverMachine (W : Type) where
  world : W
  trace : List SolverEvent

/-- The loop `for(uint i = 0; i < bcs.size(); ++i) (*bcs[i]).apply(...)` on a tensor of
type `τ`: the tensor it leaves and the calls it adds. -/
def apply_bcs {τ : Type} (apply : Nat → τ → τ) (tensor : Tensor) :
    List Nat → τ × List SolverEvent → τ × List SolverEvent
  | [], acc => acc
  | bc :: rest, (t, trace) =>
    apply_bcs apply tensor rest (apply bc t, trace ++ [SolverEvent.apply bc tensor])

/-- The callback `buckettools::FormFunction`: the error code it returns, the vector it
leaves in `f`, and the machine after it. -/
def FormFunction {W : Type} (env : SolverCollaborators W) (ctx : SNESCtx) (x f : Vec)
    (s : SolverMachine W) : Int × Vec × SolverMachine W :=
  let reset_tensor := false
  let w := env.set_vector ctx.iteratedfunction x s.world
  let trace := s.trace ++ [SolverEvent.set_vector ctx.iteratedfunction]
  let w := env.update_nonlinear w
  let trace := trace ++ [SolverEvent.update_nonlinear]
  let rhs := env.assemble_vector ctx.linear reset_tensor w f
  let trace := trace ++ [SolverEvent.assemble Tensor.rhs ctx.linear reset_tensor]
  let r := apply_bcs (fun bc v => env.apply_vector bc x v) Tensor.rhs ctx.bcs (rhs, trace)
  (0, r.1, { world := w, trace := r.2 })

/-- What `buckettools::FormJacobian` leaves behind: the error code, the matrices `A` and
`B`, the flag, and the machine after it. -/
structure JacobianResult (W : Type) where
  code : Int
  A : Mat
  B : Mat
  flag : MatStructure
  machine : SolverMachine W

/-- The callback `buckettools::FormJacobian`, with `A` and `B` two different matrices. -/
def FormJacobian {W : Type} (env : SolverCollaborators W) (ctx : SNESCtx) (x : Vec)
    (A B : Mat) (s : SolverMachine W) : JacobianResult W :=
  let reset_tensor := false
  let w := env.set_vector ctx.iteratedfunction x s.world
  let trace := s.trace ++ [SolverEvent.set_vector ctx.iteratedfunction]
  let w := env.update_nonlinear w
  let trace := trace ++ [SolverEvent.update_nonlinear]
  let matrix := env.assemble_matrix ctx.bilinear reset_tensor w A
  let trace := trace ++ [SolverEvent.assemble Tensor.matrix ctx.bilinear reset_tensor]
  let r := apply_bcs env.apply_matrix Tensor.matrix ctx.bcs (matrix, trace)
  let r := if ctx.ident_zeros then (env.ident_zeros r.1, r.2 ++ [SolverEvent.ident_zeros Tensor.matrix])
    else r
  let rpc :=
    match ctx.bilinearpc with
    | some bilinearpc =>
      let matrixpc := env.assemble_matrix bilinearpc reset_tensor w B
      let trace := r.2 ++ [SolverEvent.assemble Tensor.matrixpc bilinearpc reset_tensor]
      let rpc := apply_bcs env.apply_matrix Tensor.matrixpc ctx.bcs (matrixpc, trace)
      if ctx.ident_zeros_pc then
        (env.ident_zeros rpc.1, rpc.2 ++ [SolverEvent.ident_zeros Tensor.matrixpc])
      else rpc
    | none => (B, r.2)
  { code := 0, A := r.1, B := rpc.1, flag := MatStructure.SAME_NONZERO_PATTERN,
    machine := { world := w, trace := rpc.2 } }

/-- Modelled from the spec: `ident_zeros` of a matrix (dolfin is not part of the
sources), which sets every diagonal entry that is a structural zero to the identity value
1 and leaves every other entry as it is. -/
def ident_zeros (M : Mat) : Mat :=
  fun i j => if i = j ∧ M i j = none then some 1 else M i j

/-- Whether the event is a call on the matrix `B`. -/
def SolverEvent.on_matrixpc : SolverEvent → Bool
  | .assemble Tensor.matrixpc _ _ => true
  | .apply _ Tensor.matrixpc => true
  | .ident_zeros Tensor.matrixpc => true
  | _ => false

/-! ## Field splits (SpudSolverBucket) -/

/-- Modelled from the spec: the enclosing system as the field split builder sees it
(SystemBucket.h and the function spaces are not part of the sources): the number of its
global indices, the names of its fields and the field each index belongs to. -/
structure SplitSystem where
  size : Nat
  fields : List String
  field_of : Nat → String

/-- Modelled from the spec: the option spec of a split (the options tree read by
SpudSolverBucket.cpp is not part of the sources): its name, the names of the fields that
make it up, and the definitions of its child splits. -/
inductive SplitSpec where
  | mk (name : String) (fields : List String) (children : List SplitSpec)

/-- The fields named by the definition of a split. -/
def SplitSpec.fields : SplitSpec → List String
  | .mk _ fields _ => fields

/-- The definitions of the child splits of a split. -/
def SplitSpec.children : SplitSpec → List SplitSpec
  | .mk _ _ children => children

/-- Modelled from the spec: the index set node of a split: a name, the global indices of
the split, and the nodes of its child splits. -/
inductive IndexSetNode where
  | mk (name : String) (indices : List Nat) (children : List IndexSetNode)

/-- The global indices of the split. -/
def IndexSetNode.indices : IndexSetNode → List Nat
  | .mk _ indices _ => indices

/-- The nodes of the child splits. -/
def IndexSetNode.children : IndexSetNode → List IndexSetNode
  | .mk _ _ children => children

/-- Modelled from the spec: `SpudSolverBucket::is_by_field_fill_` (SpudSolverBucket.cpp is
not part of the sources): a field that the system does not have is a fatal error;
otherwise the indices of the split are those indices of the parent that belong to one of
its fields (field membership lookup) and to none of the siblings built before it. -/
def is_by_field_fill_ (system : SplitSystem) (fields : List String)
    (parent_indices sibling_indices : List Nat) : Except Error (List Nat) :=
  match fields.find? (fun f => decide (f ∉ system.fields)) with
  | some f => .error (.does_not_exist f)
  | none =>
    .ok (parent_indices.filter fun i =>
      decide (system.field_of i ∈ fields) && !decide (i ∈ sibling_indices))

mutual
/-- Modelled from the spec: `buildSplit(optionSpec, parentIndices, siblingIndices)`
(SpudSolverBucket.cpp is not part of the sources): the indices of the split are computed
by `is_by_field_fill_` and handed down to its child splits as their parent indices. -/
def build_split (system : SplitSystem) :
    SplitSpec → List Nat → List Nat → Except Error IndexSetNode
  | .mk name fields children, parent_indices, sibling_indices =>
    match is_by_field_fill_ system fields parent_indices sibling_indices with
    | .error e => .error e
    | .ok indices =>
      match pc_fieldsplit_fill_ system children indices [] with
      | .error e => .error e
      | .ok nodes => .ok (.mk name indices nodes)
/-- Modelled from the spec: `SpudSolverBucket::pc_fieldsplit_fill_` (SpudSolverBucket.cpp
is not part of the sources): the child splits of one level are built in order, each with
the indices of the siblings built before it.  The spec describes field splits that are
nested partitions (`nested_partition`); it does not say what is built from definitions
that leave a field of their parent unnamed, and nothing is claimed of those here. -/
def pc_fieldsplit_fill_ (system : SplitSystem) :
    List SplitSpec → List Nat → List Nat → Except Error (List IndexSetNode)
  | [], _, _ => .ok []
  | spec :: rest, parent_indices, sibling_indices =>
    match build_split system spec parent_indices sibling_indices with
    | .error e => .error e
    | .ok node =>
      match pc_fieldsplit_fill_ system rest parent_indices
          (sibling_indices ++ node.indices) with
      | .error e => .error e
      | .ok nodes => .ok (node :: nodes)
end

/-- Modelled from the spec: the tree of a system, whose root holds the full index range of
the system and whose children are built from the definitions `children`. -/
def build_tree (system : SplitSystem) (name : String) (children : List SplitSpec) :
    Except Error IndexSetNode :=
  match pc_fieldsplit_fill_ system children (List.range system.size) [] with
  | .error e => .error e
  | .ok nodes => .ok (.mk name (List.range system.size) nodes)

/-- The nodes of a tree: the root, and the children of every node of the tree. -/
inductive IndexSetNode.within (root : IndexSetNode) : IndexSetNode → Prop where
  | root : IndexSetNode.within root root
  | child {node c : IndexSetNode} :
    IndexSetNode.within root node → c ∈ node.children → IndexSetNode.within root c

/-- The maximum of the values of the non-empty list `x :: xs`, as the specification words
the quantity that `steadystate_` compares with the tolerance. -/
def maximum_of (x : ℚ) (xs : List ℚ) : ℚ := xs.foldl max x

/-- Collaborators that do nothing, on a one point world, whose systems all report the
change -1. -/
def receding : Collaborators Unit :=
  { system_solve := fun _ w => w
    system_update := fun _ w => w
    system_output := fun _ w => w
    system_maxchange := fun _ _ => -1
    write_data := fun _ w => w
    sigint_received := fun _ => false }

/-- The sample bucket with the system `Stokes` registered and the steady state tolerance
`tol`. -/
def sample_bucket_with_tolerance (tol : ℚ) : Bucket :=
  { sample_bucket with
    systems_ := [("Stokes", sample_system_stokes)]
    orderedsystems_ := [(1, sample_system_stokes)]
    steadystate_tol_ := some tol }

/-- The sample bucket with the system `Stokes` registered and handles to all three
diagnostics files. -/
def sample_bucket_all_files : Bucket :=
  { sample_bucket with
    systems_ := [("Stokes", sample_system_stokes)]
    orderedsystems_ := [(1, sample_system_stokes)]
    statfile_ := true
    detfile_ := true
    steadyfile_ := true }

/-- A context with the boundary conditions 7 and 8, a preconditioner form and both
`ident_zeros` flags set. -/
def sample_ctx : SNESCtx :=
  { iteratedfunction := 3, linear := 10, bilinear := 11, bilinearpc := some 12,
    bcs := [7, 8], ident_zeros := true, ident_zeros_pc := true }

/-- Collaborators of the callbacks on a two by two saddle point problem: assembly adds the
form number to the entries (0,0), (0,1) and (1,0) and leaves the entry (1,1) a structural
zero, a boundary condition leaves its tensor as it is, and `ident_zeros` is the one
modelled from the spec. -/
def sample_solver : SolverCollaborators Unit :=
  { set_vector := fun _ _ w => w
    update_nonlinear := fun w => w
    assemble_vector := fun form _ _ v => fun i => v i + form
    assemble_matrix := fun form _ _ M => fun i j =>
      if i < 2 ∧ j < 2 ∧ ¬ (i = 1 ∧ j = 1) then some ((M i j).getD 0 + form) else M i j
    apply_vector := fun _ _ v => v
    apply_matrix := fun _ M => M
    ident_zeros := ident_zeros }

/-- The matrix without entries. -/
def empty_matrix : Mat := fun _ _ => none

/-! ## The modulo of the timestep dump rule -/

/-- The operator `%` on `int`: it has no value (`none`) when the divisor is 0, and is the
remainder of the truncated division otherwise. -/
def int_modulo (a b : Int) : Option Int := if b = 0 then none else some (Int.tmod a b)

/-- Method `Bucket::dump_` with the evaluation of `%` made explicit: the result is `none`
when a modulo with the divisor 0 is evaluated, and the result of the call otherwise. -/
def dump_with_checked_modulo (b : Bucket) (dump_period previous_dump_time : Option ℚ)
    (dump_period_timesteps : Option Int) : Option (Except Error (Bool × Option ℚ)) :=
  match dump_period with
  | some period =>
    if b.current_time = b.start_time then some (.ok (true, previous_dump_time))
    else
      match previous_dump_time with
      | none => some (.error .assertion_failed)
      | some previous =>
        if b.current_time - previous > period then some (.ok (true, some b.current_time))
        else some (.ok (false, some previous))
  | none =>
    match dump_period_timesteps with
    | some period_timesteps =>
      if b.timestep_count = 0 then some (.ok (true, previous_dump_time))
      else
        match int_modulo period_timesteps b.timestep_count with
        | none => none
        | some remainder => some (.ok (decide (remainder = 0), previous_dump_time))
    | none => some (.ok (true, previous_dump_time))

/-! ## The bound on the timesteps of a run -/

/-- The number max(1, ceil((finish_time - t0)/dt)) of the specification, for a run entered
at the time `t0` with the timestep `dt`. -/
def max_timesteps (t0 finish_time dt : ℚ) : Nat := max 1 ⌈(finish_time - t0) / dt⌉₊

/-! ## Bucket::attach_coeffs -/

/-- A form as `attach_coeffs` uses it (dolfin::Form is not part of the sources): what its
methods `num_coefficients()` and `coefficient_name(i)` return. -/
structure Form where
  num_coefficients : Nat
  coefficient_name : Nat → String

/-- A call `set_coefficient(uflsymbol, function)` on the form registered as `form`. -/
structure SetCoefficient where
  form : String
  uflsymbol : String
  function : GenericFunction_ptr
deriving DecidableEq, Repr

/-- The loop over the required coefficients in `Bucket::attach_coeffs`, for the indices
still to come: the bucket and the `set_coefficient` calls made so far are passed along. -/
def attach_coeffs_form (form : String × Form) :
    List Nat → Bucket × List SetCoefficient → Outcome (Bucket × List SetCoefficient) Unit
  | [], s => .returned () s
  | i :: rest, (b, calls) =>
    let uflsymbol := form.2.coefficient_name i
    match b.fetch_uflsymbol uflsymbol with
    | .returned function b =>
      attach_coeffs_form form rest (b, calls ++ [⟨form.1, uflsymbol, function⟩])
    | .aborted e b => .aborted e (b, calls)
    | .unfinished b => .unfinished (b, calls)

/-- Method `Bucket::attach_coeffs(f_begin, f_end)`, on the forms of the range in iteration
order. -/
def attach_coeffs :
    List (String × Form) → Bucket × List SetCoefficient →
      Outcome (Bucket × List SetCoefficient) Unit
  | [], s => .returned () s
  | form :: rest, s =>
    match attach_coeffs_form form (List.range form.2.num_coefficients) s with
    | .returned _ s => attach_coeffs rest s
    | .aborted e s => .aborted e s
    | .unfinished s => .unfinished s

/-- The pairs of form and symbol that the forms of the list request, in form order then
index order. -/
def requested_coefficients (forms : List (String × Form)) : List (String × String) :=
  forms.flatMap fun form =>
    (List.range form.2.num_coefficients).map fun i => (form.1, form.2.coefficient_name i)

/-- The function that `fetch_uflsymbol(uflsymbol)` returns, the empty pointer when it does
not return. -/
def Bucket.fetched_uflsymbol (b : Bucket) (uflsymbol : String) : GenericFunction_ptr :=
  match b.fetch_uflsymbol uflsymbol with
  | .returned function _ => function
  | _ => none

/-- A form with the two coefficients `us_i` and `nu`. -/
def sample_form : Form :=
  { num_coefficients := 2, coefficient_name := fun i => if i = 0 then "us_i" else "nu" }

/-- The sample bucket with the symbols `nu` and `us_i` registered, as the functions 10
and 3. -/
def sample_bucket_with_symbols : Bucket :=
  { sample_bucket with uflsymbols_ := [("nu", some 10), ("us_i", some 3)] }

/-! ## The destructor -/

/-- The sample bucket with the system `Stokes` registered, all three diagnostics files set
and the timestep period 4, without a time period, on each of its four streams. -/
def sample_bucket_every_four : Bucket :=
  { sample_bucket_all_files with
    visualization_period_timesteps_ := some 4
    statistics_period_timesteps_ := some 4
    steadystate_period_timesteps_ := some 4
    detectors_period_timesteps_ := some 4 }

/-- Collaborators that do nothing, on a one point world, whose system `Stokes` reports the
change 1/2 and whose other systems report the change 1/4. -/
def graded : Collaborators Unit :=
  { system_solve := fun _ w => w
    system_update := fun _ w => w
    system_output := fun _ w => w
    system_maxchange := fun s _ => if s.name = "Stokes" then 1 / 2 else 1 / 4
    write_data := fun _ w => w
    sigint_received := fun _ => false }

/-- The sample bucket with the systems `Advection` and `Stokes` registered, in this order,
and the steady state tolerance `tol`. -/
def sample_bucket_two_systems (tol : ℚ) : Bucket :=
  { sample_bucket with
    systems_ := [("Advection", sample_system_advection), ("Stokes", sample_system_stokes)]
    orderedsystems_ := [(1, sample_system_advection), (2, sample_system_stokes)]
    steadystate_tol_ := some tol }

/-! ## Configurations of a field split -/

/-- The split definitions of a configuration: the definitions `roots` of its first level,
and the child definitions of every definition of the configuration. -/
inductive SplitSpec.within (roots : List SplitSpec) : SplitSpec → Prop where
  | top {spec : SplitSpec} : spec ∈ roots → SplitSpec.within roots spec
  | child {spec c : SplitSpec} :
    SplitSpec.within roots spec → c ∈ spec.children → SplitSpec.within roots c

/-- The integer nearest to `q`, the even one of the two when `q` lies half way between
them. -/
def round_half_even (q : ℚ) : Int :=
  let f := ⌊q⌋
  if q - f < 1 / 2 then f
  else if 1 / 2 < q - f then f + 1
  else if f % 2 = 0 then f else f + 1

/-- The `double` nearest to `x`, the one with the even mantissa on a tie: the rounding of
the exact result of an operation on `double` values.  A `double` has a mantissa of 53
bits; the range of its exponent is taken to be unbounded, so there is no overflow and no
subnormal number here. -/
def round_to_double (x : ℚ) : ℚ :=
  if x = 0 then 0
  else
    let ulp : ℚ := 2 ^ (Int.log 2 |x| - 52)
    round_half_even (x / ulp) * ulp

/-- Method `Bucket::dump_` in `double` arithmetic: `fl` rounds the exact difference
`current_time() - *previous_dump_time` to the `double` that is compared with the period.
With `fl` the identity this is `dump_`. -/
def dump_rounded (fl : ℚ → ℚ) (b : Bucket) (dump_period previous_dump_time : Option ℚ)
    (dump_period_timesteps : Option Int) : Except Error (Bool × Option ℚ) :=
  match dump_period with
  | some period =>
    if b.current_time = b.start_time then .ok (true, previous_dump_time)
    else
      match previous_dump_time with
      | none => .error .assertion_failed
      | some previous =>
        if fl (b.current_time - previous) > period then .ok (true, some b.current_time)
        else .ok (false, some previous)
  | none =>
    match dump_period_timesteps with
    | some period_timesteps =>
      if b.timestep_count = 0 then .ok (true, previous_dump_time)
      else .ok (decide (Int.tmod period_timesteps b.timestep_count = 0), previous_dump_time)
    | none => .ok (true, previous_dump_time)

/-- Method `Bucket::output` in `double` arithmetic. -/
def output_rounded {W : Type} (fl : ℚ → ℚ) (env : Collaborators W) (m : Machine W) :
    Outcome (Machine W) Unit :=
  let m := { m with trace := m.trace ++ [Event.output] }
  match dump_rounded fl m.bucket m.bucket.visualization_period_
      m.bucket.visualization_dumptime_ m.bucket.visualization_period_timesteps_ with
  | .error e => .aborted e m
  | .ok (write_vis, t) =>
    let m := { m with bucket := { m.bucket with visualization_dumptime_ := t } }
    match dump_rounded fl m.bucket m.bucket.statistics_period_ m.bucket.statistics_dumptime_
        m.bucket.statistics_period_timesteps_ with
    | .error e => .aborted e m
    | .ok (write_stat, t) =>
      let m := { m with bucket := { m.bucket with statistics_dumptime_ := t } }
      match dump_rounded fl m.bucket m.bucket.steadystate_period_
          m.bucket.steadystate_dumptime_ m.bucket.steadystate_period_timesteps_ with
      | .error e => .aborted e m
      | .ok (write_steady, t) =>
        let m := { m with bucket := { m.bucket with steadystate_dumptime_ := t } }
        match dump_rounded fl m.bucket m.bucket.detectors_period_
            m.bucket.detectors_dumptime_ m.bucket.detectors_period_timesteps_ with
        | .error e => .aborted e m
        | .ok (write_det, t) =>
          let m := { m with bucket := { m.bucket with detectors_dumptime_ := t } }
          output_write env write_vis write_stat write_steady write_det m

/-- The timeloop of `Bucket::run` in `double` arithmetic: `fl` rounds the exact sum
`*current_time_ + timestep()` to the `double` that is stored in `*current_time_`.  With
`fl` the identity this is `timeloop`. -/
def timeloop_rounded {W : Type} (fl : ℚ → ℚ) (env : Collaborators W) :
    Nat → Machine W → Outcome (Machine W) Unit
  | 0, m => .unfinished m
  | fuel + 1, m =>
    let m1 : Machine W :=
      nonlinear_loop env { m with bucket := { m.bucket with iteration_count_ := 0 } }
    let t : ℚ := fl (m1.bucket.current_time_ + m1.bucket.timestep)
    let m2 : Machine W :=
      { m1 with bucket := { m1.bucket with current_time_ := t },
                trace := m1.trace ++ [Event.current_time t] }
    let n : Int := m2.bucket.timestep_count_ + 1
    let m3 : Machine W :=
      { m2 with bucket := { m2.bucket with timestep_count_ := n },
                trace := m2.trace ++ [Event.timestep_count n] }
    match output_rounded fl env m3 with
    | .aborted e m4 => .aborted e m4
    | .unfinished m4 => .unfinished m4
    | .returned _ m4 =>
      let c := complete env m4
      let continue_timestepping := !c.1
      let m5 := update env c.2
      if continue_timestepping then timeloop_rounded fl env fuel m5 else .returned () m5

/-- The state a timestep in `double` arithmetic reaches just before its `output()` call:
the nonlinear iterations are done, the time is advanced and the timestep is counted. -/
def before_output_rounded {W : Type} (fl : ℚ → ℚ) (env : Collaborators W) (m : Machine W) :
    Machine W :=
  let m1 : Machine W :=
    nonlinear_loop env { m with bucket := { m.bucket with iteration_count_ := 0 } }
  let t : ℚ := fl (m1.bucket.current_time_ + m1.bucket.timestep)
  let m2 : Machine W :=
    { m1 with bucket := { m1.bucket with current_time_ := t },
              trace := m1.trace ++ [Event.current_time t] }
  let n : Int := m2.bucket.timestep_count_ + 1
  { m2 with bucket := { m2.bucket with timestep_count_ := n },
            trace := m2.trace ++ [Event.timestep_count n] }

/-- Method `Bucket::run` in `double` arithmetic. -/
def run_rounded {W : Type} (fl : ℚ → ℚ) (env : Collaborators W) (fuel : Nat) (m : Machine W) :
    Outcome (Machine W) Unit :=
  match output_rounded fl env m with
  | .aborted e m => .aborted e m
  | .unfinished m => .unfinished m
  | .returned _ m => timeloop_rounded fl env fuel m

/-- The sample bucket at the time 2^53 = 9007199254740992, set up to run to the time
2^53 + 2 in steps of 1; all three times are `double` values. -/
def stalled_bucket : Bucket :=
  { sample_bucket with
    current_time_ := 9007199254740992
    finish_time_ := 9007199254740994
    timestep_value := 1 }

/-- The sample bucket at the time 0.8, as the `double` nearest to it. -/
def sample_bucket_at_eight_tenths : Bucket :=
  { sample_bucket with current_time_ := 3602879701896397 / 4503599627370496 }

/-! # Theorems -/

/-! ## std::map lemmas -/

theorem StdMap.find_isSome_iff {κ α : Type} [DecidableEq κ] (m : StdMap κ α) (k : κ) :
    (StdMap.find m k).isSome = true ↔ k ∈ StdMap.keys m := by
  induction m with
  | nil => simp [StdMap.find, StdMap.keys]
  | cons e rest ih =>
    obtain ⟨k', v'⟩ := e
    by_cases h : k = k'
    · simp [StdMap.find, StdMap.keys, h]
    · simp only [StdMap.keys] at ih
      simp [StdMap.find, StdMap.keys, h, ih]

theorem StdMap.find_eq_none_iff {κ α : Type} [DecidableEq κ] (m : StdMap κ α) (k : κ) :
    StdMap.find m k = none ↔ k ∉ StdMap.keys m := by
  rw [← StdMap.find_isSome_iff]
  cases StdMap.find m k <;> simp

theorem StdMap.find_assign_self {κ α : Type} [DecidableEq κ] [LT κ]
    [DecidableRel (fun a b : κ => a < b)] (m : StdMap κ α) (k : κ) (v : α) :
    StdMap.find (StdMap.assign m k v) k = some v := by
  induction m with
  | nil => simp [StdMap.find, StdMap.assign]
  | cons e rest ih =>
    obtain ⟨k', v'⟩ := e
    by_cases h : k = k'
    · simp [StdMap.find, StdMap.assign, h]
    · by_cases hlt : k < k'
      · simp [StdMap.find, StdMap.assign, h, hlt]
      · simp [StdMap.find, StdMap.assign, h, hlt, ih]

theorem StdMap.find_assign_other {κ α : Type} [DecidableEq κ] [LT κ]
    [DecidableRel (fun a b : κ => a < b)] (m : StdMap κ α) (k j : κ) (v : α) (hj : j ≠ k) :
    StdMap.find (StdMap.assign m k v) j = StdMap.find m j := by
  induction m with
  | nil => simp [StdMap.find, StdMap.assign, hj]
  | cons e rest ih =>
    obtain ⟨k', v'⟩ := e
    by_cases h : k = k'
    · subst h
      simp [StdMap.find, StdMap.assign, hj]
    · by_cases hlt : k < k'
      · simp [StdMap.find, StdMap.assign, h, hlt, hj]
      · simp [StdMap.find, StdMap.assign, h, hlt, ih]

theorem StdMap.size_assign_new {κ α : Type} [DecidableEq κ] [LT κ]
    [DecidableRel (fun a b : κ => a < b)] (m : StdMap κ α) (k : κ) (v : α)
    (hk : StdMap.find m k = none) :
    StdMap.size (StdMap.assign m k v) = StdMap.size m + 1 := by
  induction m with
  | nil => simp [StdMap.size, StdMap.assign]
  | cons e rest ih =>
    obtain ⟨k', v'⟩ := e
    by_cases h : k = k'
    · simp [StdMap.find, h] at hk
    · have hk' : StdMap.find rest k = none := by simpa [StdMap.find, h] using hk
      by_cases hlt : k < k'
      · simp [StdMap.size, StdMap.assign, h, hlt]
      · have := ih hk'
        simp only [StdMap.size] at this
        simp [StdMap.size, StdMap.assign, h, hlt, this]

/-! ## Symbol registry -/

/-- States reached from `b` by a sequence of `register_uflsymbol(function, uflsymbol)`
calls, each continuing from the state the previous one left (also when it failed). -/
theorem register_uflsymbol_state (b : Bucket) (function : GenericFunction_ptr)
    (uflsymbol : String) :
    (b.register_uflsymbol function uflsymbol).state.uflsymbols_ =
      if uflsymbol ∈ StdMap.keys b.uflsymbols_ then b.uflsymbols_
      else StdMap.assign b.uflsymbols_ uflsymbol function := by
  unfold Bucket.register_uflsymbol
  cases h : StdMap.find b.uflsymbols_ uflsymbol with
  | none =>
    have := (StdMap.find_eq_none_iff _ _).1 h
    simp [Outcome.state, this]
  | some f =>
    have : uflsymbol ∈ StdMap.keys b.uflsymbols_ := by
      rw [← StdMap.find_isSome_iff, h]; rfl
    simp [Outcome.state, this]

theorem find_after_register_uflsymbols (calls : List (GenericFunction_ptr × String))
    (b : Bucket) (uflsymbol : String) :
    StdMap.find (calls.foldl (fun b c => (b.register_uflsymbol c.1 c.2).state) b).uflsymbols_
        uflsymbol =
      match StdMap.find b.uflsymbols_ uflsymbol with
      | some f => some f
      | none => (calls.find? (fun c => c.2 = uflsymbol)).map Prod.fst := by
  induction calls generalizing b with
  | nil =>
    simp only [List.foldl_nil]
    cases StdMap.find b.uflsymbols_ uflsymbol <;> simp
  | cons c rest ih =>
    rw [List.foldl_cons, ih, register_uflsymbol_state]
    by_cases hc : c.2 ∈ StdMap.keys b.uflsymbols_
    · rw [if_pos hc]
      cases h : StdMap.find b.uflsymbols_ uflsymbol with
      | some f => rfl
      | none =>
        have hne : ¬ c.2 = uflsymbol := by
          intro he
          rw [he] at hc
          exact (StdMap.find_eq_none_iff _ _).1 h hc
        simp [List.find?, hne]
    · rw [if_neg hc]
      by_cases he : c.2 = uflsymbol
      · subst he
        rw [StdMap.find_assign_self, (StdMap.find_eq_none_iff _ _).2 hc]
        simp [List.find?]
      · rw [StdMap.find_assign_other _ _ _ _ (Ne.symm he)]
        cases h : StdMap.find b.uflsymbols_ uflsymbol with
        | some f => rfl
        | none => simp [List.find?, he]

/-- C7: `register_uflsymbol(function, name)` fails exactly when `name` is already a key of
the symbol registry, then with the duplicate-name error and also when `name` is bound to
the empty placeholder; otherwise it succeeds and `fetch_uflsymbol(name)` returns exactly
`function`. -/
theorem register_uflsymbol_fails_iff_present (b : Bucket) (function : GenericFunction_ptr)
    (uflsymbol : String) :
    ((∃ e s, b.register_uflsymbol function uflsymbol = .aborted e s) ↔
        uflsymbol ∈ StdMap.keys b.uflsymbols_) ∧
    (uflsymbol ∈ StdMap.keys b.uflsymbols_ →
        b.register_uflsymbol function uflsymbol = .aborted (.already_exists uflsymbol) b) ∧
    (StdMap.find b.uflsymbols_ uflsymbol = some none →
        b.register_uflsymbol function uflsymbol = .aborted (.already_exists uflsymbol) b) ∧
    (uflsymbol ∉ StdMap.keys b.uflsymbols_ →
        ∃ b', b.register_uflsymbol function uflsymbol = .returned () b' ∧
          b'.fetch_uflsymbol uflsymbol = .returned function b') := by
  unfold Bucket.register_uflsymbol
  cases h : StdMap.find b.uflsymbols_ uflsymbol with
  | none =>
    have hk := (StdMap.find_eq_none_iff _ _).1 h
    refine ⟨?_, ?_, ?_, ?_⟩
    · simp [hk]
    · intro hin; exact absurd hin hk
    · intro hf; cases hf
    · intro _
      refine ⟨_, rfl, ?_⟩
      simp [Bucket.fetch_uflsymbol, StdMap.find_assign_self]
  | some f =>
    have hk : uflsymbol ∈ StdMap.keys b.uflsymbols_ := by
      rw [← StdMap.find_isSome_iff, h]; rfl
    refine ⟨?_, ?_, ?_, ?_⟩
    · simp [hk]
    · intro _; rfl
    · intro _; rfl
    · intro hn; exact absurd hk hn

/-- C8: `fetch_uflsymbol(name)` fails, with the not-found error, exactly when `name` is not
in the registry, and for a registry filled from empty by any sequence of
`register_uflsymbol` calls that is exactly when no call registered `name`; otherwise it
returns the function of the call that registered `name` (the first one with that name),
be it the empty placeholder `none` or a bound function `some i`; the bucket after the
fetch is the bucket before it in both cases. -/
theorem fetch_uflsymbol_fails_iff_never_registered (b0 : Bucket)
    (calls : List (GenericFunction_ptr × String)) (uflsymbol : String) :
    (∀ b : Bucket,
      ((∃ e s, b.fetch_uflsymbol uflsymbol = .aborted e s) ↔
          uflsymbol ∉ StdMap.keys b.uflsymbols_) ∧
      (uflsymbol ∉ StdMap.keys b.uflsymbols_ →
          b.fetch_uflsymbol uflsymbol = .aborted (.does_not_exist uflsymbol) b) ∧
      (∀ f, StdMap.find b.uflsymbols_ uflsymbol = some f →
          b.fetch_uflsymbol uflsymbol = .returned f b) ∧
      (b.fetch_uflsymbol uflsymbol).state = b) ∧
    (let b := calls.foldl (fun b c => (b.register_uflsymbol c.1 c.2).state)
        { b0 with uflsymbols_ := [] }
     (b.fetch_uflsymbol uflsymbol = .aborted (.does_not_exist uflsymbol) b ↔
        uflsymbol ∉ calls.map Prod.snd) ∧
     (∀ f, (calls.find? (fun c => c.2 = uflsymbol)).map Prod.fst = some f →
        b.fetch_uflsymbol uflsymbol = .returned f b)) := by
  constructor
  · intro b
    unfold Bucket.fetch_uflsymbol
    cases h : StdMap.find b.uflsymbols_ uflsymbol with
    | none =>
      have hk := (StdMap.find_eq_none_iff _ _).1 h
      simp [hk, Outcome.state]
    | some f =>
      have hk : uflsymbol ∈ StdMap.keys b.uflsymbols_ := by
        rw [← StdMap.find_isSome_iff, h]; rfl
      simp [hk, Outcome.state]
  · intro b
    have hfind := find_after_register_uflsymbols calls { b0 with uflsymbols_ := [] } uflsymbol
    simp only [StdMap.find] at hfind
    constructor
    · unfold Bucket.fetch_uflsymbol
      show (match StdMap.find b.uflsymbols_ uflsymbol with
        | none => Outcome.aborted (Error.does_not_exist uflsymbol) b
        | some function => Outcome.returned function b) = _ ↔ _
      rw [hfind]
      cases hc : calls.find? (fun c => c.2 = uflsymbol) with
      | none =>
        simp only [Option.map_none', true_iff]
        intro hmem
        obtain ⟨c, hcm, hce⟩ := List.mem_map.1 hmem
        have := List.find?_eq_none.1 hc c hcm
        simp [hce] at this
      | some c =>
        have hmem := List.mem_of_find?_eq_some hc
        have hp := List.find?_some hc
        simp only [decide_eq_true_eq] at hp
        simp only [Option.map_some', false_iff, not_not, reduceCtorEq]
        exact List.mem_map.2 ⟨c, hmem, hp⟩
    · intro f hf
      unfold Bucket.fetch_uflsymbol
      show (match StdMap.find b.uflsymbols_ uflsymbol with
        | none => Outcome.aborted (Error.does_not_exist uflsymbol) b
        | some function => Outcome.returned function b) = _
      rw [hfind, hf]

/-- C9: when `register_uflsymbol(g, name)` finds `name` already registered with `f`, it
fails and leaves the bucket as it was: `fetch_uflsymbol(name)` still returns `f`, and
every other symbol is fetched as before. -/
theorem register_uflsymbol_never_overwrites (b : Bucket) (f g : GenericFunction_ptr)
    (uflsymbol : String) (h : b.fetch_uflsymbol uflsymbol = .returned f b) :
    b.register_uflsymbol g uflsymbol = .aborted (.already_exists uflsymbol) b ∧
    (b.register_uflsymbol g uflsymbol).state = b ∧
    (b.register_uflsymbol g uflsymbol).state.fetch_uflsymbol uflsymbol = .returned f b ∧
    ∀ other : String,
      (b.register_uflsymbol g uflsymbol).state.fetch_uflsymbol other = b.fetch_uflsymbol other := by
  have hfind : StdMap.find b.uflsymbols_ uflsymbol = some f := by
    unfold Bucket.fetch_uflsymbol at h
    cases hf : StdMap.find b.uflsymbols_ uflsymbol with
    | none => rw [hf] at h; cases h
    | some f' => rw [hf] at h; cases h; rfl
  have hreg : b.register_uflsymbol g uflsymbol = .aborted (.already_exists uflsymbol) b := by
    unfold Bucket.register_uflsymbol
    rw [hfind]
  refine ⟨hreg, ?_, ?_, ?_⟩
  · rw [hreg]; rfl
  · rw [hreg]; exact h
  · intro other; rw [hreg]; rfl

/-- Witness for C9: `T` is registered with function 7, a second registration of `T` with
function 8 fails and `T` still resolves to 7. -/
theorem register_uflsymbol_never_overwrites_witness :
    ({ sample_bucket with uflsymbols_ := [("T", some 7)] } : Bucket).register_uflsymbol
        (some 8) "T" =
      .aborted (.already_exists "T") { sample_bucket with uflsymbols_ := [("T", some 7)] } ∧
    (({ sample_bucket with uflsymbols_ := [("T", some 7)] } : Bucket).register_uflsymbol
        (some 8) "T").state.fetch_uflsymbol "T" =
      .returned (some 7) { sample_bucket with uflsymbols_ := [("T", some 7)] } :=
  have h := register_uflsymbol_never_overwrites
    { sample_bucket with uflsymbols_ := [("T", some 7)] } (some 7) (some 8) "T"
    (by simp [Bucket.fetch_uflsymbol, StdMap.find])
  ⟨h.1, h.2.2.1⟩

/-! ## The other name keyed registries -/

/-- C10: in each name keyed registry of the bucket (meshes, systems, detector sets,
coefficient function spaces, base symbol aliases), registering a name that is present fails
with the duplicate-name error and leaves the bucket unchanged, fetching a name that is not
present fails with the not-found error, and a name that was not present is, once
registered, fetched back as the registered object. -/
theorem registries_reject_duplicates_and_unknown_names (b : Bucket) (name : String)
    (mesh : Mesh_ptr) (system : SystemBucket) (detector : GenericDetectors_ptr)
    (coefficientspace : FunctionSpace_ptr) (baseuflsymbol : String) :
    ((name ∈ StdMap.keys b.meshes_ →
        b.register_mesh mesh name = .aborted (.already_exists name) b) ∧
     (name ∉ StdMap.keys b.meshes_ →
        b.fetch_mesh name = .aborted (.does_not_exist name) b ∧
        ∃ b', b.register_mesh mesh name = .returned () b' ∧
          b'.fetch_mesh name = .returned mesh b')) ∧
    ((name ∈ StdMap.keys b.systems_ →
        b.register_system system name = .aborted (.already_exists name) b) ∧
     (name ∉ StdMap.keys b.systems_ →
        b.fetch_system name = .aborted (.does_not_exist name) b ∧
        ∃ b', b.register_system system name = .returned () b' ∧
          b'.fetch_system name = .returned system b')) ∧
    ((name ∈ StdMap.keys b.detectors_ →
        b.register_detector detector name = .aborted (.already_exists name) b) ∧
     (name ∉ StdMap.keys b.detectors_ →
        b.fetch_detector name = .aborted (.does_not_exist name) b ∧
        ∃ b', b.register_detector detector name = .returned () b' ∧
          b'.fetch_detector name = .returned detector b')) ∧
    ((name ∈ StdMap.keys b.coefficientspaces_ →
        b.register_coefficientspace coefficientspace name =
          .aborted (.already_exists name) b) ∧
     (name ∉ StdMap.keys b.coefficientspaces_ →
        b.fetch_coefficientspace name = .aborted (.does_not_exist name) b ∧
        ∃ b', b.register_coefficientspace coefficientspace name = .returned () b' ∧
          b'.fetch_coefficientspace name = .returned coefficientspace b')) ∧
    ((name ∈ StdMap.keys b.baseuflsymbols_ →
        b.register_baseuflsymbol baseuflsymbol name = .aborted (.already_exists name) b) ∧
     (name ∉ StdMap.keys b.baseuflsymbols_ →
        b.fetch_baseuflsymbol name = .aborted (.does_not_exist name) b ∧
        ∃ b', b.register_baseuflsymbol baseuflsymbol name = .returned () b' ∧
          b'.fetch_baseuflsymbol name = .returned baseuflsymbol b')) := by
  refine ⟨⟨?_, ?_⟩, ⟨?_, ?_⟩, ⟨?_, ?_⟩, ⟨?_, ?_⟩, ⟨?_, ?_⟩⟩
  · intro hk
    rw [← StdMap.find_isSome_iff] at hk
    unfold Bucket.register_mesh
    cases h : StdMap.find b.meshes_ name with
    | none => rw [h] at hk; cases hk
    | some v => rfl
  · intro hk
    have h := (StdMap.find_eq_none_iff _ _).2 hk
    unfold Bucket.register_mesh Bucket.fetch_mesh
    rw [h]
    exact ⟨rfl, _, rfl, by simp [StdMap.find_assign_self]⟩
  · intro hk
    rw [← StdMap.find_isSome_iff] at hk
    unfold Bucket.register_system
    cases h : StdMap.find b.systems_ name with
    | none => rw [h] at hk; cases hk
    | some v => rfl
  · intro hk
    have h := (StdMap.find_eq_none_iff _ _).2 hk
    unfold Bucket.register_system Bucket.fetch_system
    rw [h]
    exact ⟨rfl, _, rfl, by simp [StdMap.find_assign_self]⟩
  · intro hk
    rw [← StdMap.find_isSome_iff] at hk
    unfold Bucket.register_detector
    cases h : StdMap.find b.detectors_ name with
    | none => rw [h] at hk; cases hk
    | some v => rfl
  · intro hk
    have h := (StdMap.find_eq_none_iff _ _).2 hk
    unfold Bucket.register_detector Bucket.fetch_detector
    rw [h]
    exact ⟨rfl, _, rfl, by simp [StdMap.find_assign_self]⟩
  · intro hk
    rw [← StdMap.find_isSome_iff] at hk
    unfold Bucket.register_coefficientspace
    cases h : StdMap.find b.coefficientspaces_ name with
    | none => rw [h] at hk; cases hk
    | some v => rfl
  · intro hk
    have h := (StdMap.find_eq_none_iff _ _).2 hk
    unfold Bucket.register_coefficientspace Bucket.fetch_coefficientspace
    rw [h]
    exact ⟨rfl, _, rfl, by simp [StdMap.find_assign_self]⟩
  · intro hk
    rw [← StdMap.find_isSome_iff] at hk
    unfold Bucket.register_baseuflsymbol
    cases h : StdMap.find b.baseuflsymbols_ name with
    | none => rw [h] at hk; cases hk
    | some v => rfl
  · intro hk
    have h := (StdMap.find_eq_none_iff _ _).2 hk
    unfold Bucket.register_baseuflsymbol Bucket.fetch_baseuflsymbol
    rw [h]
    exact ⟨rfl, _, rfl, by simp [StdMap.find_assign_self]⟩

/-! ## Termination check and the calls on the systems -/

/-- C4: `complete()` returns true exactly when the finish time is reached, the steady state
check is true or SIGINT has been received, and false when none of the three holds. -/
theorem complete_true_iff {W : Type} (env : Collaborators W) (m : Machine W) :
    ((complete env m).1 = true ↔
      (m.bucket.current_time_ ≥ m.bucket.finish_time_ ∨ steadystate_ env m = true ∨
        env.sigint_received m.world = true)) ∧
    ((complete env m).1 = false ↔
      (m.bucket.current_time_ < m.bucket.finish_time_ ∧ steadystate_ env m = false ∧
        env.sigint_received m.world = false)) := by
  unfold complete
  simp only [Bucket.current_time, Bucket.finish_time]
  by_cases h1 : m.bucket.current_time_ ≥ m.bucket.finish_time_ <;>
    cases h2 : steadystate_ env m <;> cases h3 : env.sigint_received m.world <;>
    simp_all

theorem for_each_system_eq {κ W : Type} (call : SystemBucket → W → W)
    (event : SystemBucket → Event) (systems : StdMap κ SystemBucket) (w : W)
    (trace : List Event) :
    for_each_system call event systems (w, trace) =
      ((systems.map Prod.snd).foldl (fun w s => call s w) w,
        trace ++ (systems.map Prod.snd).map event) := by
  induction systems generalizing w trace with
  | nil => simp [for_each_system]
  | cons e rest ih =>
    obtain ⟨k, s⟩ := e
    simp [for_each_system, ih]

theorem numbered_from_values (k : Nat) (systems : List SystemBucket) :
    (numbered_from k systems).map Prod.snd = systems := by
  induction systems generalizing k with
  | nil => rfl
  | cons s rest ih => simp [numbered_from, ih]

theorem assign_numbered_from (k : Nat) (systems : List SystemBucket) (s : SystemBucket) :
    StdMap.assign (numbered_from k systems) ((k : Int) + systems.length) s =
      numbered_from k (systems ++ [s]) := by
  induction systems generalizing k with
  | nil => simp [numbered_from, StdMap.assign]
  | cons s' rest ih =>
    have h1 : ¬ ((k : Int) + ((s' :: rest).length : Int) = (k : Int)) := by
      simp only [List.length_cons]; push_cast; omega
    have h2 : ¬ ((k : Int) + ((s' :: rest).length : Int) < (k : Int)) := by
      simp only [List.length_cons]; push_cast; omega
    have h3 : (k : Int) + ((s' :: rest).length : Int) = ((k + 1 : Nat) : Int) + rest.length := by
      simp only [List.length_cons]; push_cast; omega
    simp only [numbered_from, StdMap.assign, List.cons_append, if_neg h1, if_neg h2]
    rw [h3, ih]
    rfl

theorem int_cast_small (n : Nat) (h : n < 2147483648) : int_cast n = n := by
  unfold int_cast
  omega

theorem keys_assign_new {κ α : Type} [DecidableEq κ] [LT κ]
    [DecidableRel (fun a b : κ => a < b)] (m : StdMap κ α) (k j : κ) (v : α) :
    j ∈ StdMap.keys (StdMap.assign m k v) ↔ j = k ∨ j ∈ StdMap.keys m := by
  rw [← StdMap.find_isSome_iff, ← StdMap.find_isSome_iff]
  by_cases h : j = k
  · subst h
    simp [StdMap.find_assign_self]
  · rw [StdMap.find_assign_other _ _ _ _ h]
    simp [h]

theorem orderedsystems_after_register_systems (calls : List (SystemBucket × String))
    (b : Bucket) (done : List SystemBucket) (seen : List String)
    (hord : b.orderedsystems_ = numbered_from 1 done)
    (hsize : StdMap.size b.systems_ = done.length)
    (hkeys : ∀ n, n ∈ StdMap.keys b.systems_ ↔ n ∈ seen)
    (hlen : done.length + calls.length < 2147483648) :
    (register_systems b calls).orderedsystems_ =
      numbered_from 1 (done ++ first_registrations calls seen) := by
  induction calls generalizing b done seen with
  | nil => simp [register_systems, first_registrations, hord]
  | cons c rest ih =>
    obtain ⟨s, n⟩ := c
    simp only [List.length_cons] at hlen
    have hstep : register_systems b ((s, n) :: rest) =
        register_systems (b.register_system s n).state rest := by
      simp [register_systems]
    rw [hstep]
    by_cases hn : n ∈ seen
    · have hfind : (StdMap.find b.systems_ n).isSome = true :=
        (StdMap.find_isSome_iff _ _).2 ((hkeys n).2 hn)
      have hst : (b.register_system s n).state = b := by
        unfold Bucket.register_system
        cases h : StdMap.find b.systems_ n with
        | none => rw [h] at hfind; cases hfind
        | some v => rfl
      rw [hst]
      simp only [first_registrations, if_pos hn]
      exact ih b done seen hord hsize hkeys (by omega)
    · have hfind : StdMap.find b.systems_ n = none :=
        (StdMap.find_eq_none_iff _ _).2 (fun h => hn ((hkeys n).1 h))
      have hsz := StdMap.size_assign_new b.systems_ n s hfind
      have hst : (b.register_system s n).state =
          { b with
            systems_ := StdMap.assign b.systems_ n s
            orderedsystems_ := StdMap.assign b.orderedsystems_
              (int_cast (StdMap.size (StdMap.assign b.systems_ n s))) s } := by
        unfold Bucket.register_system
        rw [hfind]
        rfl
      rw [hst]
      simp only [first_registrations, if_neg hn]
      have hcast : int_cast (StdMap.size (StdMap.assign b.systems_ n s)) =
          ((1 : Nat) : Int) + done.length := by
        rw [hsz, hsize, int_cast_small _ (by omega)]
        push_cast; omega
      have := ih { b with
            systems_ := StdMap.assign b.systems_ n s
            orderedsystems_ := StdMap.assign b.orderedsystems_
              (int_cast (StdMap.size (StdMap.assign b.systems_ n s))) s }
          (done ++ [s]) (n :: seen)
          (by
            show StdMap.assign b.orderedsystems_ _ s = _
            rw [hcast, hord, assign_numbered_from])
          (by
            show StdMap.size (StdMap.assign b.systems_ n s) = _
            rw [hsz, hsize]; simp)
          (by
            intro n'
            show n' ∈ StdMap.keys (StdMap.assign b.systems_ n s) ↔ _
            rw [keys_assign_new, hkeys]
            simp)
          (by simp; omega)
      simpa using this

/-- C6: after any sequence of fewer than 2^31 `register_system` calls on a bucket without
systems, `solve()` calls `solve` once on each system whose registration succeeded, in the
order of those registrations, and `update()` calls `update` on them in the same order. -/
theorem solve_and_update_follow_registration_order {W : Type} (env : Collaborators W)
    (m : Machine W) (calls : List (SystemBucket × String))
    (hlen : calls.length < 2147483648) :
    let registered := first_registrations calls []
    let b' := register_systems { m.bucket with systems_ := [], orderedsystems_ := [] } calls
    let m' : Machine W := { m with bucket := b' }
    (solve env m').trace = m.trace ++ Event.solve :: registered.map Event.system_solve ∧
    (solve env m').world = registered.foldl (fun w s => env.system_solve s w) m.world ∧
    (update env m').trace = m.trace ++ Event.update :: registered.map Event.system_update ∧
    (update env m').world = registered.foldl (fun w s => env.system_update s w) m.world := by
  intro registered b' m'
  have hvals : b'.orderedsystems_.map Prod.snd = registered := by
    have := orderedsystems_after_register_systems calls
      { m.bucket with systems_ := [], orderedsystems_ := [] } [] []
      rfl rfl (by intro n; simp [StdMap.keys]) (by simpa using hlen)
    simp only [List.nil_append] at this
    show (register_systems _ calls).orderedsystems_.map Prod.snd = _
    rw [this, numbered_from_values]
  simp only [solve, update, for_each_system_eq, m', hvals]
  simp

/-- Witness for C6: `Stokes` is registered before `Advection` (and a second registration of
`Stokes` fails); `solve()` calls the two systems in that order, not in name order. -/
theorem solve_and_update_follow_registration_order_witness :
    (solve idle ⟨register_systems sample_bucket
        [(sample_system_stokes, "Stokes"), (sample_system_advection, "Advection"),
          (sample_system_advection, "Stokes")], (), []⟩).trace =
      [Event.solve, Event.system_solve sample_system_stokes,
        Event.system_solve sample_system_advection] := by
  have h := (solve_and_update_follow_registration_order idle
    { bucket := sample_bucket, world := (), trace := [] }
    [(sample_system_stokes, "Stokes"), (sample_system_advection, "Advection"),
      (sample_system_advection, "Stokes")] (by simp)).1
  simpa [first_registrations, sample_bucket] using h

/-! ## The methods called by the timeloop -/

theorem run_steps_append (a b : List Event) : run_steps (a ++ b) = run_steps a ++ run_steps b := by
  simp [run_steps]

theorem run_steps_system_events (event : SystemBucket → Event)
    (h : ∀ s, (event s).of_run = false) (systems : List SystemBucket) :
    run_steps (systems.map event) = [] := by
  induction systems with
  | nil => rfl
  | cons s rest ih =>
    simp only [run_steps] at ih
    simp [run_steps, h, ih]

theorem Machine.reaches_refl {W : Type} (m : Machine W) : m.reaches m [] :=
  ⟨[], by simp, rfl⟩

theorem Machine.reaches_trans {W : Type} {m1 m2 m3 : Machine W} {s1 s2 : List Event}
    (h1 : m1.reaches m2 s1) (h2 : m2.reaches m3 s2) : m1.reaches m3 (s1 ++ s2) := by
  obtain ⟨t1, e1, r1⟩ := h1
  obtain ⟨t2, e2, r2⟩ := h2
  exact ⟨t1 ++ t2, by rw [e2, e1, List.append_assoc], by rw [run_steps_append, r1, r2]⟩

theorem solve_spec {W : Type} (env : Collaborators W) (m : Machine W) :
    (solve env m).bucket = m.bucket ∧ m.reaches (solve env m) [Event.solve] := by
  refine ⟨rfl, Event.solve :: (m.bucket.orderedsystems_.map Prod.snd).map Event.system_solve,
    ?_, ?_⟩
  · simp [solve, for_each_system_eq]
  · have := run_steps_system_events Event.system_solve (fun _ => rfl)
      (m.bucket.orderedsystems_.map Prod.snd)
    rw [← List.singleton_append, run_steps_append, this]
    rfl

theorem update_spec {W : Type} (env : Collaborators W) (m : Machine W) :
    (update env m).bucket = m.bucket ∧ m.reaches (update env m) [Event.update] := by
  refine ⟨rfl, Event.update :: (m.bucket.orderedsystems_.map Prod.snd).map Event.system_update,
    ?_, ?_⟩
  · simp [update, for_each_system_eq]
  · have := run_steps_system_events Event.system_update (fun _ => rfl)
      (m.bucket.orderedsystems_.map Prod.snd)
    rw [← List.singleton_append, run_steps_append, this]
    rfl

theorem complete_spec {W : Type} (env : Collaborators W) (m : Machine W) :
    (complete env m).2.bucket = m.bucket ∧ (complete env m).2.world = m.world ∧
      m.reaches (complete env m).2 [Event.complete (complete env m).1] :=
  ⟨rfl, rfl, [Event.complete (complete env m).1], rfl, rfl⟩

theorem dump_spec (b : Bucket) (period previous : Option ℚ) (period_timesteps : Option Int) :
    (∃ d t, dump_ b period previous period_timesteps = .ok (d, t) ∧
      ((period.isSome = true → previous.isSome = true) →
        (period.isSome = true → t.isSome = true))) ∨
    (dump_ b period previous period_timesteps = .error .assertion_failed ∧
      ¬ (period.isSome = true → previous.isSome = true)) := by
  unfold dump_
  cases period with
  | none =>
    left
    cases period_timesteps with
    | none => exact ⟨true, previous, rfl, by simp⟩
    | some k =>
      by_cases h : b.timestep_count = 0
      · exact ⟨true, previous, by simp [h], by simp⟩
      · exact ⟨decide (Int.tmod k b.timestep_count = 0), previous, by simp [h], by simp⟩
  | some p =>
    by_cases h : b.current_time = b.start_time
    · left
      exact ⟨true, previous, by simp [h], by simp⟩
    · cases previous with
      | none =>
        right
        simp [h]
      | some prev =>
        left
        by_cases h2 : b.current_time - prev > p
        · exact ⟨true, some b.current_time, by simp only [h, h2, if_true, if_false], by simp⟩
        · exact ⟨false, some prev, by simp only [h, h2, if_true, if_false], by simp⟩

theorem output_write_spec {W : Type} (env : Collaborators W) (vis stat steady det : Bool)
    (m : Machine W) :
    (∃ m', output_write env vis stat steady det m = .returned () m' ∧
      m'.bucket = m.bucket ∧ m.reaches m' [] ∧ (stat = true → m.bucket.statfile_ = true)) ∨
    (output_write env vis stat steady det m = .aborted .null_pointer m ∧
      m.bucket.statfile_ = false) := by
  unfold output_write
  by_cases h : (stat && !m.bucket.statfile_) = true
  · right
    simp only [h, if_true, true_and]
    simp at h
    exact h.2
  · left
    simp only [h, if_false]
    refine ⟨_, rfl, ?_, ⟨(if stat then [Event.write_data .statfile] else []) ++
      (if (det && m.bucket.detfile_) = true then [Event.write_data .detfile] else []) ++
      (if (steady && m.bucket.steadyfile_ && decide (m.bucket.timestep_count > 0)) = true
        then [Event.write_data .steadyfile] else []) ++
      (if vis then (m.bucket.systems_.map Prod.snd).map Event.system_output else []), ?_, ?_⟩, ?_⟩
    · cases stat <;> cases hd : (det && m.bucket.detfile_) <;>
        cases hs : (steady && m.bucket.steadyfile_ && decide (m.bucket.timestep_count > 0)) <;>
        cases vis <;> simp [hd, hs]
    · cases stat <;> cases hd : (det && m.bucket.detfile_) <;>
        cases hs : (steady && m.bucket.steadyfile_ && decide (m.bucket.timestep_count > 0)) <;>
        cases vis <;> simp [hd, hs, for_each_system_eq]
    · have := run_steps_system_events Event.system_output (fun _ => rfl)
        (m.bucket.systems_.map Prod.snd)
      have hnil : run_steps [] = [] := rfl
      have hfile : ∀ f, run_steps [Event.write_data f] = [] := fun _ => rfl
      simp only [run_steps_append]
      cases stat <;> cases (det && m.bucket.detfile_) <;>
        cases (steady && m.bucket.steadyfile_ && decide (m.bucket.timestep_count > 0)) <;>
        cases vis <;>
        simp only [if_true, if_false, this, hnil, hfile, List.append_nil, Bool.false_eq_true]
    · intro hs
      simpa [hs] using h

theorem dump_ok {b : Bucket} {period previous : Option ℚ} {period_timesteps : Option Int}
    {d : Bool} {t : Option ℚ} (h : dump_ b period previous period_timesteps = .ok (d, t))
    (hp : period.isSome = true → previous.isSome = true) :
    period.isSome = true → t.isSome = true := by
  rcases dump_spec b period previous period_timesteps with ⟨d', t', h', himp⟩ | ⟨h', _⟩
  · rw [h] at h'
    cases h'
    exact himp hp
  · rw [h] at h'
    cases h'

theorem dump_error {b : Bucket} {period previous : Option ℚ} {period_timesteps : Option Int}
    {e : Error} (h : dump_ b period previous period_timesteps = .error e) :
    ¬ (period.isSome = true → previous.isSome = true) := by
  rcases dump_spec b period previous period_timesteps with ⟨d', t', h', _⟩ | ⟨_, hn⟩
  · rw [h] at h'
    cases h'
  · exact hn

theorem output_spec {W : Type} (env : Collaborators W) (m : Machine W) :
    output_post m (output env m) := by
  have hout : m.reaches { m with trace := m.trace ++ [Event.output] } [Event.output] :=
    ⟨[Event.output], rfl, rfl⟩
  unfold output
  simp only []
  split
  · next e h1 =>
    exact ⟨hout, fun hr => dump_error h1 hr.2.1⟩
  · next vis t1 h1 =>
    split
    · next e h2 =>
      exact ⟨hout, fun hr => dump_error h2 hr.2.2.1⟩
    · next stat t2 h2 =>
      split
      · next e h3 =>
        exact ⟨hout, fun hr => dump_error h3 hr.2.2.2.1⟩
      · next steady t3 h3 =>
        split
        · next e h4 =>
          exact ⟨hout, fun hr => dump_error h4 hr.2.2.2.2⟩
        · next det t4 h4 =>
          rcases output_write_spec env vis stat steady det
              (⟨m.bucket.advanced m.bucket.current_time_ m.bucket.timestep_count_
                  m.bucket.iteration_count_ t1 t2 t3 t4, m.world, m.trace ++ [Event.output]⟩ :
                Machine W)
            with ⟨m', hw, hb, hreach, _⟩ | ⟨hw, hstat⟩
          · have hw' := hw
            simp only [Bucket.advanced] at hw'
            rw [hw']
            refine ⟨⟨t1, t2, t3, t4, hb⟩, ?_, ?_⟩
            · have := @Machine.reaches_trans W m _ _ _ _ ⟨[Event.output], rfl, rfl⟩ hreach
              simpa using this
            · intro hr
              rw [hb]
              exact ⟨hr.1, dump_ok h1 hr.2.1, dump_ok h2 hr.2.2.1, dump_ok h3 hr.2.2.2.1,
                dump_ok h4 hr.2.2.2.2⟩
          · have hw' := hw
            simp only [Bucket.advanced] at hw'
            rw [hw']
            refine ⟨⟨[Event.output], rfl, rfl⟩, fun hr => ?_⟩
            have : m.bucket.statfile_ = false := hstat
            rw [hr.1] at this
            cases this

/-! ## The timeloop -/

theorem nonlinear_loop_spec {W : Type} (env : Collaborators W) (k : Nat) (m : Machine W)
    (hk : k = (m.bucket.nonlinear_iterations_ - m.bucket.iteration_count_).toNat) :
    (nonlinear_loop env m).bucket =
        { m.bucket with iteration_count_ := m.bucket.iteration_count_ + k } ∧
      m.reaches (nonlinear_loop env m) (List.replicate k Event.solve) := by
  induction k generalizing m with
  | zero =>
    have hlt : ¬ m.bucket.iteration_count_ < m.bucket.nonlinear_iterations := by
      simp only [Bucket.nonlinear_iterations]; omega
    rw [nonlinear_loop, if_neg hlt]
    exact ⟨by simp, Machine.reaches_refl m⟩
  | succ k ih =>
    have hlt : m.bucket.iteration_count_ < m.bucket.nonlinear_iterations := by
      simp only [Bucket.nonlinear_iterations]; omega
    rw [nonlinear_loop, if_pos hlt]
    obtain ⟨hb, hr⟩ := ih
      { solve env m with
        bucket := { m.bucket with iteration_count_ := m.bucket.iteration_count_ + 1 } }
      (by simp only []; omega)
    refine ⟨?_, ?_⟩
    · rw [hb]
      simp only [Nat.cast_add, Nat.cast_one, Int.add_assoc]
      congr 1
      omega
    · have hs : m.reaches { solve env m with
          bucket := { m.bucket with iteration_count_ := m.bucket.iteration_count_ + 1 } }
          [Event.solve] := (solve_spec env m).2
      have := Machine.reaches_trans hs hr
      simpa [List.replicate_succ] using this

theorem before_output_spec {W : Type} (env : Collaborators W) (m : Machine W) :
    (before_output env m).bucket =
        m.bucket.advanced (m.bucket.current_time_ + m.bucket.timestep)
          (m.bucket.timestep_count_ + 1) (m.bucket.nonlinear_iterations.toNat)
          m.bucket.visualization_dumptime_ m.bucket.statistics_dumptime_
          m.bucket.steadystate_dumptime_ m.bucket.detectors_dumptime_ ∧
      m.reaches (before_output env m)
        (List.replicate m.bucket.nonlinear_iterations.toNat Event.solve ++
          [Event.current_time (m.bucket.current_time_ + m.bucket.timestep),
            Event.timestep_count (m.bucket.timestep_count_ + 1)]) := by
  obtain ⟨hb, tr, htr, hsteps⟩ := nonlinear_loop_spec env m.bucket.nonlinear_iterations.toNat
    { m with bucket := { m.bucket with iteration_count_ := 0 } }
    (by simp [Bucket.nonlinear_iterations])
  refine ⟨?_, ?_⟩
  · simp only [before_output, hb, Bucket.advanced, Bucket.timestep, zero_add]
  · refine ⟨tr ++ [Event.current_time (m.bucket.current_time_ + m.bucket.timestep),
      Event.timestep_count (m.bucket.timestep_count_ + 1)], ?_, ?_⟩
    · simp only [before_output, hb, htr, Bucket.timestep]
      simp
    · rw [run_steps_append, hsteps]
      rfl

theorem timeloop_succ {W : Type} (env : Collaborators W) (fuel : Nat) (m : Machine W) :
    timeloop env (fuel + 1) m =
      match output env (before_output env m) with
      | .aborted e m4 => .aborted e m4
      | .unfinished m4 => .unfinished m4
      | .returned _ m4 =>
        if (!(complete env m4).1) = true then timeloop env fuel (update env (complete env m4).2)
        else .returned () (update env (complete env m4).2) := rfl

theorem output_ready_advanced (b : Bucket) (t : ℚ) (n i : Int) :
    (b.advanced t n i b.visualization_dumptime_ b.statistics_dumptime_
      b.steadystate_dumptime_ b.detectors_dumptime_).output_ready ↔ b.output_ready :=
  Iff.rfl

theorem timestep_returned {W : Type} (env : Collaborators W) (m : Machine W) (a : Unit)
    (m4 : Machine W) (h : output env (before_output env m) = .returned a m4) :
    (∃ vis stat steady det, m4.bucket =
      m.bucket.advanced (m.bucket.current_time_ + m.bucket.timestep)
        (m.bucket.timestep_count_ + 1) (m.bucket.nonlinear_iterations.toNat)
        vis stat steady det) ∧
    (update env (complete env m4).2).bucket = m4.bucket ∧
    m.reaches (update env (complete env m4).2)
      (timeloop_steps m.bucket.nonlinear_iterations m.bucket.timestep m.bucket.current_time_
        m.bucket.timestep_count_ [(complete env m4).1]) ∧
    (m.bucket.output_ready → m4.bucket.output_ready) := by
  obtain ⟨hb, hr⟩ := before_output_spec env m
  have ho := output_spec env (before_output env m)
  rw [h] at ho
  obtain ⟨⟨vis, stat, steady, det, hb4⟩, hr4, hready⟩ := ho
  refine ⟨⟨vis, stat, steady, det, ?_⟩, rfl, ?_, ?_⟩
  · rw [hb4, hb]
    rfl
  · have h1 := Machine.reaches_trans hr hr4
    have h2 := Machine.reaches_trans h1 (complete_spec env m4).2.2
    have h3 := Machine.reaches_trans h2 (update_spec env (complete env m4).2).2
    simpa [timeloop_steps] using h3
  · intro hm
    apply hready
    rw [hb]
    exact (output_ready_advanced _ _ _ _).2 hm

theorem timestep_aborted {W : Type} (env : Collaborators W) (m : Machine W) (e : Error)
    (m4 : Machine W) (h : output env (before_output env m) = .aborted e m4) :
    m.reaches m4
      (List.replicate m.bucket.nonlinear_iterations.toNat Event.solve ++
        [Event.current_time (m.bucket.current_time_ + m.bucket.timestep),
          Event.timestep_count (m.bucket.timestep_count_ + 1), Event.output]) ∧
    ¬ m.bucket.output_ready := by
  obtain ⟨hb, hr⟩ := before_output_spec env m
  have ho := output_spec env (before_output env m)
  rw [h] at ho
  obtain ⟨hr4, hready⟩ := ho
  refine ⟨?_, ?_⟩
  · have h1 := Machine.reaches_trans hr hr4
    simpa using h1
  · intro hm
    apply hready
    rw [hb]
    exact (output_ready_advanced _ _ _ _).2 hm

theorem output_never_unfinished {W : Type} (env : Collaborators W) (m m' : Machine W) :
    output env m ≠ .unfinished m' := by
  intro h
  have ho := output_spec env m
  rw [h] at ho
  exact ho

theorem timeloop_spec {W : Type} (env : Collaborators W) (fuel : Nat) (m : Machine W) :
    timeloop_post fuel m (timeloop env fuel m) := by
  induction fuel generalizing m with
  | zero => exact Machine.reaches_refl m
  | succ fuel ih =>
    rw [timeloop_succ]
    cases hout : output env (before_output env m) with
    | unfinished m4 => exact absurd hout (output_never_unfinished env _ _)
    | aborted e m4 =>
      refine ⟨0, Nat.succ_pos _, ?_⟩
      have := (timestep_aborted env m e m4 hout).1
      simpa [timeloop_steps] using this
    | returned a m4 =>
      obtain ⟨⟨vis, stat, steady, det, hb4⟩, hb5, hr5, _⟩ := timestep_returned env m a m4 hout
      simp only []
      cases hc : (complete env m4).1 with
      | true =>
        simp only [Bool.not_true, Bool.false_eq_true, if_false]
        refine ⟨0, Nat.succ_pos _, ?_⟩
        rw [hc] at hr5
        simpa using hr5
      | false =>
        simp only [Bool.not_false, if_true]
        rw [hc] at hr5
        have hih := ih (update env (complete env m4).2)
        have hni : (update env (complete env m4).2).bucket.nonlinear_iterations =
            m.bucket.nonlinear_iterations := by rw [hb5, hb4]; rfl
        have hdt : (update env (complete env m4).2).bucket.timestep = m.bucket.timestep := by
          rw [hb5, hb4]; rfl
        have ht : (update env (complete env m4).2).bucket.current_time_ =
            m.bucket.current_time_ + m.bucket.timestep := by rw [hb5, hb4]; rfl
        have hn : (update env (complete env m4).2).bucket.timestep_count_ =
            m.bucket.timestep_count_ + 1 := by rw [hb5, hb4]; rfl
        cases hloop : timeloop env fuel (update env (complete env m4).2) with
        | returned a' m' =>
          rw [hloop] at hih
          simp only [timeloop_post, hni, hdt, ht, hn] at hih
          obtain ⟨j, hj, hr⟩ := hih
          refine ⟨j + 1, Nat.succ_lt_succ hj, ?_⟩
          have := Machine.reaches_trans hr5 hr
          simpa [timeloop_steps, List.replicate_succ] using this
        | unfinished m' =>
          rw [hloop] at hih
          simp only [timeloop_post, hni, hdt, ht, hn] at hih
          have := Machine.reaches_trans hr5 hih
          show m.reaches m' _
          simpa [timeloop_steps, List.replicate_succ] using this
        | aborted e m' =>
          rw [hloop] at hih
          simp only [timeloop_post, hni, hdt, ht, hn] at hih
          obtain ⟨j, hj, hr⟩ := hih
          refine ⟨j + 1, Nat.succ_lt_succ hj, ?_⟩
          have := Machine.reaches_trans hr5 hr
          have e1 : m.bucket.current_time_ + m.bucket.timestep + ((j : ℚ) + 1) * m.bucket.timestep
              = m.bucket.current_time_ + (((j + 1 : Nat) : ℚ) + 1) * m.bucket.timestep := by
            push_cast; ring
          have e2 : m.bucket.timestep_count_ + 1 + ((j : Int) + 1)
              = m.bucket.timestep_count_ + (((j + 1 : Nat) : Int) + 1) := by
            push_cast; ring
          rw [e1, e2] at this
          simpa [timeloop_steps, List.replicate_succ] using this

theorem complete_result {W : Type} (env : Collaborators W) (m : Machine W) :
    (complete env m).1 =
      (decide (m.bucket.current_time_ ≥ m.bucket.finish_time_) || steadystate_ env m ||
        env.sigint_received m.world) := by
  unfold complete
  simp only [Bucket.current_time, Bucket.finish_time]
  by_cases h1 : m.bucket.current_time_ ≥ m.bucket.finish_time_ <;>
    cases h2 : steadystate_ env m <;> cases h3 : env.sigint_received m.world <;>
    simp_all

theorem steadystate_without_tolerance {W : Type} (env : Collaborators W) (m : Machine W)
    (h : m.bucket.steadystate_tol_ = none) : steadystate_ env m = false := by
  simp [steadystate_, h]

theorem timeloop_fuel_mono {W : Type} (env : Collaborators W) (fuel extra : Nat)
    (m : Machine W) (a : Unit) (m' : Machine W) (h : timeloop env fuel m = .returned a m') :
    timeloop env (fuel + extra) m = .returned a m' := by
  induction fuel generalizing m with
  | zero => simp [timeloop] at h
  | succ fuel ih =>
    have he : fuel + 1 + extra = (fuel + extra) + 1 := by omega
    rw [he, timeloop_succ]
    rw [timeloop_succ] at h
    cases hout : output env (before_output env m) with
    | unfinished m4 => rw [hout] at h; exact h
    | aborted e m4 => rw [hout] at h; exact h
    | returned a4 m4 =>
      rw [hout] at h
      simp only [] at h ⊢
      cases hc : (complete env m4).1 with
      | true =>
        rw [hc] at h
        simpa using h
      | false =>
        rw [hc] at h
        simp only [Bool.not_false, if_true] at h ⊢
        exact ih _ h

theorem timeloop_finishes {W : Type} (env : Collaborators W) (r : Nat) (fuel : Nat)
    (m : Machine W) (hready : m.bucket.output_ready)
    (htol : m.bucket.steadystate_tol_ = none) (hsig : ∀ w, env.sigint_received w = false)
    (hdt : 0 < m.bucket.timestep_value)
    (hfin : m.bucket.finish_time_ = m.bucket.current_time_ + (r + 1) * m.bucket.timestep_value)
    (hfuel : r + 1 ≤ fuel) :
    ∃ m', timeloop env fuel m = .returned () m' ∧
      m.reaches m'
        (timeloop_steps m.bucket.nonlinear_iterations m.bucket.timestep m.bucket.current_time_
          m.bucket.timestep_count_ (List.replicate r false ++ [true])) ∧
      m'.bucket.current_time_ = m.bucket.finish_time_ ∧
      m'.bucket.timestep_count_ = m.bucket.timestep_count_ + (r + 1) := by
  induction r generalizing m fuel with
  | zero =>
    obtain ⟨fuel, rfl⟩ : ∃ f, fuel = f + 1 := ⟨fuel - 1, by omega⟩
    rw [timeloop_succ]
    cases hout : output env (before_output env m) with
    | unfinished m4 => exact absurd hout (output_never_unfinished env _ _)
    | aborted e m4 => exact absurd hready (timestep_aborted env m e m4 hout).2
    | returned a m4 =>
      obtain ⟨⟨vis, stat, steady, det, hb4⟩, hb5, hr5, _⟩ := timestep_returned env m a m4 hout
      have ht4 : m4.bucket.current_time_ = m.bucket.current_time_ + m.bucket.timestep_value := by
        rw [hb4]; rfl
      have hf4 : m4.bucket.finish_time_ = m.bucket.finish_time_ := by rw [hb4]; rfl
      have hc : (complete env m4).1 = true := by
        rw [complete_result, ht4, hf4, hfin]
        simp
      simp only [hc, Bool.not_true, Bool.false_eq_true, if_false]
      rw [hc] at hr5
      refine ⟨_, rfl, by simpa using hr5, ?_, ?_⟩
      · rw [hb5, ht4, hfin]; simp
      · rw [hb5, hb4]; simp [Bucket.advanced]
  | succ r ih =>
    obtain ⟨fuel, rfl⟩ : ∃ f, fuel = f + 1 := ⟨fuel - 1, by omega⟩
    rw [timeloop_succ]
    cases hout : output env (before_output env m) with
    | unfinished m4 => exact absurd hout (output_never_unfinished env _ _)
    | aborted e m4 => exact absurd hready (timestep_aborted env m e m4 hout).2
    | returned a m4 =>
      obtain ⟨⟨vis, stat, steady, det, hb4⟩, hb5, hr5, hready4⟩ :=
        timestep_returned env m a m4 hout
      have ht4 : m4.bucket.current_time_ = m.bucket.current_time_ + m.bucket.timestep_value := by
        rw [hb4]; rfl
      have hf4 : m4.bucket.finish_time_ = m.bucket.finish_time_ := by rw [hb4]; rfl
      have htol4 : m4.bucket.steadystate_tol_ = none := by rw [hb4]; exact htol
      have hc : (complete env m4).1 = false := by
        rw [complete_result, ht4, hf4, hfin, steadystate_without_tolerance env m4 htol4, hsig]
        simp only [Bool.or_false, decide_eq_false_iff_not, not_le, ge_iff_le]
        have : (0 : ℚ) ≤ (r : ℚ) := Nat.cast_nonneg r
        push_cast
        nlinarith
      simp only [hc, Bool.not_false, if_true]
      rw [hc] at hr5
      obtain ⟨m', hloop, hr, ht', hn'⟩ := ih fuel (update env (complete env m4).2)
        (by rw [hb5]; exact hready4 hready)
        (by rw [hb5]; exact htol4)
        (by rw [hb5, hb4]; exact hdt)
        (by
          rw [hb5, hf4, ht4, hfin]
          have : (update env (complete env m4).2).bucket.timestep_value =
              m.bucket.timestep_value := by rw [hb5, hb4]; rfl
          rw [hb5] at this
          rw [this]
          push_cast; ring)
        (by omega)
      have hni : (update env (complete env m4).2).bucket.nonlinear_iterations =
          m.bucket.nonlinear_iterations := by rw [hb5, hb4]; rfl
      have hdt5 : (update env (complete env m4).2).bucket.timestep = m.bucket.timestep := by
        rw [hb5, hb4]; rfl
      have ht5 : (update env (complete env m4).2).bucket.current_time_ =
          m.bucket.current_time_ + m.bucket.timestep := by rw [hb5, hb4]; rfl
      have hn5 : (update env (complete env m4).2).bucket.timestep_count_ =
          m.bucket.timestep_count_ + 1 := by rw [hb5, hb4]; rfl
      have hf5 : (update env (complete env m4).2).bucket.finish_time_ =
          m.bucket.finish_time_ := by rw [hb5, hf4]
      rw [hni, hdt5, ht5, hn5] at hr
      refine ⟨m', hloop, ?_, ?_, ?_⟩
      · have := Machine.reaches_trans hr5 hr
        simpa [timeloop_steps, List.replicate_succ] using this
      · rw [ht', hf5]
      · rw [hn', hn5]; push_cast; ring

/-! ## Bucket::run -/

theorem run_returned {W : Type} (env : Collaborators W) (m : Machine W) (a : Unit)
    (m0 : Machine W) (h : output env m = .returned a m0) :
    m.reaches m0 [Event.output] ∧
    m0.bucket.nonlinear_iterations = m.bucket.nonlinear_iterations ∧
    m0.bucket.timestep = m.bucket.timestep ∧
    m0.bucket.current_time_ = m.bucket.current_time_ ∧
    m0.bucket.timestep_count_ = m.bucket.timestep_count_ ∧
    m0.bucket.finish_time_ = m.bucket.finish_time_ ∧
    m0.bucket.steadystate_tol_ = m.bucket.steadystate_tol_ ∧
    m0.bucket.timestep_value = m.bucket.timestep_value ∧
    (m.bucket.output_ready → m0.bucket.output_ready) := by
  have ho := output_spec env m
  rw [h] at ho
  obtain ⟨⟨vis, stat, steady, det, hb⟩, hr, hready⟩ := ho
  refine ⟨hr, ?_, ?_, ?_, ?_, ?_, ?_, ?_, hready⟩ <;> rw [hb] <;> rfl

theorem timeloop_steps_last (ni : Int) (dt : ℚ) (j : Nat) (t : ℚ) (n : Int) :
    ∃ front, timeloop_steps ni dt t n (List.replicate j false ++ [true]) =
        front ++ [Event.complete true, Event.update] ∧
      Event.complete true ∉ front := by
  induction j generalizing t n with
  | zero =>
    refine ⟨List.replicate ni.toNat Event.solve ++
      [Event.current_time (t + dt), Event.timestep_count (n + 1), Event.output], ?_, ?_⟩
    · simp [timeloop_steps]
    · simp [List.mem_replicate]
  | succ j ih =>
    obtain ⟨front, hf, hnot⟩ := ih (t + dt) (n + 1)
    refine ⟨List.replicate ni.toNat Event.solve ++
      [Event.current_time (t + dt), Event.timestep_count (n + 1), Event.output,
        Event.complete false, Event.update] ++ front, ?_, ?_⟩
    · simp [timeloop_steps, List.replicate_succ, hf]
    · simp [List.mem_replicate, hnot]

theorem countP_run_steps (p : Event → Bool) (hp : ∀ e, p e = true → e.of_run = true)
    (tr : List Event) : (run_steps tr).countP p = tr.countP p := by
  induction tr with
  | nil => rfl
  | cons e rest ih =>
    simp only [run_steps] at ih
    by_cases he : e.of_run = true
    · simp [run_steps, List.filter_cons, he, List.countP_cons, ih]
    · have hpe : p e = false := by
        cases hpe : p e with
        | false => rfl
        | true => exact absurd (hp e hpe) he
      simp [run_steps, List.filter_cons, he, List.countP_cons, ih, hpe]

theorem countP_timestep_count_timeloop_steps (ni : Int) (dt : ℚ) (results : List Bool) (t : ℚ)
    (n : Int) :
    (timeloop_steps ni dt t n results).countP Event.is_timestep_count = results.length := by
  induction results generalizing t n with
  | nil => rfl
  | cons c rest ih =>
    simp [timeloop_steps, List.countP_append, List.countP_cons, List.countP_replicate,
      Event.is_timestep_count, ih]

theorem countP_output_timeloop_steps (ni : Int) (dt : ℚ) (results : List Bool) (t : ℚ)
    (n : Int) :
    (timeloop_steps ni dt t n results).countP (fun e => decide (e = Event.output)) =
      results.length := by
  induction results generalizing t n with
  | nil => rfl
  | cons c rest ih =>
    simp [timeloop_steps, List.countP_append, List.countP_cons, List.countP_replicate, ih]

theorem run_finishes {W : Type} (env : Collaborators W) (r : Nat) (fuel : Nat)
    (m : Machine W) (hready : m.bucket.output_ready)
    (htol : m.bucket.steadystate_tol_ = none) (hsig : ∀ w, env.sigint_received w = false)
    (hdt : 0 < m.bucket.timestep_value)
    (hfin : m.bucket.finish_time_ = m.bucket.current_time_ + (r + 1) * m.bucket.timestep_value)
    (hfuel : r + 1 ≤ fuel) :
    ∃ m', run env fuel m = .returned () m' ∧
      m.reaches m' (Event.output ::
        timeloop_steps m.bucket.nonlinear_iterations m.bucket.timestep m.bucket.current_time_
          m.bucket.timestep_count_ (List.replicate r false ++ [true])) ∧
      m'.bucket.current_time_ = m.bucket.finish_time_ ∧
      m'.bucket.timestep_count_ = m.bucket.timestep_count_ + (r + 1) := by
  unfold run
  cases hout : output env m with
  | unfinished m0 => exact absurd hout (output_never_unfinished env _ _)
  | aborted e m0 =>
    have ho := output_spec env m
    rw [hout] at ho
    exact absurd hready ho.2
  | returned a m0 =>
    obtain ⟨hr0, hni0, hdt0, ht0, hn0, hf0, htol0, hv0, hready0⟩ := run_returned env m a m0 hout
    obtain ⟨m', hloop, hr, ht', hn'⟩ := timeloop_finishes env r fuel m0 (hready0 hready)
      (by rw [htol0, htol]) hsig (by rw [hv0]; exact hdt)
      (by rw [hf0, ht0, hv0, hfin]) hfuel
    rw [hni0, hdt0, ht0, hn0] at hr
    refine ⟨m', hloop, ?_, ?_, ?_⟩
    · simpa using Machine.reaches_trans hr0 hr
    · rw [ht', hf0]
    · rw [hn', hn0]

theorem sample_bucket_output_ready (ni : Int) :
    ({ sample_bucket with nonlinear_iterations_ := ni } : Bucket).output_ready := by
  simp [Bucket.output_ready, sample_bucket]

/-- C1: `run` makes one `output()` call and then timesteps, each of which performs in this
order: `nonlinear_iterations()` calls of `solve()` (none when that number is negative),
the assignment of `current_time + timestep()` to the current time, the assignment of
`timestep_count + 1` to the timestep count, one `output()`, one `complete()` and one
`update()`.  This holds for a run that returns, for one that is still running after
`fuel` timesteps, and, up to the `output()` call that raised the error, for one that is
aborted. -/
theorem run_timesteps_keep_fixed_order {W : Type} (env : Collaborators W) (fuel : Nat)
    (m : Machine W) :
    (∀ (ni : Int) (dt t : ℚ) (n : Int) (c : Bool) (rest : List Bool),
      timeloop_steps ni dt t n (c :: rest) =
        List.replicate ni.toNat Event.solve ++
          [Event.current_time (t + dt), Event.timestep_count (n + 1), Event.output,
            Event.complete c, Event.update] ++
          timeloop_steps ni dt (t + dt) (n + 1) rest) ∧
    (0 ≤ m.bucket.nonlinear_iterations →
      ((List.replicate m.bucket.nonlinear_iterations.toNat Event.solve).length : Int) =
        m.bucket.nonlinear_iterations) ∧
    match run env fuel m with
    | .returned _ m' =>
      ∃ results, results ≠ [] ∧ results.length ≤ fuel ∧
        m.reaches m' (Event.output ::
          timeloop_steps m.bucket.nonlinear_iterations m.bucket.timestep
            m.bucket.current_time_ m.bucket.timestep_count_ results)
    | .unfinished m' =>
      ∃ results, results.length = fuel ∧
        m.reaches m' (Event.output ::
          timeloop_steps m.bucket.nonlinear_iterations m.bucket.timestep
            m.bucket.current_time_ m.bucket.timestep_count_ results)
    | .aborted _ m' =>
      m.reaches m' [Event.output] ∨
      ∃ results, results.length < fuel ∧
        m.reaches m' (Event.output ::
          (timeloop_steps m.bucket.nonlinear_iterations m.bucket.timestep
              m.bucket.current_time_ m.bucket.timestep_count_ results ++
            (List.replicate m.bucket.nonlinear_iterations.toNat Event.solve ++
              [Event.current_time
                  (m.bucket.current_time_ + (results.length + 1) * m.bucket.timestep),
                Event.timestep_count (m.bucket.timestep_count_ + (results.length + 1)),
                Event.output]))) := by
  refine ⟨fun _ _ _ _ _ _ => rfl, ?_, ?_⟩
  · intro h
    simp [Int.toNat_of_nonneg h]
  · unfold run
    cases hout : output env m with
    | unfinished m0 => exact absurd hout (output_never_unfinished env _ _)
    | aborted e m0 =>
      have ho := output_spec env m
      rw [hout] at ho
      exact Or.inl ho.1
    | returned a m0 =>
      obtain ⟨hr0, hni, hdt, ht, hn, _⟩ := run_returned env m a m0 hout
      have hloop := timeloop_spec env fuel m0
      simp only []
      cases hl : timeloop env fuel m0 with
      | returned a' m' =>
        rw [hl] at hloop
        simp only [timeloop_post, hni, hdt, ht, hn] at hloop
        obtain ⟨j, hj, hr⟩ := hloop
        refine ⟨List.replicate j false ++ [true], by simp, by simp; omega, ?_⟩
        simpa using Machine.reaches_trans hr0 hr
      | unfinished m' =>
        rw [hl] at hloop
        simp only [timeloop_post, hni, hdt, ht, hn] at hloop
        refine ⟨List.replicate fuel false, by simp, ?_⟩
        simpa using Machine.reaches_trans hr0 hloop
      | aborted e m' =>
        rw [hl] at hloop
        simp only [timeloop_post, hni, hdt, ht, hn] at hloop
        obtain ⟨j, hj, hr⟩ := hloop
        refine Or.inr ⟨List.replicate j false, by simpa using hj, ?_⟩
        simpa using Machine.reaches_trans hr0 hr

/-- C2: for `n ≥ 1` and a timestep `dt > 0`, a run started at time 0 and count 0 with
finish time `n * dt`, one nonlinear iteration, no steady state tolerance and no interrupt
(on a bucket whose `output()` cannot fail) returns, given room for `n` timesteps, after
exactly `n` increments of the timestep count and exactly `n + 1` calls of `output()`, at
time `n * dt` and count `n`. -/
theorem run_reaches_finish_time_in_n_timesteps {W : Type} (env : Collaborators W)
    (m : Machine W) (n : Nat) (dt : ℚ) (fuel : Nat) (hn : 1 ≤ n) (hdt : 0 < dt)
    (htime : m.bucket.current_time_ = 0) (hcount : m.bucket.timestep_count_ = 0)
    (hfinish : m.bucket.finish_time_ = n * dt) (hstep : m.bucket.timestep_value = dt)
    (hni : m.bucket.nonlinear_iterations_ = 1) (htol : m.bucket.steadystate_tol_ = none)
    (hsig : ∀ w, env.sigint_received w = false) (hready : m.bucket.output_ready)
    (hfuel : n ≤ fuel) :
    ∃ m' tr, run env fuel m = .returned () m' ∧ m'.trace = m.trace ++ tr ∧
      tr.countP Event.is_timestep_count = n ∧
      tr.countP (fun e => decide (e = Event.output)) = n + 1 ∧
      run_steps tr = Event.output ::
        timeloop_steps 1 dt 0 0 (List.replicate (n - 1) false ++ [true]) ∧
      m'.bucket.current_time_ = n * dt ∧ m'.bucket.timestep_count_ = n := by
  obtain ⟨r, rfl⟩ : ∃ r, n = r + 1 := ⟨n - 1, by omega⟩
  obtain ⟨m', hrun, hr, ht', hn'⟩ := run_finishes env r fuel m hready htol hsig
    (by rw [hstep]; exact hdt)
    (by rw [hfinish, htime, hstep]; push_cast; ring) hfuel
  obtain ⟨tr, htr, hsteps⟩ := hr
  have hsteps' : run_steps tr = Event.output ::
      timeloop_steps 1 dt 0 0 (List.replicate r false ++ [true]) := by
    rw [hsteps]
    simp only [Bucket.nonlinear_iterations, Bucket.timestep, hni, hstep, htime, hcount]
  refine ⟨m', tr, hrun, htr, ?_, ?_, ?_, ?_, ?_⟩
  · rw [← countP_run_steps _ _ tr, hsteps']
    · rw [List.countP_cons, countP_timestep_count_timeloop_steps]
      simp [Event.is_timestep_count]
    · intro e he
      cases e <;> simp_all [Event.is_timestep_count, Event.of_run]
  · rw [← countP_run_steps _ _ tr, hsteps']
    · rw [List.countP_cons, countP_output_timeloop_steps]
      simp
    · intro e he
      simp only [decide_eq_true_eq] at he
      rw [he]; rfl
  · simpa using hsteps'
  · rw [ht', hfinish]
  · rw [hn', hcount]; push_cast; ring

/-- Witness for C2: the sample bucket runs from time 0 to time 3 in steps of 1; the run
returns after 3 increments of the timestep count and 4 calls of `output()`. -/
theorem run_reaches_finish_time_in_n_timesteps_witness :
    ∃ m' tr, run idle 3 ⟨sample_bucket, (), []⟩ = .returned () m' ∧ m'.trace = tr ∧
      tr.countP Event.is_timestep_count = 3 ∧
      tr.countP (fun e => decide (e = Event.output)) = 4 ∧
      m'.bucket.current_time_ = 3 ∧ m'.bucket.timestep_count_ = 3 := by
  obtain ⟨m', tr, hrun, htr, hc, ho, _, ht, hn⟩ :=
    run_reaches_finish_time_in_n_timesteps idle ⟨sample_bucket, (), []⟩ 3 1 3 (by decide)
      (by norm_num) rfl rfl (by norm_num [sample_bucket]) rfl rfl rfl (fun _ => rfl)
      (sample_bucket_output_ready 1) (by decide)
  refine ⟨m', tr, hrun, by simpa using htr, hc, ho, ?_, ?_⟩
  · rw [ht]; norm_num
  · rw [hn]; norm_num

/-- C5 (fails on the code): a bucket configured with `nonlinear_iterations = 0` runs its
three timesteps to the finish time without a single `solve()` call. -/
theorem run_with_zero_nonlinear_iterations_never_solves :
    ∃ m', run idle 3 ⟨{ sample_bucket with nonlinear_iterations_ := 0 }, (), []⟩ =
        .returned () m' ∧
      m'.trace.countP Event.is_timestep_count = 3 ∧
      m'.bucket.timestep_count_ = 3 ∧
      Event.solve ∉ m'.trace := by
  obtain ⟨m', hrun, ⟨tr, htr, hsteps⟩, _, hn⟩ := run_finishes idle 2 3
    ⟨{ sample_bucket with nonlinear_iterations_ := 0 }, (), []⟩
    (sample_bucket_output_ready 0) rfl (fun _ => rfl) (by norm_num [sample_bucket])
    (by norm_num [sample_bucket]) (by decide)
  have htr' : m'.trace = tr := by simpa using htr
  refine ⟨m', hrun, ?_, ?_, ?_⟩
  · rw [htr', ← countP_run_steps _ _ tr, hsteps]
    · rw [List.countP_cons, countP_timestep_count_timeloop_steps]
      simp [Event.is_timestep_count]
    · intro e he
      cases e <;> simp_all [Event.is_timestep_count, Event.of_run]
  · rw [hn]; norm_num [sample_bucket]
  · intro hmem
    rw [htr'] at hmem
    have : Event.solve ∈ run_steps tr := List.mem_filter.2 ⟨hmem, rfl⟩
    rw [hsteps] at this
    simp [timeloop_steps, Bucket.nonlinear_iterations, sample_bucket, List.replicate] at this

/-! ## The fill of the symbol registry -/

theorem register_each_three_states (f o i : GenericFunction_ptr) (u : String)
    (l : List (GenericFunction_ptr × String)) (b : Bucket) :
    register_each (three_states f o i u ++ l) b =
      (b.register_uflsymbol f u).and_then fun b =>
      (b.register_uflsymbol o (u ++ "_n")).and_then fun b =>
      (b.register_uflsymbol i (u ++ "_i")).and_then fun b => register_each l b := rfl

theorem and_then_assoc {σ : Type} (o : Outcome σ Unit) (f g : σ → Outcome σ Unit) :
    (o.and_then f).and_then g = o.and_then fun s => (f s).and_then g := by
  cases o <;> rfl

theorem register_each_append (l1 l2 : List (GenericFunction_ptr × String)) (b : Bucket) :
    register_each (l1 ++ l2) b = (register_each l1 b).and_then (register_each l2) := by
  induction l1 generalizing b with
  | nil => rfl
  | cons c rest ih =>
    obtain ⟨f, n⟩ := c
    show (b.register_uflsymbol f n).and_then (fun b => register_each (rest ++ l2) b) =
      ((b.register_uflsymbol f n).and_then fun b => register_each rest b).and_then
        (register_each l2)
    rw [and_then_assoc]
    simp only [ih]

theorem register_each_append_fun (l1 l2 : List (GenericFunction_ptr × String)) :
    register_each (l1 ++ l2) = fun b => (register_each l1 b).and_then (register_each l2) :=
  funext (register_each_append l1 l2)

theorem uflsymbols_fill_fields_eq (system : SystemBucket)
    (fields : StdMap String FunctionBucket) (b : Bucket) :
    uflsymbols_fill_fields system fields b =
      register_each (fields_registrations system fields) b := by
  induction fields generalizing b with
  | nil => rfl
  | cons p rest ih =>
    obtain ⟨k, field⟩ := p
    have hcons : fields_registrations system ((k, field) :: rest) =
        three_states system.function system.oldfunction system.iteratedfunction
          field.uflsymbol ++ fields_registrations system rest := by
      simp [fields_registrations]
    rw [hcons, register_each_three_states]
    simp only [uflsymbols_fill_fields, ih]

theorem uflsymbols_fill_coeffs_eq (coeffs : StdMap String FunctionBucket) (b : Bucket) :
    uflsymbols_fill_coeffs coeffs b = register_each (coeffs_registrations coeffs) b := by
  induction coeffs generalizing b with
  | nil => rfl
  | cons p rest ih =>
    obtain ⟨k, coeff⟩ := p
    have hcons : coeffs_registrations ((k, coeff) :: rest) =
        three_states coeff.function coeff.oldfunction coeff.iteratedfunction
          coeff.uflsymbol ++ coeffs_registrations rest := by
      simp [coeffs_registrations]
    rw [hcons, register_each_three_states]
    simp only [uflsymbols_fill_coeffs, ih]

theorem uflsymbols_fill_systems_eq (systems : StdMap String SystemBucket) (b : Bucket) :
    uflsymbols_fill_systems systems b = register_each (systems_registrations systems) b := by
  induction systems generalizing b with
  | nil => rfl
  | cons p rest ih =>
    obtain ⟨k, system⟩ := p
    have hcons : systems_registrations ((k, system) :: rest) =
        three_states system.function system.oldfunction system.iteratedfunction
          system.uflsymbol ++ (fields_registrations system system.fields ++
            (coeffs_registrations system.coeffs ++ systems_registrations rest)) := by
      simp [systems_registrations]
    rw [hcons, register_each_three_states]
    simp only [uflsymbols_fill_systems, register_each_append, register_each_append_fun,
      uflsymbols_fill_fields_eq, uflsymbols_fill_coeffs_eq, ih]

theorem register_uflsymbol_returned {b b' : Bucket} {f : GenericFunction_ptr} {n : String}
    {a : Unit} (h : b.register_uflsymbol f n = .returned a b') :
    StdMap.find b.uflsymbols_ n = none ∧
      b' = { b with uflsymbols_ := StdMap.assign b.uflsymbols_ n f } := by
  unfold Bucket.register_uflsymbol at h
  cases hf : StdMap.find b.uflsymbols_ n with
  | none => rw [hf] at h; cases h; exact ⟨rfl, rfl⟩
  | some v => rw [hf] at h; cases h

theorem uflsymbols_fill_eq (b : Bucket) :
    b.uflsymbols_fill_ = register_each (fill_registrations b) b := by
  unfold Bucket.uflsymbols_fill_ fill_registrations
  by_cases h : b.timestep_.1 = ""
  · simp only [h, not_true_eq_false, if_false, List.nil_append, Outcome.and_then,
      uflsymbols_fill_systems_eq]
  · simp only [h, not_false_eq_true, if_true, List.singleton_append, register_each,
      Bucket.register_uflsymbol_pair]
    cases hr : b.register_uflsymbol b.timestep_.2 b.timestep_.1 with
    | returned a b' =>
      have hs : b'.systems_ = b.systems_ := by
        rw [(register_uflsymbol_returned hr).2]
      simp only [Outcome.and_then, uflsymbols_fill_systems_eq, hs]
    | aborted e b' => rfl
    | unfinished b' => rfl

theorem and_then_returned {σ : Type} {o : Outcome σ Unit} {next : σ → Outcome σ Unit}
    {a : Unit} {s' : σ} (h : o.and_then next = .returned a s') :
    ∃ a0 s, o = .returned a0 s ∧ next s = .returned a s' := by
  cases o with
  | returned a0 s => exact ⟨a0, s, rfl, h⟩
  | aborted e s => cases h
  | unfinished s => cases h

theorem register_each_returned (l : List (GenericFunction_ptr × String)) (b b' : Bucket)
    (a : Unit) (h : register_each l b = .returned a b') :
    (∀ c ∈ l, StdMap.find b'.uflsymbols_ c.2 = some c.1) ∧
    (∀ n f, StdMap.find b.uflsymbols_ n = some f → StdMap.find b'.uflsymbols_ n = some f) ∧
    b' = { b with uflsymbols_ := b'.uflsymbols_ } := by
  induction l generalizing b with
  | nil =>
    cases h
    exact ⟨fun c hc => (by cases hc), fun _ _ hf => hf, rfl⟩
  | cons c rest ih =>
    obtain ⟨f, n⟩ := c
    obtain ⟨a0, b1, hreg, hrest⟩ := and_then_returned h
    obtain ⟨hnone, hb1⟩ := register_uflsymbol_returned hreg
    obtain ⟨hall, hkept, hframe⟩ := ih b1 hrest
    have hkept1 : ∀ n' g, StdMap.find b.uflsymbols_ n' = some g →
        StdMap.find b1.uflsymbols_ n' = some g := by
      intro n' g hg
      have hne : n' ≠ n := by
        intro he
        rw [he, hnone] at hg
        cases hg
      rw [hb1]
      show StdMap.find (StdMap.assign b.uflsymbols_ n f) n' = some g
      rw [StdMap.find_assign_other _ _ _ _ hne, hg]
    refine ⟨?_, fun n' g hg => hkept n' g (hkept1 n' g hg), ?_⟩
    · intro c hc
      rcases List.mem_cons.1 hc with rfl | hc
      · apply hkept
        rw [hb1]
        exact StdMap.find_assign_self _ _ _
      · exact hall c hc
    · rw [hframe, hb1]

theorem register_each_state (l : List (GenericFunction_ptr × String)) (b : Bucket) :
    (∀ n, n ∉ l.map Prod.snd →
      StdMap.find (register_each l b).state.uflsymbols_ n = StdMap.find b.uflsymbols_ n) ∧
    (∀ n f, StdMap.find b.uflsymbols_ n = some f →
      StdMap.find (register_each l b).state.uflsymbols_ n = some f) ∧
    (register_each l b).state = { b with uflsymbols_ := (register_each l b).state.uflsymbols_ } := by
  induction l generalizing b with
  | nil => exact ⟨fun _ _ => rfl, fun _ _ hf => hf, rfl⟩
  | cons c rest ih =>
    obtain ⟨f, n⟩ := c
    show (∀ n', n' ∉ ((f, n) :: rest).map Prod.snd →
      StdMap.find ((b.register_uflsymbol f n).and_then (register_each rest)).state.uflsymbols_ n'
        = StdMap.find b.uflsymbols_ n') ∧
      (∀ n' g, StdMap.find b.uflsymbols_ n' = some g →
        StdMap.find ((b.register_uflsymbol f n).and_then
          (register_each rest)).state.uflsymbols_ n' = some g) ∧
      ((b.register_uflsymbol f n).and_then (register_each rest)).state =
        { b with uflsymbols_ :=
          ((b.register_uflsymbol f n).and_then (register_each rest)).state.uflsymbols_ }
    cases hreg : b.register_uflsymbol f n with
    | unfinished b1 =>
      unfold Bucket.register_uflsymbol at hreg
      cases hf : StdMap.find b.uflsymbols_ n <;> rw [hf] at hreg <;> cases hreg
    | aborted e b1 =>
      have hb1 : b1 = b := by
        unfold Bucket.register_uflsymbol at hreg
        cases hf : StdMap.find b.uflsymbols_ n <;> rw [hf] at hreg <;> cases hreg
        rfl
      subst hb1
      exact ⟨fun _ _ => rfl, fun _ _ hf => hf, rfl⟩
    | returned a0 b1 =>
      obtain ⟨hnone, hb1⟩ := register_uflsymbol_returned hreg
      obtain ⟨hother, hkept, hframe⟩ := ih b1
      simp only [Outcome.and_then]
      refine ⟨?_, ?_, ?_⟩
      · intro n' hn'
        simp only [List.map_cons, List.mem_cons, not_or] at hn'
        rw [hother n' hn'.2, hb1]
        exact StdMap.find_assign_other _ _ _ _ hn'.1
      · intro n' g hg
        apply hkept
        have hne : n' ≠ n := by
          intro he
          rw [he, hnone] at hg
          cases hg
        rw [hb1]
        show StdMap.find (StdMap.assign b.uflsymbols_ n f) n' = some g
        rw [StdMap.find_assign_other _ _ _ _ hne, hg]
      · rw [hframe, hb1]

theorem register_each_returns (l : List (GenericFunction_ptr × String)) (b : Bucket)
    (hdistinct : (l.map Prod.snd).Nodup)
    (hfresh : ∀ n ∈ l.map Prod.snd, n ∉ StdMap.keys b.uflsymbols_) :
    ∃ b', register_each l b = .returned () b' := by
  induction l generalizing b with
  | nil => exact ⟨b, rfl⟩
  | cons c rest ih =>
    obtain ⟨f, n⟩ := c
    simp only [List.map_cons, List.nodup_cons] at hdistinct
    have hnone : StdMap.find b.uflsymbols_ n = none :=
      (StdMap.find_eq_none_iff _ _).2 (hfresh n (by simp))
    have hreg : b.register_uflsymbol f n =
        .returned () { b with uflsymbols_ := StdMap.assign b.uflsymbols_ n f } := by
      unfold Bucket.register_uflsymbol
      rw [hnone]
    obtain ⟨b', hb'⟩ := ih { b with uflsymbols_ := StdMap.assign b.uflsymbols_ n f }
      hdistinct.2 (by
        intro n' hn'
        show n' ∉ StdMap.keys (StdMap.assign b.uflsymbols_ n f)
        rw [keys_assign_new]
        intro hor
        rcases hor with rfl | hk
        · exact hdistinct.1 hn'
        · exact hfresh n' (by simp only [List.map_cons, List.mem_cons]; exact Or.inr hn') hk)
    refine ⟨b', ?_⟩
    show (b.register_uflsymbol f n).and_then (register_each rest) = _
    rw [hreg]
    exact hb'

theorem mem_fill_registrations_system (b : Bucket) (p : String × SystemBucket)
    (hp : p ∈ b.systems_) :
    (∀ c ∈ three_states p.2.function p.2.oldfunction p.2.iteratedfunction p.2.uflsymbol,
      c ∈ fill_registrations b) ∧
    (∀ q ∈ p.2.fields,
      ∀ c ∈ three_states p.2.function p.2.oldfunction p.2.iteratedfunction q.2.uflsymbol,
        c ∈ fill_registrations b) ∧
    (∀ q ∈ p.2.coeffs,
      ∀ c ∈ three_states q.2.function q.2.oldfunction q.2.iteratedfunction q.2.uflsymbol,
        c ∈ fill_registrations b) := by
  refine ⟨?_, ?_, ?_⟩
  · intro c hc
    apply List.mem_append_right
    exact List.mem_flatMap.2 ⟨p, hp, List.mem_append_left _ (List.mem_append_left _ hc)⟩
  · intro q hq c hc
    apply List.mem_append_right
    refine List.mem_flatMap.2 ⟨p, hp, List.mem_append_left _ (List.mem_append_right _ ?_)⟩
    exact List.mem_flatMap.2 ⟨q, hq, hc⟩
  · intro q hq c hc
    apply List.mem_append_right
    refine List.mem_flatMap.2 ⟨p, hp, List.mem_append_right _ ?_⟩
    exact List.mem_flatMap.2 ⟨q, hq, hc⟩

theorem fetch_of_find {b : Bucket} {n : String} {f : GenericFunction_ptr}
    (h : StdMap.find b.uflsymbols_ n = some f) : b.fetch_uflsymbol n = .returned f b := by
  unfold Bucket.fetch_uflsymbol
  rw [h]

theorem fetch_three_states {b' : Bucket} {f o i : GenericFunction_ptr} {u : String}
    (h : ∀ c ∈ three_states f o i u, StdMap.find b'.uflsymbols_ c.2 = some c.1) :
    b'.fetch_uflsymbol u = .returned f b' ∧
    b'.fetch_uflsymbol (u ++ "_n") = .returned o b' ∧
    b'.fetch_uflsymbol (u ++ "_i") = .returned i b' :=
  ⟨fetch_of_find (h (f, u) (by simp [three_states])),
    fetch_of_find (h (o, u ++ "_n") (by simp [three_states])),
    fetch_of_find (h (i, u ++ "_i") (by simp [three_states]))⟩

/-- C12: a fill of an empty symbol registry succeeds when the symbols it registers are
pairwise distinct, and after any fill that succeeded each system symbol `s` and its
variants `s_n`, `s_i` are fetched as the current, old and iterated function of the system,
and each field symbol `f` of a system and its variants `f_n`, `f_i` are fetched as the
current, old and iterated function of that parent system. -/
theorem fill_binds_system_and_field_symbols (b : Bucket) :
    (b.uflsymbols_ = [] → ((fill_registrations b).map Prod.snd).Nodup →
      ∃ b', b.uflsymbols_fill_ = .returned () b') ∧
    (∀ b', b.uflsymbols_fill_ = .returned () b' →
      ∀ p ∈ b.systems_,
        (b'.fetch_uflsymbol p.2.uflsymbol = .returned p.2.function b' ∧
          b'.fetch_uflsymbol (p.2.uflsymbol ++ "_n") = .returned p.2.oldfunction b' ∧
          b'.fetch_uflsymbol (p.2.uflsymbol ++ "_i") = .returned p.2.iteratedfunction b') ∧
        ∀ q ∈ p.2.fields,
          b'.fetch_uflsymbol q.2.uflsymbol = .returned p.2.function b' ∧
          b'.fetch_uflsymbol (q.2.uflsymbol ++ "_n") = .returned p.2.oldfunction b' ∧
          b'.fetch_uflsymbol (q.2.uflsymbol ++ "_i") = .returned p.2.iteratedfunction b') := by
  constructor
  · intro hempty hdistinct
    rw [uflsymbols_fill_eq]
    exact register_each_returns _ b hdistinct (by intro n _; simp [hempty, StdMap.keys])
  · intro b' h p hp
    rw [uflsymbols_fill_eq] at h
    obtain ⟨hall, _, _⟩ := register_each_returned _ b b' () h
    obtain ⟨hsys, hfields, _⟩ := mem_fill_registrations_system b p hp
    exact ⟨fetch_three_states fun c hc => hall c (hsys c hc),
      fun q hq => fetch_three_states fun c hc => hall c (hfields q hq c hc)⟩

theorem sample_fill_distinct :
    ((fill_registrations sample_bucket_to_fill).map Prod.snd).Nodup := by
  decide

/-- Witness for C12: the fill of the sample bucket succeeds; `us`, `us_n`, `us_i` and the
field symbols `v`, `v_n`, `v_i` resolve to the functions 1, 2, 3 of the system. -/
theorem fill_binds_system_and_field_symbols_witness :
    ∃ b', sample_bucket_to_fill.uflsymbols_fill_ = .returned () b' ∧
      b'.fetch_uflsymbol "us" = .returned (some 1) b' ∧
      b'.fetch_uflsymbol "us_n" = .returned (some 2) b' ∧
      b'.fetch_uflsymbol "us_i" = .returned (some 3) b' ∧
      b'.fetch_uflsymbol "v" = .returned (some 1) b' ∧
      b'.fetch_uflsymbol "v_n" = .returned (some 2) b' ∧
      b'.fetch_uflsymbol "v_i" = .returned (some 3) b' := by
  obtain ⟨b', hb'⟩ := (fill_binds_system_and_field_symbols sample_bucket_to_fill).1 rfl
    sample_fill_distinct
  obtain ⟨⟨h1, h2, h3⟩, hf⟩ := (fill_binds_system_and_field_symbols sample_bucket_to_fill).2
    b' hb' ("Stokes", sample_system_with_coefficient) (by simp [sample_bucket_to_fill])
  obtain ⟨h4, h5, h6⟩ := hf ("Velocity", sample_field_velocity)
    (by simp [sample_system_with_coefficient])
  exact ⟨b', hb', h1, h2, h3, h4, h5, h6⟩

/-- C13 as amended: after a fill that succeeded, each coefficient symbol `c` of a system
and its variants `c_n`, `c_i` are fetched as the coefficient's own current, old and
iterated function. -/
theorem fill_binds_coefficient_symbols_to_own_functions (b b' : Bucket)
    (h : b.uflsymbols_fill_ = .returned () b') :
    ∀ p ∈ b.systems_, ∀ q ∈ p.2.coeffs,
      b'.fetch_uflsymbol q.2.uflsymbol = .returned q.2.function b' ∧
      b'.fetch_uflsymbol (q.2.uflsymbol ++ "_n") = .returned q.2.oldfunction b' ∧
      b'.fetch_uflsymbol (q.2.uflsymbol ++ "_i") = .returned q.2.iteratedfunction b' := by
  intro p hp q hq
  rw [uflsymbols_fill_eq] at h
  obtain ⟨hall, _, _⟩ := register_each_returned _ b b' () h
  obtain ⟨_, _, hcoeffs⟩ := mem_fill_registrations_system b p hp
  exact fetch_three_states fun c hc => hall c (hcoeffs q hq c hc)

theorem sample_fill_returns :
    ∃ b', sample_bucket_to_fill.uflsymbols_fill_ = .returned () b' := by
  rw [uflsymbols_fill_eq]
  exact register_each_returns _ _ sample_fill_distinct
    (by intro n _; simp [sample_bucket_to_fill, sample_bucket, StdMap.keys])

/-- Witness for C13 as amended: in the sample bucket `nu`, `nu_n`, `nu_i` resolve to the
functions 10, 11, 12 of the coefficient. -/
theorem fill_binds_coefficient_symbols_to_own_functions_witness :
    ∃ b', sample_bucket_to_fill.uflsymbols_fill_ = .returned () b' ∧
      b'.fetch_uflsymbol "nu" = .returned (some 10) b' ∧
      b'.fetch_uflsymbol "nu_n" = .returned (some 11) b' ∧
      b'.fetch_uflsymbol "nu_i" = .returned (some 12) b' := by
  obtain ⟨b', hb'⟩ := sample_fill_returns
  exact ⟨b', hb', fill_binds_coefficient_symbols_to_own_functions sample_bucket_to_fill b' hb'
    ("Stokes", sample_system_with_coefficient) (by simp [sample_bucket_to_fill])
    ("Viscosity", sample_coefficient_viscosity) (by simp [sample_system_with_coefficient])⟩

/-- C13 as stated fails: in the sample bucket the fill succeeds and the coefficient symbol
`nu` of the system `Stokes` is fetched as function 10, the coefficient's own, not as the
current function 1 of the parent system. -/
theorem fill_coefficient_symbol_is_not_system_function :
    ∃ b', sample_bucket_to_fill.uflsymbols_fill_ = .returned () b' ∧
      ("Stokes", sample_system_with_coefficient) ∈ sample_bucket_to_fill.systems_ ∧
      ("Viscosity", sample_coefficient_viscosity) ∈ sample_system_with_coefficient.coeffs ∧
      sample_coefficient_viscosity.uflsymbol = "nu" ∧
      b'.fetch_uflsymbol "nu" = .returned (some 10) b' ∧
      b'.fetch_uflsymbol "nu" ≠ .returned sample_system_with_coefficient.function b' := by
  obtain ⟨b', hb'⟩ := sample_fill_returns
  rw [uflsymbols_fill_eq] at hb'
  obtain ⟨hall, _, _⟩ := register_each_returned _ _ b' () hb'
  have hnu : b'.fetch_uflsymbol "nu" = .returned (some 10) b' :=
    fetch_of_find (hall (some 10, "nu") (by decide))
  refine ⟨b', by rw [uflsymbols_fill_eq]; exact hb', by simp [sample_bucket_to_fill],
    by simp [sample_system_with_coefficient], rfl, hnu, ?_⟩
  rw [hnu]
  simp [sample_system_with_coefficient]

/-- C14: the fill registers the timestep exactly when it has a name.  With a name `t` that
is not empty a fill that succeeded fetches `t` as the timestep function.  With the empty
name the fill is the loop over the systems alone.  And when `t` is neither in the registry
beforehand nor a symbol registered for a system, field or coefficient, `t` is a key after
the fill exactly when it is not empty: the empty string is then not a registered name. -/
theorem fill_registers_timestep_iff_named (b : Bucket) :
    (¬ b.timestep_.1 = "" → ∀ b', b.uflsymbols_fill_ = .returned () b' →
      b'.fetch_uflsymbol b.timestep_.1 = .returned b.timestep_.2 b') ∧
    (b.timestep_.1 = "" → b.uflsymbols_fill_ = uflsymbols_fill_systems b.systems_ b) ∧
    (b.timestep_.1 ∉ StdMap.keys b.uflsymbols_ →
      b.timestep_.1 ∉ (systems_registrations b.systems_).map Prod.snd →
      (b.timestep_.1 ∈ StdMap.keys b.uflsymbols_fill_.state.uflsymbols_ ↔
        ¬ b.timestep_.1 = "") ∧
      (b.timestep_.1 = "" →
        b.uflsymbols_fill_.state.fetch_uflsymbol "" =
          .aborted (.does_not_exist "") b.uflsymbols_fill_.state)) := by
  refine ⟨?_, ?_, ?_⟩
  · intro hne b' h
    rw [uflsymbols_fill_eq] at h
    obtain ⟨hall, _, _⟩ := register_each_returned _ b b' () h
    exact fetch_of_find (hall (b.timestep_.2, b.timestep_.1)
      (by simp [fill_registrations, hne]))
  · intro he
    simp [Bucket.uflsymbols_fill_, he, Outcome.and_then]
  · intro hfresh hother
    rw [uflsymbols_fill_eq]
    by_cases he : b.timestep_.1 = ""
    · have hreg : fill_registrations b = systems_registrations b.systems_ := by
        simp [fill_registrations, he]
      rw [hreg]
      have hfind := (register_each_state (systems_registrations b.systems_) b).1
        b.timestep_.1 hother
      rw [(StdMap.find_eq_none_iff _ _).2 hfresh] at hfind
      have hnot := (StdMap.find_eq_none_iff _ _).1 hfind
      refine ⟨⟨fun hin => absurd hin hnot, fun hne => absurd he hne⟩, fun _ => ?_⟩
      rw [he] at hfind
      unfold Bucket.fetch_uflsymbol
      rw [hfind]
    · have hreg : fill_registrations b =
          (b.timestep_.2, b.timestep_.1) :: systems_registrations b.systems_ := by
        simp [fill_registrations, he]
      rw [hreg]
      refine ⟨⟨fun _ => he, fun _ => ?_⟩, fun h => absurd h he⟩
      have hnone : StdMap.find b.uflsymbols_ b.timestep_.1 = none :=
        (StdMap.find_eq_none_iff _ _).2 hfresh
      have hcall : b.register_uflsymbol b.timestep_.2 b.timestep_.1 = .returned ()
          { b with uflsymbols_ := StdMap.assign b.uflsymbols_ b.timestep_.1 b.timestep_.2 } := by
        unfold Bucket.register_uflsymbol
        rw [hnone]
      have hstate : register_each
          ((b.timestep_.2, b.timestep_.1) :: systems_registrations b.systems_) b =
          register_each (systems_registrations b.systems_)
            { b with uflsymbols_ := StdMap.assign b.uflsymbols_ b.timestep_.1 b.timestep_.2 } := by
        show (b.register_uflsymbol b.timestep_.2 b.timestep_.1).and_then _ = _
        rw [hcall]
        rfl
      rw [hstate, ← StdMap.find_isSome_iff]
      rw [(register_each_state (systems_registrations b.systems_) _).2.1 b.timestep_.1
        b.timestep_.2 (StdMap.find_assign_self _ _ _)]
      rfl

/-- Witness for C14: with the timestep named `dt` the fill of the sample bucket succeeds
and `dt` is fetched as the timestep function 9; with the timestep unnamed the empty string
is not registered by the fill. -/
theorem fill_registers_timestep_iff_named_witness :
    (∃ b', sample_bucket_to_fill.uflsymbols_fill_ = .returned () b' ∧
      b'.fetch_uflsymbol "dt" = .returned (some 9) b') ∧
    sample_bucket_to_fill_unnamed.uflsymbols_fill_.state.fetch_uflsymbol "" =
      .aborted (.does_not_exist "") sample_bucket_to_fill_unnamed.uflsymbols_fill_.state := by
  constructor
  · obtain ⟨b', hb'⟩ := sample_fill_returns
    exact ⟨b', hb', (fill_registers_timestep_iff_named sample_bucket_to_fill).1
      (by decide) b' hb'⟩
  · exact ((fill_registers_timestep_iff_named sample_bucket_to_fill_unnamed).2.2
      (by simp [sample_bucket_to_fill_unnamed, sample_bucket_to_fill, sample_bucket,
        StdMap.keys])
      (by decide)).2 rfl

/-! ## Ordered systems and base symbols -/

theorem systems_after_register_systems (calls : List (SystemBucket × String)) (b : Bucket)
    (seen : List String) (hkeys : ∀ n, n ∈ StdMap.keys b.systems_ ↔ n ∈ seen) :
    successful_registrations b calls = first_registrations calls seen ∧
    StdMap.size (register_systems b calls).systems_ =
      StdMap.size b.systems_ + (first_registrations calls seen).length := by
  induction calls generalizing b seen with
  | nil => simp [successful_registrations, first_registrations, register_systems]
  | cons c rest ih =>
    obtain ⟨s, n⟩ := c
    have hstep : register_systems b ((s, n) :: rest) =
        register_systems (b.register_system s n).state rest := by
      simp [register_systems]
    rw [hstep]
    by_cases hn : n ∈ seen
    · have hfind : (StdMap.find b.systems_ n).isSome = true :=
        (StdMap.find_isSome_iff _ _).2 ((hkeys n).2 hn)
      have hcall : b.register_system s n = .aborted (.already_exists n) b := by
        unfold Bucket.register_system
        cases h : StdMap.find b.systems_ n with
        | none => rw [h] at hfind; cases hfind
        | some v => rfl
      simp only [successful_registrations, first_registrations, if_pos hn, hcall, Outcome.state]
      exact ih b seen hkeys
    · have hfind : StdMap.find b.systems_ n = none :=
        (StdMap.find_eq_none_iff _ _).2 (fun h => hn ((hkeys n).1 h))
      have hcall : b.register_system s n = .returned ()
          { b with
            systems_ := StdMap.assign b.systems_ n s
            orderedsystems_ := StdMap.assign b.orderedsystems_
              (int_cast (StdMap.size (StdMap.assign b.systems_ n s))) s } := by
        unfold Bucket.register_system
        rw [hfind]
      simp only [successful_registrations, first_registrations, if_neg hn, hcall, Outcome.state]
      obtain ⟨h1, h2⟩ := ih
        { b with
          systems_ := StdMap.assign b.systems_ n s
          orderedsystems_ := StdMap.assign b.orderedsystems_
            (int_cast (StdMap.size (StdMap.assign b.systems_ n s))) s }
        (n :: seen)
        (by
          intro n'
          show n' ∈ StdMap.keys (StdMap.assign b.systems_ n s) ↔ _
          rw [keys_assign_new, hkeys]
          simp)
      refine ⟨by rw [h1], ?_⟩
      rw [h2]
      show StdMap.size (StdMap.assign b.systems_ n s) + _ = _
      rw [StdMap.size_assign_new _ _ _ hfind]
      simp only [List.length_cons]
      omega

theorem keys_numbered_from (k : Nat) (systems : List SystemBucket) :
    StdMap.keys (numbered_from k systems) =
      (List.range' k systems.length).map (fun i : Nat => (i : Int)) := by
  induction systems generalizing k with
  | nil => rfl
  | cons s rest ih =>
    have := ih (k + 1)
    simp only [StdMap.keys] at this
    simp [numbered_from, StdMap.keys, List.range'_succ, this]

theorem find_numbered_from (k : Nat) (systems : List SystemBucket) (i : Nat) :
    StdMap.find (numbered_from k systems) ((k : Int) + i) = systems[i]? := by
  induction systems generalizing k i with
  | nil => simp [numbered_from, StdMap.find]
  | cons s rest ih =>
    cases i with
    | zero => simp [numbered_from, StdMap.find]
    | succ i =>
      have hne : ¬ ((k : Int) + ((i + 1 : Nat) : Int) = (k : Int)) := by push_cast; omega
      have hk : (k : Int) + ((i + 1 : Nat) : Int) = ((k + 1 : Nat) : Int) + i := by
        push_cast; omega
      simp only [numbered_from, StdMap.find, if_neg hne, List.getElem?_cons_succ]
      rw [hk, ih]

/-- C11: after any sequence of fewer than 2^31 `register_system` calls on a bucket without
systems, the keys of the ordered systems map are exactly 1, …, n for the number n of calls
that returned, n is the size of the name keyed systems map, and key k holds the system of
the k-th call that returned; a call that fails leaves the bucket, and so both maps, as it
was. -/
theorem register_system_numbers_systems_from_one (b0 : Bucket)
    (calls : List (SystemBucket × String)) (hlen : calls.length < 2147483648) :
    let start : Bucket := { b0 with systems_ := [], orderedsystems_ := [] }
    let b := register_systems start calls
    let registered := successful_registrations start calls
    StdMap.keys b.orderedsystems_ =
        (List.range' 1 registered.length).map (fun k : Nat => (k : Int)) ∧
      StdMap.size b.systems_ = registered.length ∧
      (∀ k : Nat, StdMap.find b.orderedsystems_ ((k : Int) + 1) = registered[k]?) ∧
      (∀ (b1 : Bucket) (system : SystemBucket) (name : String) (e : Error) (s : Bucket),
        b1.register_system system name = .aborted e s →
          s = b1 ∧ e = .already_exists name ∧ name ∈ StdMap.keys b1.systems_) := by
  intro start b registered
  have hord := orderedsystems_after_register_systems calls start [] [] rfl rfl
    (by intro n; simp [start, StdMap.keys]) (by simpa using hlen)
  obtain ⟨hsucc, hsize⟩ := systems_after_register_systems calls start []
    (by intro n; simp [start, StdMap.keys])
  simp only [List.nil_append] at hord
  have hreg : registered = first_registrations calls [] := hsucc
  refine ⟨?_, ?_, ?_, ?_⟩
  · show StdMap.keys (register_systems start calls).orderedsystems_ = _
    rw [hord, keys_numbered_from, hreg]
  · show StdMap.size (register_systems start calls).systems_ = _
    rw [hsize, hreg]
    simp [start, StdMap.size]
  · intro k
    show StdMap.find (register_systems start calls).orderedsystems_ _ = _
    rw [hord, hreg, add_comm]
    exact find_numbered_from 1 _ k
  · intro b1 system name e s h
    unfold Bucket.register_system at h
    cases hf : StdMap.find b1.systems_ name with
    | none => rw [hf] at h; cases h
    | some v =>
      rw [hf] at h
      cases h
      refine ⟨rfl, rfl, ?_⟩
      rw [← StdMap.find_isSome_iff, hf]
      rfl

/-- Witness for C11: `Stokes` and `Advection` are registered, a second `Stokes` fails; the
ordered systems map has the keys 1 and 2 holding `Stokes` and `Advection`, and the name
keyed map has size 2. -/
theorem register_system_numbers_systems_from_one_witness :
    StdMap.keys (register_systems sample_bucket
        [(sample_system_stokes, "Stokes"), (sample_system_advection, "Advection"),
          (sample_system_advection, "Stokes")]).orderedsystems_ = [1, 2] ∧
      StdMap.size (register_systems sample_bucket
        [(sample_system_stokes, "Stokes"), (sample_system_advection, "Advection"),
          (sample_system_advection, "Stokes")]).systems_ = 2 ∧
      StdMap.find (register_systems sample_bucket
        [(sample_system_stokes, "Stokes"), (sample_system_advection, "Advection"),
          (sample_system_advection, "Stokes")]).orderedsystems_ 2 =
        some sample_system_advection := by
  have h := register_system_numbers_systems_from_one sample_bucket
    [(sample_system_stokes, "Stokes"), (sample_system_advection, "Advection"),
      (sample_system_advection, "Stokes")] (by simp)
  have hs := (systems_after_register_systems
    [(sample_system_stokes, "Stokes"), (sample_system_advection, "Advection"),
      (sample_system_advection, "Stokes")] sample_bucket []
    (by intro n; simp [sample_bucket, StdMap.keys])).1
  simp only [first_registrations] at hs
  simp only [List.mem_cons, List.mem_singleton, List.not_mem_nil, if_false, if_true,
    or_false, String.reduceEq, or_true] at hs
  obtain ⟨h1, h2, h3, _⟩ := h
  have he : ({ sample_bucket with systems_ := [], orderedsystems_ := [] } : Bucket) =
      sample_bucket := rfl
  rw [he] at h1 h2 h3
  rw [hs] at h1 h2 h3
  refine ⟨by simpa [List.range'] using h1, by simpa using h2, ?_⟩
  have := h3 1
  simpa using this

theorem find_register_aliases (base : String) (names : List String) (b : Bucket)
    (n : String) :
    StdMap.find (register_aliases base names b).baseuflsymbols_ n =
      match StdMap.find b.baseuflsymbols_ n with
      | some v => some v
      | none => if n ∈ names then some base else none := by
  induction names generalizing b with
  | nil =>
    simp only [register_aliases, List.foldl_nil]
    cases StdMap.find b.baseuflsymbols_ n <;> simp
  | cons x rest ih =>
    have hstep : register_aliases base (x :: rest) b =
        register_aliases base rest (b.register_baseuflsymbol base x).state := by
      simp [register_aliases]
    rw [hstep, ih]
    cases hx : StdMap.find b.baseuflsymbols_ x with
    | some v =>
      have hst : (b.register_baseuflsymbol base x).state = b := by
        unfold Bucket.register_baseuflsymbol
        rw [hx]
        rfl
      rw [hst]
      cases hn : StdMap.find b.baseuflsymbols_ n with
      | some w => rfl
      | none =>
        have hne : ¬ n = x := by
          intro he
          rw [he, hx] at hn
          cases hn
        simp [hne]
    | none =>
      have hst : (b.register_baseuflsymbol base x).state =
          { b with baseuflsymbols_ := StdMap.assign b.baseuflsymbols_ x base } := by
        unfold Bucket.register_baseuflsymbol
        rw [hx]
        rfl
      rw [hst]
      by_cases he : n = x
      · subst he
        show (match StdMap.find (StdMap.assign b.baseuflsymbols_ n base) n with
          | some v => some v
          | none => if n ∈ rest then some base else none) = _
        rw [StdMap.find_assign_self, hx]
        simp
      · show (match StdMap.find (StdMap.assign b.baseuflsymbols_ x base) n with
          | some v => some v
          | none => if n ∈ rest then some base else none) = _
        rw [StdMap.find_assign_other _ _ _ _ he]
        cases hn : StdMap.find b.baseuflsymbols_ n with
        | some w => rfl
        | none => simp [he]

/-- C15: `register_baseuflsymbol(base, name)` fails, with the duplicate error, exactly when
`name` is already a key of the base symbol map, whatever `base` is.  When it succeeds
`fetch_baseuflsymbol(name)` returns `base`, `contains_baseuflsymbol(name)` is true and the
entry of every other symbol, `base` included, is as before.  So any list of names that are
not yet aliased can be aliased to one base, each then resolving to `base`, with the entry
of `base` itself untouched. -/
theorem register_baseuflsymbol_aliases_one_way (b : Bucket) (base name : String) :
    ((∃ e s, b.register_baseuflsymbol base name = .aborted e s) ↔
        name ∈ StdMap.keys b.baseuflsymbols_) ∧
    (name ∈ StdMap.keys b.baseuflsymbols_ →
        b.register_baseuflsymbol base name = .aborted (.already_exists name) b) ∧
    (name ∉ StdMap.keys b.baseuflsymbols_ →
        ∃ b', b.register_baseuflsymbol base name = .returned () b' ∧
          b'.fetch_baseuflsymbol name = .returned base b' ∧
          b'.contains_baseuflsymbol name = true ∧
          ∀ other, other ≠ name →
            StdMap.find b'.baseuflsymbols_ other = StdMap.find b.baseuflsymbols_ other) ∧
    (∀ names : List String, (∀ n ∈ names, n ∉ StdMap.keys b.baseuflsymbols_) →
        base ∉ names →
        (∀ n ∈ names, (register_aliases base names b).fetch_baseuflsymbol n =
          .returned base (register_aliases base names b)) ∧
        StdMap.find (register_aliases base names b).baseuflsymbols_ base =
          StdMap.find b.baseuflsymbols_ base) := by
  refine ⟨?_, ?_, ?_, ?_⟩
  · unfold Bucket.register_baseuflsymbol
    cases h : StdMap.find b.baseuflsymbols_ name with
    | none =>
      have hk := (StdMap.find_eq_none_iff _ _).1 h
      simp [hk]
    | some v =>
      have hk : name ∈ StdMap.keys b.baseuflsymbols_ := by
        rw [← StdMap.find_isSome_iff, h]; rfl
      simp [hk]
  · intro hk
    rw [← StdMap.find_isSome_iff] at hk
    unfold Bucket.register_baseuflsymbol
    cases h : StdMap.find b.baseuflsymbols_ name with
    | none => rw [h] at hk; cases hk
    | some v => rfl
  · intro hk
    have h := (StdMap.find_eq_none_iff _ _).2 hk
    unfold Bucket.register_baseuflsymbol
    rw [h]
    refine ⟨_, rfl, ?_, ?_, ?_⟩
    · simp [Bucket.fetch_baseuflsymbol, StdMap.find_assign_self]
    · simp [Bucket.contains_baseuflsymbol, StdMap.find_assign_self]
    · intro other hne
      exact StdMap.find_assign_other _ _ _ _ hne
  · intro names hfresh hbase
    refine ⟨?_, ?_⟩
    · intro n hn
      have hf := find_register_aliases base names b n
      rw [(StdMap.find_eq_none_iff _ _).2 (hfresh n hn)] at hf
      simp only [hn, if_true] at hf
      unfold Bucket.fetch_baseuflsymbol
      rw [hf]
    · have hf := find_register_aliases base names b base
      cases hb : StdMap.find b.baseuflsymbols_ base with
      | some v => rw [hb] at hf; exact hf
      | none =>
        rw [hb] at hf
        simp only [hbase, if_false] at hf
        exact hf

/-! ## Dump decisions -/

/-- C17: when `dump_` returns false for a stream with a time period, the value it leaves in
the last dump time of the stream is the one it found, so writing it back to the stream
leaves the bucket as it was. -/
theorem dump_false_has_no_side_effect (b : Bucket) (period : ℚ) (previous : Option ℚ)
    (period_timesteps : Option Int) (t : Option ℚ)
    (h : dump_ b (some period) previous period_timesteps = .ok (false, t)) :
    t = previous ∧
    (previous = b.visualization_dumptime_ → { b with visualization_dumptime_ := t } = b) ∧
    (previous = b.statistics_dumptime_ → { b with statistics_dumptime_ := t } = b) ∧
    (previous = b.steadystate_dumptime_ → { b with steadystate_dumptime_ := t } = b) ∧
    (previous = b.detectors_dumptime_ → { b with detectors_dumptime_ := t } = b) := by
  have ht : t = previous := by
    unfold dump_ at h
    by_cases hs : b.current_time = b.start_time
    · simp [hs] at h
    · cases previous with
      | none => simp [hs] at h
      | some prev =>
        by_cases hg : b.current_time - prev > period
        · simp [hs, hg] at h
        · simp [hs, hg] at h
          exact h.symm
  subst ht
  refine ⟨rfl, ?_, ?_, ?_, ?_⟩ <;> intro hp <;> subst hp <;> rfl

/-- Witness for C17: with period 1 and the last dump of the statistics stream at time 0,
the call at time 1/2 returns false and the bucket after it is the bucket before it. -/
theorem dump_false_has_no_side_effect_witness :
    dump_ { sample_bucket with current_time_ := 1 / 2, statistics_dumptime_ := some 0 }
        (some 1) (some 0) none = .ok (false, some 0) ∧
      ({ ({ sample_bucket with current_time_ := 1 / 2, statistics_dumptime_ := some 0 } :
          Bucket) with statistics_dumptime_ := some 0 } : Bucket) =
        { sample_bucket with current_time_ := 1 / 2, statistics_dumptime_ := some 0 } := by
  have hd : dump_ { sample_bucket with current_time_ := 1 / 2, statistics_dumptime_ := some 0 }
      (some 1) (some 0) none = .ok (false, some 0) := by
    unfold dump_
    norm_num [sample_bucket, Bucket.current_time, Bucket.start_time]
  exact ⟨hd, (dump_false_has_no_side_effect _ 1 (some 0) none (some 0) hd).2.2.1 rfl⟩

/-- C18: for a stream without a time period and with a timestep period `K`, `dump_`
returns true at timestep count 0 and otherwise exactly when the remainder of `K` divided by
the timestep count is 0, that is when the timestep count divides `K` (with `K = 5` at count
10 it returns false); for a stream with neither period it returns true; the last dump
time is left as it was in each case. -/
theorem dump_timestep_period_takes_remainder_of_period (b : Bucket) (previous : Option ℚ) :
    (∀ K : Int, b.timestep_count_ = 0 → dump_ b none previous (some K) = .ok (true, previous)) ∧
    (∀ K : Int, b.timestep_count_ ≠ 0 →
      dump_ b none previous (some K) =
        .ok (decide (Int.tmod K b.timestep_count_ = 0), previous)) ∧
    (∀ K : Int, Int.tmod K b.timestep_count_ = 0 ↔ b.timestep_count_ ∣ K) ∧
    dump_ { sample_bucket with timestep_count_ := 10 } none previous (some 5) =
      .ok (false, previous) ∧
    dump_ b none previous none = .ok (true, previous) := by
  refine ⟨?_, ?_, ?_, ?_, rfl⟩
  · intro K h
    have h' : b.timestep_count = 0 := h
    simp [dump_, h']
  · intro K h
    unfold dump_
    simp only [Bucket.timestep_count, h, if_false]
  · intro K
    exact Int.dvd_iff_tmod_eq_zero.symm
  · simp [dump_, Bucket.timestep_count, sample_bucket]
    decide

/-- C19 as amended: when the current time is the start time, `dump_` returns true for
every stream with a time period (whatever its timestep period, the timestep count and the
last dump time, which may be unset) and for every stream without any period; for a stream
with a timestep period `K` only it returns true exactly when the timestep count is 0 or
the remainder of `K` divided by it is 0.  The last dump time is left as it was. -/
theorem dump_at_start_time (b : Bucket) (h : b.current_time_ = b.start_time_) :
    (∀ (P : ℚ) (previous : Option ℚ) (period_timesteps : Option Int),
      dump_ b (some P) previous period_timesteps = .ok (true, previous)) ∧
    (∀ previous : Option ℚ, dump_ b none previous none = .ok (true, previous)) ∧
    (∀ (previous : Option ℚ) (K : Int),
      dump_ b none previous (some K) =
        .ok (decide (b.timestep_count_ = 0 ∨ Int.tmod K b.timestep_count_ = 0), previous)) := by
  have h' : b.current_time = b.start_time := h
  refine ⟨?_, ?_, ?_⟩
  · intro P previous k
    simp [dump_, h']
  · intro previous
    rfl
  · intro previous K
    by_cases hc : b.timestep_count = 0
    · have hc' : b.timestep_count_ = 0 := hc
      simp [dump_, hc, hc']
    · have hc' : ¬ b.timestep_count_ = 0 := hc
      simp [dump_, hc, hc', Bucket.timestep_count]

/-- Witness for C19 as amended: the sample bucket stands at its start time 0 and a stream
with time period 1 and no last dump time dumps. -/
theorem dump_at_start_time_witness :
    dump_ sample_bucket (some 1) none none = .ok (true, none) :=
  (dump_at_start_time sample_bucket rfl).1 1 none none

/-- C19 as stated fails: with the current time equal to the start time, a stream with a
timestep period of 3 only does not dump at timestep count 2. -/
theorem dump_at_start_time_can_be_false :
    ({ sample_bucket with timestep_count_ := 2 } : Bucket).current_time_ =
        ({ sample_bucket with timestep_count_ := 2 } : Bucket).start_time_ ∧
      dump_ { sample_bucket with timestep_count_ := 2 } none none (some 3) =
        .ok (false, none) := by
  refine ⟨rfl, ?_⟩
  simp [dump_, Bucket.timestep_count, sample_bucket]
  decide

/-! ## The initial output -/

theorem dump_initial (b : Bucket) (period previous : Option ℚ) (period_timesteps : Option Int)
    (htime : b.current_time = b.start_time) (hcount : b.timestep_count = 0) :
    dump_ b period previous period_timesteps = .ok (true, previous) := by
  unfold dump_
  cases period with
  | some P => simp [htime]
  | none =>
    cases period_timesteps with
    | some K => simp [hcount]
    | none => rfl

theorem output_initial {W : Type} (env : Collaborators W) (m : Machine W)
    (htime : m.bucket.current_time_ = m.bucket.start_time_)
    (hcount : m.bucket.timestep_count_ = 0) :
    output env m = output_write env true true true true
      { m with trace := m.trace ++ [Event.output] } := by
  unfold output
  simp only []
  rw [dump_initial _ _ _ _ htime hcount]
  simp only []
  rw [dump_initial _ _ _ _ htime hcount]
  simp only []
  rw [dump_initial _ _ _ _ htime hcount]
  simp only []
  rw [dump_initial _ _ _ _ htime hcount]

theorem output_initial_returned {W : Type} (env : Collaborators W)
    (m : Machine W) (htime : m.bucket.current_time_ = m.bucket.start_time_)
    (hcount : m.bucket.timestep_count_ = 0) (hstat : m.bucket.statfile_ = true) :
    ∃ m', output env m = .returned () m' ∧ m'.bucket = m.bucket ∧
      m'.trace = m.trace ++ ([Event.output, Event.write_data .statfile] ++
        (if m.bucket.detfile_ = true then [Event.write_data .detfile] else []) ++
        (m.bucket.systems_.map Prod.snd).map Event.system_output) ∧
      Event.write_data .steadyfile ∉ ([Event.output, Event.write_data .statfile] ++
        (if m.bucket.detfile_ = true then [Event.write_data .detfile] else []) ++
        (m.bucket.systems_.map Prod.snd).map Event.system_output) := by
  rw [output_initial env m htime hcount]
  have hc : m.bucket.timestep_count = 0 := hcount
  unfold output_write
  simp only [hstat, Bool.not_true, Bool.and_false, Bool.false_eq_true, if_false, if_true,
    Bool.true_and]
  refine ⟨_, rfl, ?_, ?_, ?_⟩
  · cases hd : m.bucket.detfile_ <;> simp [hd, hc]
  · cases hd : m.bucket.detfile_ <;> simp [hd, hc, for_each_system_eq]
  · cases hd : m.bucket.detfile_ <;> simp [hd]

/-- C20 as amended: in the initial `output()` call, made at the start time with timestep
count 0, all four dump decisions are true for every period configuration; with the
statistics file set the call returns, leaves the bucket as it was, and writes in this
order the statistics file, the detectors file if it is set, and the visualization output
of every system; the steady state file is not written. -/
theorem initial_output_writes_all_but_steady_state {W : Type} (env : Collaborators W)
    (m : Machine W) (htime : m.bucket.current_time_ = m.bucket.start_time_)
    (hcount : m.bucket.timestep_count_ = 0) (hstat : m.bucket.statfile_ = true) :
    (∀ (period previous : Option ℚ) (period_timesteps : Option Int),
      dump_ m.bucket period previous period_timesteps = .ok (true, previous)) ∧
    ∃ m', output env m = .returned () m' ∧ m'.bucket = m.bucket ∧
      m'.trace = m.trace ++ ([Event.output, Event.write_data .statfile] ++
        (if m.bucket.detfile_ = true then [Event.write_data .detfile] else []) ++
        (m.bucket.systems_.map Prod.snd).map Event.system_output) ∧
      Event.write_data .steadyfile ∉ ([Event.output, Event.write_data .statfile] ++
        (if m.bucket.detfile_ = true then [Event.write_data .detfile] else []) ++
        (m.bucket.systems_.map Prod.snd).map Event.system_output) :=
  ⟨fun p prev k => dump_initial m.bucket p prev k htime hcount,
    output_initial_returned env m htime hcount hstat⟩

/-- Witness for C20 as amended: the initial output of the sample bucket, with the
detectors and steady state files set as well, writes the statistics and the detectors
file and nothing else. -/
theorem initial_output_writes_all_but_steady_state_witness :
    ∃ m', output idle ⟨{ sample_bucket with detfile_ := true, steadyfile_ := true }, (), []⟩ =
        .returned () m' ∧
      m'.trace = [Event.output, Event.write_data .statfile, Event.write_data .detfile] := by
  obtain ⟨m', h, _, htr, _⟩ := (initial_output_writes_all_but_steady_state idle
    ⟨{ sample_bucket with detfile_ := true, steadyfile_ := true }, (), []⟩ rfl rfl rfl).2
  exact ⟨m', h, by simpa [sample_bucket] using htr⟩

/-- C20 as stated fails: the sample bucket stands at its start time with timestep count 0
and has its steady state file set, yet the initial output does not write that file. -/
theorem initial_output_skips_steady_state_file :
    ∃ m', output idle ⟨{ sample_bucket with detfile_ := true, steadyfile_ := true }, (), []⟩ =
        .returned () m' ∧
      m'.bucket.steadyfile_ = true ∧
      m'.bucket.current_time_ = m'.bucket.start_time_ ∧ m'.bucket.timestep_count_ = 0 ∧
      Event.write_data .steadyfile ∉ m'.trace := by
  obtain ⟨m', h, hb, htr, _⟩ := output_initial_returned idle
    ⟨{ sample_bucket with detfile_ := true, steadyfile_ := true }, (), []⟩ rfl rfl rfl
  refine ⟨m', h, by simp [hb], by simp [hb, sample_bucket], by simp [hb, sample_bucket], ?_⟩
  rw [htr]
  simp [sample_bucket]

/-! ## The steady state check -/

theorem foldl_max_lt_iff (init tol : ℚ) (l : List ℚ) :
    l.foldl max init < tol ↔ init < tol ∧ ∀ x ∈ l, x < tol := by
  induction l generalizing init with
  | nil => simp
  | cons a l ih =>
    rw [List.foldl_cons, ih, max_lt_iff]
    simp only [List.mem_cons, forall_eq_or_imp]
    tauto

theorem foldl_system_maxchange {κ σ : Type} (change : σ → ℚ) (l : List (κ × σ)) (init : ℚ) :
    l.foldl (fun maxchange s => max (change s.2) maxchange) init =
      (l.map fun s => change s.2).foldl max init := by
  induction l generalizing init with
  | nil => rfl
  | cons a l ih =>
    rw [List.foldl_cons, ih, List.map_cons, List.foldl_cons, max_comm]

theorem steadystate_with_tolerance {W : Type} (env : Collaborators W) (m : Machine W) (tol : ℚ)
    (h : m.bucket.steadystate_tol_ = some tol) :
    steadystate_ env m = true ↔
      0 < tol ∧ ∀ s ∈ m.bucket.systems_, env.system_maxchange s.2 m.world < tol := by
  simp only [steadystate_, h, foldl_system_maxchange (fun s => env.system_maxchange s m.world),
    decide_eq_true_eq, foldl_max_lt_iff, List.mem_map, forall_exists_index, and_imp,
    forall_apply_eq_imp_iff₂]

/-- C21: with no steady state tolerance configured `steadystate_` returns false,
whatever systems are registered and whatever their `maxchange()` is, and then `complete`
is true exactly through the finish time or the interrupt. -/
theorem steadystate_false_without_tolerance {W : Type} (env : Collaborators W) (m : Machine W)
    (h : m.bucket.steadystate_tol_ = none) :
    steadystate_ env m = false ∧
      ((complete env m).1 = true ↔
        m.bucket.current_time_ ≥ m.bucket.finish_time_ ∨ env.sigint_received m.world = true) := by
  have hs := steadystate_without_tolerance env m h
  refine ⟨hs, ?_⟩
  rw [complete_result, hs]
  simp

/-- Witness for C21: the sample bucket has no tolerance; at time 1 of 3, with a system
reporting the change -1 and no interrupt, it is neither steady nor complete. -/
theorem steadystate_false_without_tolerance_witness :
    steadystate_ receding ⟨{ sample_bucket_all_files with current_time_ := 1 }, (), []⟩ = false ∧
      ((complete receding ⟨{ sample_bucket_all_files with current_time_ := 1 }, (), []⟩).1 = true ↔
        ({ sample_bucket_all_files with current_time_ := 1 } : Bucket).current_time_ ≥
          ({ sample_bucket_all_files with current_time_ := 1 } : Bucket).finish_time_ ∨
        receding.sigint_received () = true) :=
  steadystate_false_without_tolerance receding
    ⟨{ sample_bucket_all_files with current_time_ := 1 }, (), []⟩ rfl

/-- C22 as stated fails: one registered system reports the change -1 and the tolerance
is -1/2; the maximum over the systems, -1, is below the tolerance but `steadystate_` returns
false, because its running maximum starts at 0. -/
theorem steadystate_is_not_maximum_below_tolerance :
    (sample_bucket_with_tolerance (-1 / 2)).steadystate_tol_ = some (-1 / 2) ∧
      (sample_bucket_with_tolerance (-1 / 2)).systems_ = [("Stokes", sample_system_stokes)] ∧
      decide (maximum_of (receding.system_maxchange sample_system_stokes ()) [] < -1 / 2) = true ∧
      steadystate_ receding ⟨sample_bucket_with_tolerance (-1 / 2), (), []⟩ = false := by
  refine ⟨rfl, rfl, ?_, ?_⟩
  · simp only [maximum_of, receding, List.foldl_nil, decide_eq_true_eq]
    norm_num
  · have h := steadystate_with_tolerance receding
      ⟨sample_bucket_with_tolerance (-1 / 2), (), []⟩ (-1 / 2) rfl
    cases hs : steadystate_ receding ⟨sample_bucket_with_tolerance (-1 / 2), (), []⟩ with
    | false => rfl
    | true =>
      have := (h.1 hs).1
      norm_num at this

/-- C23: for every tolerance above 0 and every collection of systems that all report
`maxchange()` = 0, `steadystate_` returns true and so `complete` returns true. -/
theorem steadystate_true_when_nothing_changes {W : Type} (env : Collaborators W)
    (m : Machine W) (tol : ℚ) (htol : m.bucket.steadystate_tol_ = some tol) (hpos : 0 < tol)
    (hzero : ∀ s ∈ m.bucket.systems_, env.system_maxchange s.2 m.world = 0) :
    steadystate_ env m = true ∧ (complete env m).1 = true := by
  have hs : steadystate_ env m = true :=
    (steadystate_with_tolerance env m tol htol).2
      ⟨hpos, fun s hs => by rw [hzero s hs]; exact hpos⟩
  refine ⟨hs, ?_⟩
  rw [complete_result, hs]
  simp

/-- Witness for C23: with the tolerance 1/1000 and one system reporting the change 0 the
sample bucket is steady and complete. -/
theorem steadystate_true_when_nothing_changes_witness :
    steadystate_ idle ⟨sample_bucket_with_tolerance (1 / 1000), (), []⟩ = true ∧
      (complete idle ⟨sample_bucket_with_tolerance (1 / 1000), (), []⟩).1 = true :=
  steadystate_true_when_nothing_changes idle ⟨sample_bucket_with_tolerance (1 / 1000), (), []⟩
    (1 / 1000) rfl (by norm_num) (fun _ _ => rfl)

/-! ## The order of the dump rules -/

/-- C30: when a stream has a time based period, `dump_` decides by the time based
rule alone: its result and the dump time it leaves are the same whatever count based period
is configured with it and whatever the timestep count is. -/
theorem dump_time_period_ignores_timestep_period (b : Bucket) (period : ℚ)
    (previous : Option ℚ) (period_timesteps : Int) (other_period_timesteps : Option Int)
    (other_count : Int) :
    dump_ b (some period) previous (some period_timesteps) =
      dump_ { b with timestep_count_ := other_count } (some period) previous
        other_period_timesteps := by
  simp only [dump_, Bucket.current_time, Bucket.start_time]

/-! ## Destruction of the bucket -/

theorem empty_spec (b : Bucket) :
    b.empty_.2 = (if b.statfile_ then [DiagnosticsFile.statfile] else []) ∧
      b.empty_.1.meshes_ = [] ∧ b.empty_.1.systems_ = [] ∧ b.empty_.1.orderedsystems_ = [] ∧
      b.empty_.1.baseuflsymbols_ = [] ∧ b.empty_.1.uflsymbols_ = [] ∧
      b.empty_.1.coefficientspaces_ = [] ∧ b.empty_.1.detectors_ = [] :=
  ⟨rfl, rfl, rfl, rfl, rfl, rfl, rfl, rfl⟩

/-! ## The callbacks of the nonlinear solver -/

theorem apply_bcs_eq {τ : Type} (apply : Nat → τ → τ) (tensor : Tensor) (bcs : List Nat)
    (t : τ) (trace : List SolverEvent) :
    apply_bcs apply tensor bcs (t, trace) =
      (bcs.foldl (fun t bc => apply bc t) t,
        trace ++ bcs.map fun bc => SolverEvent.apply bc tensor) := by
  induction bcs generalizing t trace with
  | nil => simp [apply_bcs]
  | cons bc rest ih => simp [apply_bcs, ih]

theorem FormJacobian_primary {W : Type} (env : SolverCollaborators W) (ctx : SNESCtx) (x : Vec)
    (A B : Mat) (s : SolverMachine W) :
    (FormJacobian env ctx x A B s).A =
      (if ctx.ident_zeros then env.ident_zeros else id)
        (ctx.bcs.foldl (fun M bc => env.apply_matrix bc M)
          (env.assemble_matrix ctx.bilinear false
            (env.update_nonlinear (env.set_vector ctx.iteratedfunction x s.world)) A)) := by
  simp only [FormJacobian, apply_bcs_eq]
  cases ctx.ident_zeros <;> rfl

theorem FormJacobian_trace {W : Type} (env : SolverCollaborators W) (ctx : SNESCtx) (x : Vec)
    (A B : Mat) (s : SolverMachine W) :
    (FormJacobian env ctx x A B s).machine.trace =
      s.trace ++
        ([SolverEvent.set_vector ctx.iteratedfunction, SolverEvent.update_nonlinear,
            SolverEvent.assemble Tensor.matrix ctx.bilinear false] ++
          ctx.bcs.map (fun bc => SolverEvent.apply bc Tensor.matrix) ++
          (if ctx.ident_zeros then [SolverEvent.ident_zeros Tensor.matrix] else [])) ++
        (match ctx.bilinearpc with
          | some bilinearpc =>
            [SolverEvent.assemble Tensor.matrixpc bilinearpc false] ++
              ctx.bcs.map (fun bc => SolverEvent.apply bc Tensor.matrixpc) ++
              (if ctx.ident_zeros_pc then [SolverEvent.ident_zeros Tensor.matrixpc] else [])
          | none => []) := by
  simp only [FormJacobian, apply_bcs_eq]
  cases ctx.ident_zeros <;> cases ctx.bilinearpc <;> cases ctx.ident_zeros_pc <;>
    simp [List.append_assoc]

theorem primary_steps_off_matrixpc (function bilinear : Nat) (bcs : List Nat) (z : Bool)
    (e : SolverEvent)
    (he : e ∈ [SolverEvent.set_vector function, SolverEvent.update_nonlinear,
          SolverEvent.assemble Tensor.matrix bilinear false] ++
        bcs.map (fun bc => SolverEvent.apply bc Tensor.matrix) ++
        (if z then [SolverEvent.ident_zeros Tensor.matrix] else [])) :
    e.on_matrixpc = false := by
  rcases List.mem_append.1 he with he | he
  · rcases List.mem_append.1 he with he | he
    · simp only [List.mem_cons, List.mem_singleton, List.not_mem_nil, or_false] at he
      rcases he with rfl | rfl | rfl <;> rfl
    · obtain ⟨bc, _, rfl⟩ := List.mem_map.1 he
      rfl
  · cases z
    · simp at he
    · simp only [if_true, List.mem_singleton] at he
      rw [he]
      rfl

theorem preconditioner_steps_on_matrixpc (bilinearpc : Nat) (bcs : List Nat) (z : Bool)
    (e : SolverEvent)
    (he : e ∈ [SolverEvent.assemble Tensor.matrixpc bilinearpc false] ++
        bcs.map (fun bc => SolverEvent.apply bc Tensor.matrixpc) ++
        (if z then [SolverEvent.ident_zeros Tensor.matrixpc] else [])) :
    e.on_matrixpc = true := by
  rcases List.mem_append.1 he with he | he
  · rcases List.mem_append.1 he with he | he
    · simp only [List.mem_singleton] at he
      rw [he]
      rfl
    · obtain ⟨bc, _, rfl⟩ := List.mem_map.1 he
      rfl
  · cases z
    · simp at he
    · simp only [if_true, List.mem_singleton] at he
      rw [he]
      rfl

/-- C24: for every context, `FormFunction` overwrites the vector of the iterated
function with `x`, calls `update_nonlinear()` once, assembles the linear form into `f` with
`reset_tensor` false, applies the boundary conditions to `f` in registration order, each
once, in exactly this order, and returns 0. -/
theorem FormFunction_steps_in_order {W : Type} (env : SolverCollaborators W) (ctx : SNESCtx)
    (x f : Vec) (s : SolverMachine W) :
    (FormFunction env ctx x f s).1 = 0 ∧
      (FormFunction env ctx x f s).2.2.trace =
        s.trace ++
          [SolverEvent.set_vector ctx.iteratedfunction, SolverEvent.update_nonlinear,
            SolverEvent.assemble Tensor.rhs ctx.linear false] ++
          ctx.bcs.map (fun bc => SolverEvent.apply bc Tensor.rhs) ∧
      (FormFunction env ctx x f s).2.2.world =
        env.update_nonlinear (env.set_vector ctx.iteratedfunction x s.world) ∧
      (FormFunction env ctx x f s).2.1 =
        ctx.bcs.foldl (fun v bc => env.apply_vector bc x v)
          (env.assemble_vector ctx.linear false
            (env.update_nonlinear (env.set_vector ctx.iteratedfunction x s.world)) f) := by
  simp only [FormFunction, apply_bcs_eq]
  simp [List.append_assoc]

/-- C25: on the primary matrix `FormJacobian` overwrites the vector of the iterated
function with `x`, calls `update_nonlinear()` once, assembles the bilinear form into `A`
with `reset_tensor` false, applies every boundary condition to `A` in registration order,
and calls `ident_zeros` on `A` if and only if the flag `ident_zeros` of the context is set,
in exactly this order; every step after these is on the preconditioner matrix; and every
call reports `SAME_NONZERO_PATTERN` and returns 0. -/
theorem FormJacobian_primary_steps_in_order {W : Type} (env : SolverCollaborators W)
    (ctx : SNESCtx) (x : Vec) (A B : Mat) (s : SolverMachine W) :
    (FormJacobian env ctx x A B s).code = 0 ∧
      (FormJacobian env ctx x A B s).flag = MatStructure.SAME_NONZERO_PATTERN ∧
      (∃ rest : List SolverEvent,
        (FormJacobian env ctx x A B s).machine.trace =
          s.trace ++
            ([SolverEvent.set_vector ctx.iteratedfunction, SolverEvent.update_nonlinear,
                SolverEvent.assemble Tensor.matrix ctx.bilinear false] ++
              ctx.bcs.map (fun bc => SolverEvent.apply bc Tensor.matrix) ++
              (if ctx.ident_zeros then [SolverEvent.ident_zeros Tensor.matrix] else [])) ++
            rest ∧
        (∀ e ∈ rest, e.on_matrixpc = true) ∧
        (SolverEvent.ident_zeros Tensor.matrix ∈
            [SolverEvent.set_vector ctx.iteratedfunction, SolverEvent.update_nonlinear,
                SolverEvent.assemble Tensor.matrix ctx.bilinear false] ++
              ctx.bcs.map (fun bc => SolverEvent.apply bc Tensor.matrix) ++
              (if ctx.ident_zeros then [SolverEvent.ident_zeros Tensor.matrix] else []) ++
              rest ↔
          ctx.ident_zeros = true)) ∧
      (FormJacobian env ctx x A B s).machine.world =
        env.update_nonlinear (env.set_vector ctx.iteratedfunction x s.world) ∧
      (FormJacobian env ctx x A B s).A =
        (if ctx.ident_zeros then env.ident_zeros else id)
          (ctx.bcs.foldl (fun M bc => env.apply_matrix bc M)
            (env.assemble_matrix ctx.bilinear false
              (env.update_nonlinear (env.set_vector ctx.iteratedfunction x s.world)) A)) := by
  refine ⟨rfl, rfl, ⟨_, FormJacobian_trace env ctx x A B s, ?_, ?_⟩, rfl,
    FormJacobian_primary env ctx x A B s⟩
  · intro e he
    cases hpc : ctx.bilinearpc with
    | none => simp [hpc] at he
    | some pc =>
      rw [hpc] at he
      exact preconditioner_steps_on_matrixpc pc ctx.bcs ctx.ident_zeros_pc e he
  · constructor
    · intro h
      rcases List.mem_append.1 h with h | h
      · rcases List.mem_append.1 h with h | h
        · rcases List.mem_append.1 h with h | h
          · simp at h
          · simp at h
        · cases hz : ctx.ident_zeros
          · simp [hz] at h
          · rfl
      · cases hpc : ctx.bilinearpc with
        | none => simp [hpc] at h
        | some pc =>
          rw [hpc] at h
          have := preconditioner_steps_on_matrixpc pc ctx.bcs ctx.ident_zeros_pc _ h
          simp [SolverEvent.on_matrixpc] at this
    · intro hz
      simp [hz]

/-- C26: `FormJacobian` writes to the preconditioner matrix `B` if and only if the
context has a preconditioner form `bilinearpc`: when it has, after the steps on the primary
matrix it assembles `bilinearpc` into `B` with `reset_tensor` false, applies every boundary
condition to `B` in registration order and calls `ident_zeros` on `B` if and only if
`ident_zeros_pc` is set; when it has none, `B` is returned as it was and no step is on `B`,
whatever `ident_zeros_pc` is. -/
theorem FormJacobian_preconditioner_iff_bilinearpc {W : Type} (env : SolverCollaborators W)
    (ctx : SNESCtx) (x : Vec) (A B : Mat) (s : SolverMachine W) :
    ∃ steps : List SolverEvent,
      (FormJacobian env ctx x A B s).machine.trace = s.trace ++ steps ∧
      ((∃ e ∈ steps, e.on_matrixpc = true) ↔ ctx.bilinearpc.isSome = true) ∧
      (match ctx.bilinearpc with
        | some bilinearpc =>
          steps =
            ([SolverEvent.set_vector ctx.iteratedfunction, SolverEvent.update_nonlinear,
                SolverEvent.assemble Tensor.matrix ctx.bilinear false] ++
              ctx.bcs.map (fun bc => SolverEvent.apply bc Tensor.matrix) ++
              (if ctx.ident_zeros then [SolverEvent.ident_zeros Tensor.matrix] else [])) ++
            ([SolverEvent.assemble Tensor.matrixpc bilinearpc false] ++
              ctx.bcs.map (fun bc => SolverEvent.apply bc Tensor.matrixpc) ++
              (if ctx.ident_zeros_pc then [SolverEvent.ident_zeros Tensor.matrixpc] else [])) ∧
          (SolverEvent.ident_zeros Tensor.matrixpc ∈ steps ↔ ctx.ident_zeros_pc = true) ∧
          (FormJacobian env ctx x A B s).B =
            (if ctx.ident_zeros_pc then env.ident_zeros else id)
              (ctx.bcs.foldl (fun M bc => env.apply_matrix bc M)
                (env.assemble_matrix bilinearpc false
                  (env.update_nonlinear (env.set_vector ctx.iteratedfunction x s.world)) B))
        | none =>
          (∀ e ∈ steps, e.on_matrixpc = false) ∧ (FormJacobian env ctx x A B s).B = B) := by
  refine ⟨_, by rw [FormJacobian_trace, List.append_assoc], ?_, ?_⟩
  · cases hpc : ctx.bilinearpc with
    | none =>
      simp only [List.append_nil, Option.isSome_none, Bool.false_eq_true, iff_false, not_exists,
        not_and, Bool.not_eq_true]
      exact primary_steps_off_matrixpc _ _ _ _
    | some pc =>
      simp only [Option.isSome_some, iff_true]
      exact ⟨SolverEvent.assemble Tensor.matrixpc pc false, by simp, rfl⟩
  · cases hpc : ctx.bilinearpc with
    | none =>
      refine ⟨?_, ?_⟩
      · simp only [List.append_nil]
        exact primary_steps_off_matrixpc _ _ _ _
      · simp only [FormJacobian, hpc]
    | some pc =>
      refine ⟨rfl, ?_, ?_⟩
      · constructor
        · intro h
          rcases List.mem_append.1 h with h | h
          · have := primary_steps_off_matrixpc _ _ _ _ _ h
            simp [SolverEvent.on_matrixpc] at this
          · cases hz : ctx.ident_zeros_pc
            · simp [hz] at h
            · rfl
        · intro hz
          simp [hz]
      · simp only [FormJacobian, hpc, apply_bcs_eq]
        cases ctx.ident_zeros <;> cases ctx.ident_zeros_pc <;> rfl

/-- C28: with `ident_zeros` enabled in the context, every diagonal entry that is a
structural zero after assembly and the application of the boundary conditions is the
identity value 1, so not zero, in the primary matrix that `FormJacobian` returns. -/
theorem FormJacobian_ident_zeros_fills_diagonal {W : Type} (env : SolverCollaborators W)
    (ctx : SNESCtx) (x : Vec) (A B : Mat) (s : SolverMachine W) (i : Nat)
    (henv : env.ident_zeros = ident_zeros) (hflag : ctx.ident_zeros = true)
    (hzero : ctx.bcs.foldl (fun M bc => env.apply_matrix bc M)
      (env.assemble_matrix ctx.bilinear false
        (env.update_nonlinear (env.set_vector ctx.iteratedfunction x s.world)) A) i i = none) :
    (FormJacobian env ctx x A B s).A i i = some 1 ∧
      (FormJacobian env ctx x A B s).A i i ≠ none ∧
      (FormJacobian env ctx x A B s).A i i ≠ some 0 := by
  have h : (FormJacobian env ctx x A B s).A i i = some 1 := by
    rw [FormJacobian_primary, hflag, henv]
    simp [ident_zeros, hzero]
  rw [h]
  exact ⟨rfl, by simp, by simp⟩

/-- Witness for C28: on the sample saddle point problem the entry (1,1), which no form
assembles, is 1 in the returned primary matrix. -/
theorem FormJacobian_ident_zeros_fills_diagonal_witness :
    (FormJacobian sample_solver sample_ctx (fun _ => 0) empty_matrix empty_matrix
        ⟨(), []⟩).A 1 1 = some 1 ∧
      (FormJacobian sample_solver sample_ctx (fun _ => 0) empty_matrix empty_matrix
        ⟨(), []⟩).A 1 1 ≠ none ∧
      (FormJacobian sample_solver sample_ctx (fun _ => 0) empty_matrix empty_matrix
        ⟨(), []⟩).A 1 1 ≠ some 0 :=
  FormJacobian_ident_zeros_fills_diagonal sample_solver sample_ctx (fun _ => 0) empty_matrix
    empty_matrix ⟨(), []⟩ 1 rfl rfl (by simp [sample_solver, sample_ctx, empty_matrix])

/-! ## Field splits -/

theorem is_by_field_fill_ok {system : SplitSystem} {fields : List String}
    {parent_indices sibling_indices indices : List Nat}
    (h : is_by_field_fill_ system fields parent_indices sibling_indices = .ok indices) :
    indices = parent_indices.filter fun i =>
      decide (system.field_of i ∈ fields) && !decide (i ∈ sibling_indices) := by
  unfold is_by_field_fill_ at h
  split at h
  · cases h
  · injection h with h
    exact h.symm

theorem build_split_ok {system : SplitSystem} {spec : SplitSpec}
    {parent_indices sibling_indices : List Nat} {node : IndexSetNode}
    (h : build_split system spec parent_indices sibling_indices = .ok node) :
    (node.indices = parent_indices.filter fun i =>
        decide (system.field_of i ∈ spec.fields) && !decide (i ∈ sibling_indices)) ∧
      pc_fieldsplit_fill_ system spec.children node.indices [] = .ok node.children := by
  cases spec with
  | mk name fields children =>
    rw [build_split] at h
    split at h
    · cases h
    · rename_i indices hfill
      split at h
      · cases h
      · rename_i nodes hnodes
        injection h with h
        subst h
        exact ⟨is_by_field_fill_ok hfill, hnodes⟩

theorem pc_fieldsplit_fill_cons {system : SplitSystem} {spec : SplitSpec}
    {rest : List SplitSpec} {parent_indices sibling_indices : List Nat}
    {nodes : List IndexSetNode}
    (h : pc_fieldsplit_fill_ system (spec :: rest) parent_indices sibling_indices = .ok nodes) :
    ∃ node others, nodes = node :: others ∧
      build_split system spec parent_indices sibling_indices = .ok node ∧
      pc_fieldsplit_fill_ system rest parent_indices (sibling_indices ++ node.indices) =
        .ok others := by
  rw [pc_fieldsplit_fill_] at h
  split at h
  · cases h
  · rename_i node hnode
    split at h
    · cases h
    · rename_i others hothers
      injection h with h
      exact ⟨node, others, h.symm, hnode, hothers⟩

theorem pc_fieldsplit_fill_built {system : SplitSystem} (specs : List SplitSpec)
    (parent_indices sibling_indices : List Nat) (nodes : List IndexSetNode)
    (h : pc_fieldsplit_fill_ system specs parent_indices sibling_indices = .ok nodes) :
    ∀ c ∈ nodes, ∃ spec ∈ specs, ∃ siblings,
      build_split system spec parent_indices siblings = .ok c := by
  induction specs generalizing sibling_indices nodes with
  | nil =>
    rw [pc_fieldsplit_fill_] at h
    injection h with h
    subst h
    intro c hc
    cases hc
  | cons spec rest ih =>
    obtain ⟨node, others, rfl, hnode, hothers⟩ := pc_fieldsplit_fill_cons h
    intro c hc
    rcases List.mem_cons.1 hc with rfl | hc
    · exact ⟨spec, List.mem_cons_self _ _, sibling_indices, hnode⟩
    · obtain ⟨sp, hsp, sib, hb⟩ := ih _ _ hothers c hc
      exact ⟨sp, List.mem_cons_of_mem _ hsp, sib, hb⟩

theorem within_built {system : SplitSystem} {name : String} {children : List SplitSpec}
    {tree : IndexSetNode} (h : build_tree system name children = .ok tree)
    {node : IndexSetNode} (hn : tree.within node) :
    node.indices.Nodup ∧
      ∃ specs, pc_fieldsplit_fill_ system specs node.indices [] = .ok node.children := by
  induction hn with
  | root =>
    unfold build_tree at h
    split at h
    · cases h
    · rename_i nodes hnodes
      injection h with h
      subst h
      exact ⟨List.nodup_range _, children, hnodes⟩
  | child _ hc ih =>
    obtain ⟨hnodup, specs, hspecs⟩ := ih
    obtain ⟨spec, _, siblings, hb⟩ := pc_fieldsplit_fill_built specs _ _ _ hspecs _ hc
    obtain ⟨hidx, hch⟩ := build_split_ok hb
    refine ⟨?_, spec.children, hch⟩
    rw [hidx]
    exact hnodup.filter _

theorem dump_timestep_period (b : Bucket) (previous : Option ℚ) (K : Int)
    (h : b.timestep_count_ ≠ 0) :
    dump_ b none previous (some K) = .ok (decide (b.timestep_count_ ∣ K), previous) := by
  unfold dump_
  simp only [Bucket.timestep_count, h, if_false]
  congr 2
  exact decide_eq_decide.2 Int.dvd_iff_tmod_eq_zero.symm

theorem not_dvd_of_abs_lt {K n : Int} (hK : K ≠ 0) (hn : |K| < n) : ¬ n ∣ K := by
  intro hd
  have h1 : n ∣ |K| := (dvd_abs n K).2 hd
  have h2 : 0 < |K| := abs_pos.2 hK
  have := Int.le_of_dvd h2 h1
  omega

/-! ## A dump at the start time -/

/-- C32: for a stream with a time period, at a current time equal to the start time
`dump_` returns true and leaves the last dump time as it found it, set or not; a following
call at another time is therefore decided by the gap to that earlier last dump time. -/
theorem dump_at_start_time_leaves_dump_time (b : Bucket) (period : ℚ) (previous : Option ℚ)
    (period_timesteps : Option Int) (h : b.current_time_ = b.start_time_) :
    dump_ b (some period) previous period_timesteps = .ok (true, previous) ∧
    ∀ (d : Bool) (t : Option ℚ),
      dump_ b (some period) previous period_timesteps = .ok (d, t) →
      t = previous ∧
      ∀ (next : Bucket) (t0 : ℚ) (k : Option Int), previous = some t0 →
        next.current_time_ ≠ next.start_time_ →
        dump_ next (some period) t k =
          .ok (decide (next.current_time_ - t0 > period),
            some (if next.current_time_ - t0 > period then next.current_time_ else t0)) := by
  have h1 : dump_ b (some period) previous period_timesteps = .ok (true, previous) := by
    simp [dump_, Bucket.current_time, Bucket.start_time, h]
  refine ⟨h1, ?_⟩
  intro d t hd
  rw [h1] at hd
  injection hd with hd
  injection hd with _ ht
  subst ht
  refine ⟨rfl, ?_⟩
  intro next t0 k hprev hne
  subst hprev
  simp only [dump_, Bucket.current_time, Bucket.start_time, hne, if_false]
  by_cases hgap : next.current_time_ - t0 > period <;> simp [hgap]

/-- Witness for C32: the sample bucket stands at its start time 0; a stream with period 1
last dumped at time -5 dumps and keeps -5 as its last dump time, so at time 1/2 the gap
is 11/2, above the period. -/
theorem dump_at_start_time_leaves_dump_time_witness :
    dump_ sample_bucket (some 1) (some (-5)) none = .ok (true, some (-5)) ∧
      dump_ { sample_bucket with current_time_ := 1 / 2 } (some 1) (some (-5)) none =
        .ok (decide ((1 / 2 : ℚ) - (-5) > 1),
          some (if (1 / 2 : ℚ) - (-5) > 1 then (1 / 2 : ℚ) else (-5))) :=
  ⟨(dump_at_start_time_leaves_dump_time sample_bucket 1 (some (-5)) none rfl).1,
    ((dump_at_start_time_leaves_dump_time sample_bucket 1 (some (-5)) none rfl).2 true
      (some (-5)) rfl).2 { sample_bucket with current_time_ := 1 / 2 } (-5) none rfl
      (by simp [sample_bucket])⟩

/-! ## The seed of the running maximum -/

/-- C35: with a tolerance configured, `steadystate_` returns true if and only if
max(0, max over the systems of `maxchange()`) is below the tolerance, the running maximum
starting at 0; so it returns false for every tolerance of 0 or less, whatever the systems
report, and with no system registered it returns true exactly when the tolerance is above
0. -/
theorem steadystate_maximum_starts_at_zero {W : Type} (env : Collaborators W)
    (m : Machine W) (tol : ℚ) (htol : m.bucket.steadystate_tol_ = some tol) :
    steadystate_ env m =
        decide (maximum_of 0 (m.bucket.systems_.map fun s => env.system_maxchange s.2 m.world) <
          tol) ∧
      (∀ p rest, m.bucket.systems_ = p :: rest →
        steadystate_ env m =
          decide (max 0 (maximum_of (env.system_maxchange p.2 m.world)
            (rest.map fun s => env.system_maxchange s.2 m.world)) < tol)) ∧
      (tol ≤ 0 → steadystate_ env m = false) ∧
      (m.bucket.systems_ = [] → (steadystate_ env m = true ↔ 0 < tol)) := by
  have hiff := steadystate_with_tolerance env m tol htol
  refine ⟨?_, ?_, ?_, ?_⟩
  · rw [Bool.eq_iff_iff, hiff, decide_eq_true_eq, maximum_of, foldl_max_lt_iff]
    simp only [List.mem_map, forall_exists_index, and_imp, forall_apply_eq_imp_iff₂]
  · intro p rest hsys
    rw [Bool.eq_iff_iff, hiff, decide_eq_true_eq, max_lt_iff, maximum_of, foldl_max_lt_iff,
      hsys]
    simp only [List.mem_cons, forall_eq_or_imp, List.mem_map, forall_exists_index, and_imp,
      forall_apply_eq_imp_iff₂]
  · intro hle
    cases hs : steadystate_ env m with
    | false => rfl
    | true => exact absurd (hiff.1 hs).1 (not_lt.2 hle)
  · intro hnil
    rw [hiff, hnil]
    simp

/-- Witness for C35: one system reporting the change -1 and the tolerance -1/2: the
comparison is of max(0, -1) = 0 with -1/2. -/
theorem steadystate_maximum_starts_at_zero_witness :
    steadystate_ receding ⟨sample_bucket_with_tolerance (-1 / 2), (), []⟩ = false :=
  (steadystate_maximum_starts_at_zero receding ⟨sample_bucket_with_tolerance (-1 / 2), (), []⟩
    (-1 / 2) rfl).2.2.1 (by norm_num)

/-! ## The divisor of the modulo -/

/-- C36: `dump_` evaluates its modulo only with a timestep count other than 0: for every
period, every last dump time and every timestep count, 0 and negative ones included, the
call with the modulo checked never meets a zero divisor, and is the call itself. -/
theorem dump_never_divides_by_zero (b : Bucket) (dump_period previous_dump_time : Option ℚ)
    (dump_period_timesteps : Option Int) :
    dump_with_checked_modulo b dump_period previous_dump_time dump_period_timesteps =
        some (dump_ b dump_period previous_dump_time dump_period_timesteps) ∧
      dump_with_checked_modulo b dump_period previous_dump_time dump_period_timesteps ≠ none ∧
      (∀ K : Int, int_modulo K b.timestep_count = none ↔ b.timestep_count = 0) := by
  have h : dump_with_checked_modulo b dump_period previous_dump_time dump_period_timesteps =
      some (dump_ b dump_period previous_dump_time dump_period_timesteps) := by
    unfold dump_with_checked_modulo dump_
    cases dump_period with
    | some period =>
      simp only []
      split
      · rfl
      · cases previous_dump_time with
        | none => rfl
        | some previous =>
          simp only []
          split <;> rfl
    | none =>
      cases dump_period_timesteps with
      | none => rfl
      | some K =>
        simp only []
        by_cases hn : b.timestep_count = 0
        · simp only [hn, if_true]
        · simp only [hn, if_false, int_modulo]
  refine ⟨h, ?_, ?_⟩
  · rw [h]
    exact Option.some_ne_none _
  · intro K
    unfold int_modulo
    by_cases hn : b.timestep_count = 0 <;> simp [hn]

/-! ## Termination of the run -/

theorem timeloop_terminates {W : Type} (env : Collaborators W) (r : Nat) (fuel : Nat)
    (m : Machine W) (hready : m.bucket.output_ready)
    (hfin : m.bucket.finish_time_ ≤ m.bucket.current_time_ + (r + 1) * m.bucket.timestep_value)
    (hfuel : r + 1 ≤ fuel) :
    ∃ m' j, j ≤ r ∧ timeloop env fuel m = .returned () m' ∧
      m.reaches m'
        (timeloop_steps m.bucket.nonlinear_iterations m.bucket.timestep m.bucket.current_time_
          m.bucket.timestep_count_ (List.replicate j false ++ [true])) ∧
      m'.bucket.timestep_count_ = m.bucket.timestep_count_ + (j + 1) ∧
      ((∀ k : Nat, k < r →
          m.bucket.current_time_ + (k + 1) * m.bucket.timestep_value < m.bucket.finish_time_) →
        (∀ m'' : Machine W, m''.bucket.steadystate_tol_ = m.bucket.steadystate_tol_ →
          m''.bucket.systems_ = m.bucket.systems_ → steadystate_ env m'' = false) →
        (∀ w, env.sigint_received w = false) → j = r) := by
  induction r generalizing m fuel with
  | zero =>
    obtain ⟨fuel, rfl⟩ : ∃ f, fuel = f + 1 := ⟨fuel - 1, by omega⟩
    rw [timeloop_succ]
    cases hout : output env (before_output env m) with
    | unfinished m4 => exact absurd hout (output_never_unfinished env _ _)
    | aborted e m4 => exact absurd hready (timestep_aborted env m e m4 hout).2
    | returned a m4 =>
      obtain ⟨⟨vis, stat, steady, det, hb4⟩, hb5, hr5, _⟩ := timestep_returned env m a m4 hout
      have ht4 : m4.bucket.current_time_ = m.bucket.current_time_ + m.bucket.timestep_value := by
        rw [hb4]; rfl
      have hf4 : m4.bucket.finish_time_ = m.bucket.finish_time_ := by rw [hb4]; rfl
      have hc : (complete env m4).1 = true := by
        rw [complete_result, ht4, hf4]
        have : m.bucket.finish_time_ ≤ m.bucket.current_time_ + m.bucket.timestep_value := by
          simpa using hfin
        simp [this]
      simp only [hc, Bool.not_true, Bool.false_eq_true, if_false]
      rw [hc] at hr5
      refine ⟨_, 0, le_refl _, rfl, by simpa using hr5, ?_, fun _ _ _ => rfl⟩
      rw [hb5, hb4]; simp [Bucket.advanced]
  | succ r ih =>
    obtain ⟨fuel, rfl⟩ : ∃ f, fuel = f + 1 := ⟨fuel - 1, by omega⟩
    rw [timeloop_succ]
    cases hout : output env (before_output env m) with
    | unfinished m4 => exact absurd hout (output_never_unfinished env _ _)
    | aborted e m4 => exact absurd hready (timestep_aborted env m e m4 hout).2
    | returned a m4 =>
      obtain ⟨⟨vis, stat, steady, det, hb4⟩, hb5, hr5, hready4⟩ :=
        timestep_returned env m a m4 hout
      have ht4 : m4.bucket.current_time_ = m.bucket.current_time_ + m.bucket.timestep_value := by
        rw [hb4]; rfl
      have hf4 : m4.bucket.finish_time_ = m.bucket.finish_time_ := by rw [hb4]; rfl
      have htol4 : m4.bucket.steadystate_tol_ = m.bucket.steadystate_tol_ := by rw [hb4]; rfl
      have hsys4 : m4.bucket.systems_ = m.bucket.systems_ := by rw [hb4]; rfl
      have hv4 : m4.bucket.timestep_value = m.bucket.timestep_value := by rw [hb4]; rfl
      cases hc : (complete env m4).1 with
      | true =>
        simp only [hc, Bool.not_true, Bool.false_eq_true, if_false]
        rw [hc] at hr5
        refine ⟨_, 0, Nat.zero_le _, rfl, by simpa using hr5, ?_, ?_⟩
        · rw [hb5, hb4]; simp [Bucket.advanced]
        · intro hbefore hsteady hsig
          exfalso
          rw [complete_result, ht4, hf4, hsteady m4 htol4 hsys4, hsig] at hc
          have := hbefore 0 (Nat.succ_pos r)
          simp only [Nat.cast_zero, zero_add, one_mul] at this
          simp [not_le.2 this] at hc
      | false =>
        simp only [hc, Bool.not_false, if_true]
        rw [hc] at hr5
        have hni : (update env (complete env m4).2).bucket.nonlinear_iterations =
            m.bucket.nonlinear_iterations := by rw [hb5, hb4]; rfl
        have hdt5 : (update env (complete env m4).2).bucket.timestep = m.bucket.timestep := by
          rw [hb5, hb4]; rfl
        have ht5 : (update env (complete env m4).2).bucket.current_time_ =
            m.bucket.current_time_ + m.bucket.timestep_value := by rw [hb5, ht4]
        have hn5 : (update env (complete env m4).2).bucket.timestep_count_ =
            m.bucket.timestep_count_ + 1 := by rw [hb5, hb4]; rfl
        have hf5 : (update env (complete env m4).2).bucket.finish_time_ =
            m.bucket.finish_time_ := by rw [hb5, hf4]
        have hv5 : (update env (complete env m4).2).bucket.timestep_value =
            m.bucket.timestep_value := by rw [hb5, hv4]
        have htol5 : (update env (complete env m4).2).bucket.steadystate_tol_ =
            m.bucket.steadystate_tol_ := by rw [hb5, htol4]
        have hsys5 : (update env (complete env m4).2).bucket.systems_ =
            m.bucket.systems_ := by rw [hb5, hsys4]
        obtain ⟨m', j, hj, hloop, hr, hn', hexact⟩ := ih fuel (update env (complete env m4).2)
          (by rw [hb5]; exact hready4 hready)
          (by
            rw [hf5, ht5, hv5]
            have := hfin
            push_cast at this ⊢
            linarith)
          (by omega)
        rw [hni, hdt5, ht5, hn5] at hr
        refine ⟨m', j + 1, Nat.succ_le_succ hj, hloop, ?_, ?_, ?_⟩
        · have := Machine.reaches_trans hr5 hr
          simpa [timeloop_steps, List.replicate_succ, Bucket.timestep] using this
        · rw [hn', hn5]; push_cast; ring
        · intro hbefore hsteady hsig
          have : j = r := by
            apply hexact
            · intro k hk
              rw [ht5, hv5, hf5]
              have := hbefore (k + 1) (Nat.succ_lt_succ hk)
              push_cast at this ⊢
              linarith
            · intro m'' h1 h2
              exact hsteady m'' (by rw [h1, htol5]) (by rw [h2, hsys5])
            · exact hsig
          rw [this]

theorem timeloop_not_unfinished {W : Type} (env : Collaborators W) (r : Nat) (fuel : Nat)
    (m : Machine W)
    (hfin : m.bucket.finish_time_ ≤ m.bucket.current_time_ + (r + 1) * m.bucket.timestep_value)
    (hfuel : r + 1 ≤ fuel) (m' : Machine W) :
    timeloop env fuel m ≠ .unfinished m' := by
  induction r generalizing m fuel with
  | zero =>
    obtain ⟨fuel, rfl⟩ : ∃ f, fuel = f + 1 := ⟨fuel - 1, by omega⟩
    rw [timeloop_succ]
    cases hout : output env (before_output env m) with
    | unfinished m4 => exact absurd hout (output_never_unfinished env _ _)
    | aborted e m4 => simp
    | returned a m4 =>
      obtain ⟨⟨vis, stat, steady, det, hb4⟩, _, _, _⟩ := timestep_returned env m a m4 hout
      have ht4 : m4.bucket.current_time_ = m.bucket.current_time_ + m.bucket.timestep_value := by
        rw [hb4]; rfl
      have hf4 : m4.bucket.finish_time_ = m.bucket.finish_time_ := by rw [hb4]; rfl
      have hc : (complete env m4).1 = true := by
        rw [complete_result, ht4, hf4]
        have : m.bucket.finish_time_ ≤ m.bucket.current_time_ + m.bucket.timestep_value := by
          simpa using hfin
        simp [this]
      simp [hc]
  | succ r ih =>
    obtain ⟨fuel, rfl⟩ : ∃ f, fuel = f + 1 := ⟨fuel - 1, by omega⟩
    rw [timeloop_succ]
    cases hout : output env (before_output env m) with
    | unfinished m4 => exact absurd hout (output_never_unfinished env _ _)
    | aborted e m4 => simp
    | returned a m4 =>
      obtain ⟨⟨vis, stat, steady, det, hb4⟩, hb5, _, _⟩ := timestep_returned env m a m4 hout
      cases hc : (complete env m4).1 with
      | true => simp [hc]
      | false =>
        simp only [hc, Bool.not_false, if_true]
        apply ih
        · rw [hb5, hb4]
          have := hfin
          simp only [Bucket.advanced, Bucket.timestep]
          push_cast at this ⊢
          linarith
        · omega

theorem max_timesteps_spec (t0 finish_time dt : ℚ) (hdt : 0 < dt) :
    1 ≤ max_timesteps t0 finish_time dt ∧
      finish_time ≤ t0 + ((max_timesteps t0 finish_time dt - 1 : Nat) + 1) * dt ∧
      ∀ k : Nat, k < max_timesteps t0 finish_time dt - 1 → t0 + (k + 1) * dt < finish_time := by
  have h1 : 1 ≤ max_timesteps t0 finish_time dt := le_max_left _ _
  refine ⟨h1, ?_, ?_⟩
  · have hcast : (((max_timesteps t0 finish_time dt - 1 : Nat) : ℚ) + 1) =
        (max_timesteps t0 finish_time dt : ℚ) := by
      have : max_timesteps t0 finish_time dt - 1 + 1 = max_timesteps t0 finish_time dt := by
        omega
      exact_mod_cast this
    rw [hcast]
    have h2 : (finish_time - t0) / dt ≤ (max_timesteps t0 finish_time dt : ℚ) := by
      have h3 : (finish_time - t0) / dt ≤ (⌈(finish_time - t0) / dt⌉₊ : ℚ) := Nat.le_ceil _
      have h4 : (⌈(finish_time - t0) / dt⌉₊ : ℚ) ≤ (max_timesteps t0 finish_time dt : ℚ) := by
        exact_mod_cast le_max_right 1 ⌈(finish_time - t0) / dt⌉₊
      exact le_trans h3 h4
    rw [div_le_iff₀ hdt] at h2
    linarith
  · intro k hk
    have hk1 : k + 1 < ⌈(finish_time - t0) / dt⌉₊ := by
      have : k + 1 < max 1 ⌈(finish_time - t0) / dt⌉₊ := by
        unfold max_timesteps at hk
        omega
      rcases lt_max_iff.1 this with h | h
      · omega
      · exact h
    have h2 : ((k + 1 : Nat) : ℚ) < (finish_time - t0) / dt := Nat.lt_ceil.1 hk1
    rw [lt_div_iff₀ hdt] at h2
    push_cast at h2
    linarith

theorem timeloop_not_aborted {W : Type} (env : Collaborators W) (fuel : Nat) (m : Machine W)
    (hready : m.bucket.output_ready) (e : Error) (m' : Machine W) :
    timeloop env fuel m ≠ .aborted e m' := by
  induction fuel generalizing m with
  | zero => simp [timeloop]
  | succ fuel ih =>
    rw [timeloop_succ]
    cases hout : output env (before_output env m) with
    | unfinished m4 => exact absurd hout (output_never_unfinished env _ _)
    | aborted e4 m4 => exact absurd hready (timestep_aborted env m e4 m4 hout).2
    | returned a m4 =>
      obtain ⟨_, hb5, _, hready4⟩ := timestep_returned env m a m4 hout
      cases hc : (complete env m4).1 with
      | true => simp [hc]
      | false =>
        simp only [hc, Bool.not_false, if_true]
        exact ih _ (by rw [hb5]; exact hready4 hready)

theorem run_output_returned {W : Type} (env : Collaborators W) (m : Machine W) (a : Unit)
    (m0 : Machine W) (h : output env m = .returned a m0) :
    m0.bucket.systems_ = m.bucket.systems_ := by
  have ho := output_spec env m
  rw [h] at ho
  obtain ⟨⟨vis, stat, steady, det, hb⟩, _, _⟩ := ho
  rw [hb]
  rfl

theorem run_terminates {W : Type} (env : Collaborators W) (r : Nat) (fuel : Nat)
    (m : Machine W) (hready : m.bucket.output_ready)
    (hfin : m.bucket.finish_time_ ≤ m.bucket.current_time_ + (r + 1) * m.bucket.timestep_value)
    (hfuel : r + 1 ≤ fuel) :
    ∃ m' j, j ≤ r ∧ run env fuel m = .returned () m' ∧
      m.reaches m' (Event.output ::
        timeloop_steps m.bucket.nonlinear_iterations m.bucket.timestep m.bucket.current_time_
          m.bucket.timestep_count_ (List.replicate j false ++ [true])) ∧
      m'.bucket.timestep_count_ = m.bucket.timestep_count_ + (j + 1) ∧
      ((∀ k : Nat, k < r →
          m.bucket.current_time_ + (k + 1) * m.bucket.timestep_value < m.bucket.finish_time_) →
        (∀ m'' : Machine W, m''.bucket.steadystate_tol_ = m.bucket.steadystate_tol_ →
          m''.bucket.systems_ = m.bucket.systems_ → steadystate_ env m'' = false) →
        (∀ w, env.sigint_received w = false) → j = r) := by
  unfold run
  cases hout : output env m with
  | unfinished m0 => exact absurd hout (output_never_unfinished env _ _)
  | aborted e m0 =>
    have ho := output_spec env m
    rw [hout] at ho
    exact absurd hready ho.2
  | returned a m0 =>
    obtain ⟨hr0, hni0, hdt0, ht0, hn0, hf0, htol0, hv0, hready0⟩ := run_returned env m a m0 hout
    have hsys0 := run_output_returned env m a m0 hout
    obtain ⟨m', j, hj, hloop, hr, hn', hexact⟩ := timeloop_terminates env r fuel m0
      (hready0 hready) (by rw [hf0, ht0, hv0]; exact hfin) hfuel
    rw [hni0, hdt0, ht0, hn0] at hr
    refine ⟨m', j, hj, hloop, ?_, ?_, ?_⟩
    · simpa using Machine.reaches_trans hr0 hr
    · rw [hn', hn0]
    · intro hbefore hsteady hsig
      apply hexact
      · intro k hk
        rw [ht0, hv0, hf0]
        exact hbefore k hk
      · intro m'' h1 h2
        exact hsteady m'' (by rw [h1, htol0]) (by rw [h2, hsys0])
      · exact hsig

/-- C33: `run` executes at least one full timestep.  A run that returns has made its
initial `output()` and then one round of `solve()` passes, one advance of the time, one
increment of the timestep count, one more `output()`, one `complete()` and one `update()`;
a run on a bucket whose `output()` cannot fail, given room for a timestep, is not aborted
and has made these steps when it returns or is still running; and when the current time
is at or past the finish time on entry (with a timestep that is not negative) it returns
after exactly this one timestep. -/
theorem run_executes_at_least_one_timestep {W : Type} (env : Collaborators W) (fuel : Nat)
    (m : Machine W) :
    (∀ m', run env fuel m = .returned () m' →
      ∃ c rest, m.reaches m' (Event.output ::
        (List.replicate m.bucket.nonlinear_iterations.toNat Event.solve ++
          [Event.current_time (m.bucket.current_time_ + m.bucket.timestep),
            Event.timestep_count (m.bucket.timestep_count_ + 1), Event.output,
            Event.complete c, Event.update] ++
          timeloop_steps m.bucket.nonlinear_iterations m.bucket.timestep
            (m.bucket.current_time_ + m.bucket.timestep) (m.bucket.timestep_count_ + 1)
            rest))) ∧
    (m.bucket.output_ready → 1 ≤ fuel →
      ∃ m' c rest, (run env fuel m = .returned () m' ∨ run env fuel m = .unfinished m') ∧
        m.reaches m' (Event.output ::
          (List.replicate m.bucket.nonlinear_iterations.toNat Event.solve ++
            [Event.current_time (m.bucket.current_time_ + m.bucket.timestep),
              Event.timestep_count (m.bucket.timestep_count_ + 1), Event.output,
              Event.complete c, Event.update] ++
            timeloop_steps m.bucket.nonlinear_iterations m.bucket.timestep
              (m.bucket.current_time_ + m.bucket.timestep) (m.bucket.timestep_count_ + 1)
              rest))) ∧
    (m.bucket.output_ready → 1 ≤ fuel → m.bucket.finish_time_ ≤ m.bucket.current_time_ →
      0 ≤ m.bucket.timestep_value →
      ∃ m', run env fuel m = .returned () m' ∧
        m.reaches m' (Event.output ::
          (List.replicate m.bucket.nonlinear_iterations.toNat Event.solve ++
            [Event.current_time (m.bucket.current_time_ + m.bucket.timestep),
              Event.timestep_count (m.bucket.timestep_count_ + 1), Event.output,
              Event.complete true, Event.update])) ∧
        m'.bucket.timestep_count_ = m.bucket.timestep_count_ + 1) := by
  have hshape : ∀ (m0 m' : Machine W) (results : List Bool), results ≠ [] →
      m.reaches m0 [Event.output] →
      m0.reaches m' (timeloop_steps m.bucket.nonlinear_iterations m.bucket.timestep
        m.bucket.current_time_ m.bucket.timestep_count_ results) →
      ∃ c rest, m.reaches m' (Event.output ::
        (List.replicate m.bucket.nonlinear_iterations.toNat Event.solve ++
          [Event.current_time (m.bucket.current_time_ + m.bucket.timestep),
            Event.timestep_count (m.bucket.timestep_count_ + 1), Event.output,
            Event.complete c, Event.update] ++
          timeloop_steps m.bucket.nonlinear_iterations m.bucket.timestep
            (m.bucket.current_time_ + m.bucket.timestep) (m.bucket.timestep_count_ + 1)
            rest)) := by
    intro m0 m' results hne hr0 hr
    cases results with
    | nil => exact absurd rfl hne
    | cons c rest =>
      refine ⟨c, rest, ?_⟩
      simpa [timeloop_steps] using Machine.reaches_trans hr0 hr
  refine ⟨?_, ?_, ?_⟩
  · intro m' hrun
    unfold run at hrun
    cases hout : output env m with
    | unfinished m0 => exact absurd hout (output_never_unfinished env _ _)
    | aborted e m0 =>
      rw [hout] at hrun
      cases hrun
    | returned a m0 =>
      rw [hout] at hrun
      simp only [] at hrun
      obtain ⟨hr0, hni, hdt, ht, hn, _⟩ := run_returned env m a m0 hout
      have hloop := timeloop_spec env fuel m0
      rw [hrun] at hloop
      simp only [timeloop_post, hni, hdt, ht, hn] at hloop
      obtain ⟨j, _, hr⟩ := hloop
      exact hshape m0 m' (List.replicate j false ++ [true]) (by simp) hr0 hr
  · intro hready hfuel
    obtain ⟨fuel, rfl⟩ : ∃ f, fuel = f + 1 := ⟨fuel - 1, by omega⟩
    unfold run
    cases hout : output env m with
    | unfinished m0 => exact absurd hout (output_never_unfinished env _ _)
    | aborted e m0 =>
      have ho := output_spec env m
      rw [hout] at ho
      exact absurd hready ho.2
    | returned a m0 =>
      simp only []
      obtain ⟨hr0, hni, hdt, ht, hn, _, _, _, hready0⟩ := run_returned env m a m0 hout
      have hloop := timeloop_spec env (fuel + 1) m0
      cases hl : timeloop env (fuel + 1) m0 with
      | returned a' m' =>
        rw [hl] at hloop
        simp only [timeloop_post, hni, hdt, ht, hn] at hloop
        obtain ⟨j, _, hr⟩ := hloop
        obtain ⟨c, rest, h⟩ := hshape m0 m' (List.replicate j false ++ [true]) (by simp) hr0 hr
        exact ⟨m', c, rest, Or.inl rfl, h⟩
      | unfinished m' =>
        rw [hl] at hloop
        simp only [timeloop_post, hni, hdt, ht, hn] at hloop
        obtain ⟨c, rest, h⟩ := hshape m0 m' (List.replicate (fuel + 1) false)
          (by simp [List.replicate_succ]) hr0 hloop
        exact ⟨m', c, rest, Or.inr rfl, h⟩
      | aborted e m' => exact absurd hl (timeloop_not_aborted env _ m0 (hready0 hready) e m')
  · intro hready hfuel hfin hdt
    obtain ⟨m', j, hj, hrun, hr, hn, _⟩ := run_terminates env 0 fuel m hready
      (by simp only [Nat.cast_zero, zero_add, one_mul]; linarith) (by omega)
    have hj0 : j = 0 := by omega
    subst hj0
    refine ⟨m', hrun, ?_, by simpa using hn⟩
    simpa [timeloop_steps] using hr

/-- Witness for C33: the sample bucket entered at time 5, past its finish time 3, still
makes one full timestep: output, one solve, time 6, count 1, output, complete, update. -/
theorem run_executes_at_least_one_timestep_witness :
    ∃ m', run idle 1 ⟨{ sample_bucket with current_time_ := 5 }, (), []⟩ = .returned () m' ∧
      (⟨{ sample_bucket with current_time_ := 5 }, (), []⟩ : Machine Unit).reaches m'
        [Event.output, Event.solve, Event.current_time 6, Event.timestep_count 1,
          Event.output, Event.complete true, Event.update] ∧
      m'.bucket.timestep_count_ = 1 := by
  obtain ⟨m', hrun, hr, hn⟩ := (run_executes_at_least_one_timestep idle 1
    ⟨{ sample_bucket with current_time_ := 5 }, (), []⟩).2.2
    (by simp [Bucket.output_ready, sample_bucket]) (le_refl 1)
    (by simp [sample_bucket]; norm_num) (by simp [sample_bucket])
  refine ⟨m', hrun, ?_, ?_⟩
  · have e1 : ({ sample_bucket with current_time_ := 5 } : Bucket).current_time_ +
        ({ sample_bucket with current_time_ := 5 } : Bucket).timestep = 6 := by
      simp [sample_bucket, Bucket.timestep]; norm_num
    have e2 : ({ sample_bucket with current_time_ := 5 } : Bucket).timestep_count_ + 1 = 1 := by
      simp [sample_bucket]
    have e3 : ({ sample_bucket with current_time_ := 5 } : Bucket).nonlinear_iterations.toNat
        = 1 := by
      simp [sample_bucket, Bucket.nonlinear_iterations]
    rw [e1, e2, e3] at hr
    simpa using hr
  · simpa [sample_bucket] using hn

/-! ## Bucket::attach_coeffs -/

theorem mem_requested_coefficients (forms : List (String × Form)) (r : String × String) :
    r ∈ requested_coefficients forms ↔
      ∃ form ∈ forms, ∃ i, i < form.2.num_coefficients ∧
        r = (form.1, form.2.coefficient_name i) := by
  simp only [requested_coefficients, List.mem_flatMap, List.mem_map, List.mem_range]
  constructor
  · rintro ⟨form, hform, i, hi, rfl⟩
    exact ⟨form, hform, i, hi, rfl⟩
  · rintro ⟨form, hform, i, hi, rfl⟩
    exact ⟨form, hform, i, hi, rfl⟩

theorem attach_coeffs_form_cases (form : String × Form) (indices : List Nat) (b : Bucket)
    (calls : List SetCoefficient) :
    ((∀ i ∈ indices, StdMap.find b.uflsymbols_ (form.2.coefficient_name i) ≠ none) ∧
      attach_coeffs_form form indices (b, calls) =
        .returned () (b, calls ++ indices.map fun i =>
          ⟨form.1, form.2.coefficient_name i,
            b.fetched_uflsymbol (form.2.coefficient_name i)⟩)) ∨
    (∃ i ∈ indices, StdMap.find b.uflsymbols_ (form.2.coefficient_name i) = none ∧
      ∃ calls', attach_coeffs_form form indices (b, calls) =
        .aborted (.does_not_exist (form.2.coefficient_name i)) (b, calls')) := by
  induction indices generalizing calls with
  | nil =>
    left
    exact ⟨fun i hi => (by cases hi), by simp [attach_coeffs_form]⟩
  | cons i rest ih =>
    cases hfind : StdMap.find b.uflsymbols_ (form.2.coefficient_name i) with
    | none =>
      right
      refine ⟨i, List.mem_cons_self _ _, hfind, calls, ?_⟩
      simp [attach_coeffs_form, Bucket.fetch_uflsymbol, hfind]
    | some function =>
      have hstep : attach_coeffs_form form (i :: rest) (b, calls) =
          attach_coeffs_form form rest
            (b, calls ++ [⟨form.1, form.2.coefficient_name i, function⟩]) := by
        simp [attach_coeffs_form, Bucket.fetch_uflsymbol, hfind]
      have hfetched : b.fetched_uflsymbol (form.2.coefficient_name i) = function := by
        simp [Bucket.fetched_uflsymbol, Bucket.fetch_uflsymbol, hfind]
      rcases ih (calls ++ [⟨form.1, form.2.coefficient_name i, function⟩]) with
        ⟨hall, hret⟩ | ⟨j, hj, hnone, calls', hab⟩
      · left
        refine ⟨?_, ?_⟩
        · intro j hj
          rcases List.mem_cons.1 hj with rfl | hj
          · rw [hfind]
            exact Option.some_ne_none _
          · exact hall j hj
        · rw [hstep, hret, List.map_cons, hfetched]
          simp
      · right
        exact ⟨j, List.mem_cons_of_mem _ hj, hnone, calls', by rw [hstep, hab]⟩

theorem attach_coeffs_cases (forms : List (String × Form)) (b : Bucket)
    (calls : List SetCoefficient) :
    ((∀ r ∈ requested_coefficients forms, StdMap.find b.uflsymbols_ r.2 ≠ none) ∧
      attach_coeffs forms (b, calls) =
        .returned () (b, calls ++ (requested_coefficients forms).map fun r =>
          ⟨r.1, r.2, b.fetched_uflsymbol r.2⟩)) ∨
    (∃ r ∈ requested_coefficients forms, StdMap.find b.uflsymbols_ r.2 = none ∧
      ∃ calls', attach_coeffs forms (b, calls) = .aborted (.does_not_exist r.2) (b, calls')) := by
  induction forms generalizing calls with
  | nil =>
    left
    exact ⟨fun r hr => (by cases hr), by simp [attach_coeffs, requested_coefficients]⟩
  | cons form rest ih =>
    have hreq : requested_coefficients (form :: rest) =
        ((List.range form.2.num_coefficients).map fun i =>
          (form.1, form.2.coefficient_name i)) ++ requested_coefficients rest := by
      simp [requested_coefficients]
    rcases attach_coeffs_form_cases form (List.range form.2.num_coefficients) b calls with
      ⟨hall, hret⟩ | ⟨i, hi, hnone, calls', hab⟩
    · have hstep : attach_coeffs (form :: rest) (b, calls) =
          attach_coeffs rest (b, calls ++ (List.range form.2.num_coefficients).map fun i =>
            ⟨form.1, form.2.coefficient_name i,
              b.fetched_uflsymbol (form.2.coefficient_name i)⟩) := by
        rw [attach_coeffs, hret]
      rcases ih (calls ++ (List.range form.2.num_coefficients).map fun i =>
          ⟨form.1, form.2.coefficient_name i,
            b.fetched_uflsymbol (form.2.coefficient_name i)⟩) with
        ⟨hall', hret'⟩ | ⟨r, hr, hnone, calls', hab⟩
      · left
        refine ⟨?_, ?_⟩
        · intro r hr
          rw [hreq] at hr
          rcases List.mem_append.1 hr with hr | hr
          · obtain ⟨i, hi, rfl⟩ := List.mem_map.1 hr
            exact hall i hi
          · exact hall' r hr
        · rw [hstep, hret', hreq]
          simp [List.map_append, List.map_map, Function.comp_def]
      · right
        refine ⟨r, ?_, hnone, calls', by rw [hstep, hab]⟩
        rw [hreq]
        exact List.mem_append_right _ hr
    · right
      refine ⟨(form.1, form.2.coefficient_name i), ?_, hnone, calls', ?_⟩
      · rw [hreq]
        exact List.mem_append_left _ (List.mem_map.2 ⟨i, hi, rfl⟩)
      · rw [attach_coeffs, hab]

/-- C37: `attach_coeffs` over a range of forms fails if and only if some form of the range
requests, through `coefficient_name(i)` with `i < num_coefficients()`, a symbol that is not
in the symbol registry, and then with the error that this symbol does not exist; otherwise
it returns after one call `set_coefficient(name, fetch_uflsymbol(name))` for every form of
the range and every coefficient index, in form order then index order; however it ends,
it leaves the bucket, and so the symbol registry, as it was. -/
theorem attach_coeffs_fails_iff_symbol_missing (b : Bucket) (forms : List (String × Form))
    (calls : List SetCoefficient) :
    ((∃ e s, attach_coeffs forms (b, calls) = .aborted e s) ↔
      ∃ form ∈ forms, ∃ i, i < form.2.num_coefficients ∧
        StdMap.find b.uflsymbols_ (form.2.coefficient_name i) = none) ∧
    (∀ e s, attach_coeffs forms (b, calls) = .aborted e s →
      ∃ form ∈ forms, ∃ i, i < form.2.num_coefficients ∧
        e = .does_not_exist (form.2.coefficient_name i) ∧
        StdMap.find b.uflsymbols_ (form.2.coefficient_name i) = none) ∧
    ((∀ form ∈ forms, ∀ i, i < form.2.num_coefficients →
        StdMap.find b.uflsymbols_ (form.2.coefficient_name i) ≠ none) →
      attach_coeffs forms (b, calls) =
        .returned () (b, calls ++ forms.flatMap fun form =>
          (List.range form.2.num_coefficients).map fun i =>
            ⟨form.1, form.2.coefficient_name i,
              b.fetched_uflsymbol (form.2.coefficient_name i)⟩)) ∧
    (attach_coeffs forms (b, calls)).state.1 = b ∧
    (∀ s, attach_coeffs forms (b, calls) ≠ .unfinished s) := by
  have hmap : (requested_coefficients forms).map (fun r =>
      (⟨r.1, r.2, b.fetched_uflsymbol r.2⟩ : SetCoefficient)) =
      forms.flatMap fun form => (List.range form.2.num_coefficients).map fun i =>
        ⟨form.1, form.2.coefficient_name i,
          b.fetched_uflsymbol (form.2.coefficient_name i)⟩ := by
    simp [requested_coefficients, List.map_flatMap, List.map_map, Function.comp_def]
  rcases attach_coeffs_cases forms b calls with ⟨hall, hret⟩ | ⟨r, hr, hnone, calls', hab⟩
  · have hall' : ∀ form ∈ forms, ∀ i, i < form.2.num_coefficients →
        StdMap.find b.uflsymbols_ (form.2.coefficient_name i) ≠ none := fun form hform i hi =>
      hall (form.1, form.2.coefficient_name i)
        ((mem_requested_coefficients forms _).2 ⟨form, hform, i, hi, rfl⟩)
    refine ⟨⟨?_, ?_⟩, ?_, ?_, ?_, ?_⟩
    · rintro ⟨e, s, h⟩
      rw [hret] at h
      cases h
    · rintro ⟨form, hform, i, hi, hnone⟩
      exact absurd hnone (hall' form hform i hi)
    · intro e s h
      rw [hret] at h
      cases h
    · intro _
      rw [hret, hmap]
    · rw [hret]
      rfl
    · intro s h
      rw [hret] at h
      cases h
  · obtain ⟨form, hform, i, hi, rfl⟩ := (mem_requested_coefficients forms r).1 hr
    refine ⟨⟨fun _ => ⟨form, hform, i, hi, hnone⟩, fun _ => ⟨_, _, hab⟩⟩, ?_, ?_, ?_, ?_⟩
    · intro e s h
      rw [hab] at h
      injection h with he _
      exact ⟨form, hform, i, hi, he.symm, hnone⟩
    · intro hall
      exact absurd hnone (hall form hform i hi)
    · rw [hab]
      rfl
    · intro s h
      rw [hab] at h
      cases h

/-- Witness for C37: with `us_i` and `nu` registered as the functions 3 and 10, attaching
the coefficients of the sample form calls `set_coefficient` for `us_i` and then for `nu`;
on the sample bucket, whose symbol registry is empty, it fails. -/
theorem attach_coeffs_fails_iff_symbol_missing_witness :
    attach_coeffs [("F", sample_form)] (sample_bucket_with_symbols, []) =
        .returned () (sample_bucket_with_symbols,
          [⟨"F", "us_i", some 3⟩, ⟨"F", "nu", some 10⟩]) ∧
      ∃ e s, attach_coeffs [("F", sample_form)] (sample_bucket, []) = .aborted e s := by
  refine ⟨?_, ?_⟩
  · have h := (attach_coeffs_fails_iff_symbol_missing sample_bucket_with_symbols
      [("F", sample_form)] []).2.2.1 (by
        intro form hform i hi
        rw [List.mem_singleton] at hform
        subst hform
        have hi2 : i < 2 := hi
        interval_cases i <;>
          simp [sample_form, sample_bucket_with_symbols, StdMap.find])
    rw [h]
    simp [sample_form, sample_bucket_with_symbols, Bucket.fetched_uflsymbol,
      Bucket.fetch_uflsymbol, StdMap.find, List.range, List.range.loop]
  · exact (attach_coeffs_fails_iff_symbol_missing sample_bucket [("F", sample_form)] []).1.2
      ⟨("F", sample_form), List.mem_singleton.2 rfl, 0, by decide, rfl⟩

/-! ## The end of the timeloop -/

theorem complete_true_not_mem_timeloop_steps (ni : Int) (dt : ℚ) (j : Nat) (t : ℚ) (n : Int) :
    Event.complete true ∉ timeloop_steps ni dt t n (List.replicate j false) := by
  induction j generalizing t n with
  | zero => simp [timeloop_steps]
  | succ j ih =>
    simp [timeloop_steps, List.replicate_succ, List.mem_replicate, ih]

theorem run_steps_cases {W : Type} (env : Collaborators W) (fuel : Nat) (m : Machine W) :
    ∃ tr, (run env fuel m).state.trace = m.trace ++ tr ∧
      ((∃ m' j, run env fuel m = .returned () m' ∧ j < fuel ∧
          run_steps tr = Event.output ::
            timeloop_steps m.bucket.nonlinear_iterations m.bucket.timestep
              m.bucket.current_time_ m.bucket.timestep_count_
              (List.replicate j false ++ [true])) ∨
        (Event.complete true ∉ run_steps tr ∧ ∀ m', run env fuel m ≠ .returned () m')) := by
  unfold run
  cases hout : output env m with
  | unfinished m0 => exact absurd hout (output_never_unfinished env _ _)
  | aborted e m0 =>
    have ho := output_spec env m
    rw [hout] at ho
    obtain ⟨tr, htr, hsteps⟩ := ho.1
    refine ⟨tr, htr, Or.inr ⟨?_, fun m' h => by cases h⟩⟩
    rw [hsteps]
    simp
  | returned a0 m0 =>
    simp only []
    obtain ⟨hr0, hni, hdt, ht, hn, _⟩ := run_returned env m a0 m0 hout
    have hloop := timeloop_spec env fuel m0
    cases hl : timeloop env fuel m0 with
    | returned a' m' =>
      rw [hl] at hloop
      simp only [timeloop_post, hni, hdt, ht, hn] at hloop
      obtain ⟨j, hj, hr⟩ := hloop
      obtain ⟨tr, htr, hsteps⟩ := Machine.reaches_trans hr0 hr
      exact ⟨tr, htr, Or.inl ⟨m', j, rfl, hj, by simpa using hsteps⟩⟩
    | unfinished m' =>
      rw [hl] at hloop
      simp only [timeloop_post, hni, hdt, ht, hn] at hloop
      obtain ⟨tr, htr, hsteps⟩ := Machine.reaches_trans hr0 hloop
      refine ⟨tr, htr, Or.inr ⟨?_, fun m'' h => by cases h⟩⟩
      rw [hsteps]
      simp [complete_true_not_mem_timeloop_steps]
    | aborted e m' =>
      rw [hl] at hloop
      simp only [timeloop_post, hni, hdt, ht, hn] at hloop
      obtain ⟨j, _, hr⟩ := hloop
      obtain ⟨tr, htr, hsteps⟩ := Machine.reaches_trans hr0 hr
      refine ⟨tr, htr, Or.inr ⟨?_, fun m'' h => by cases h⟩⟩
      rw [hsteps]
      simp [complete_true_not_mem_timeloop_steps, List.mem_replicate]

/-- C3: in a timestep `complete()` is called before `update()`, and when it returns true
the timeloop makes that one `update()` and returns, whatever budget of timesteps is left.
So for every run, returned or not: as soon as its steps contain a `complete()` that
returned true, the run has returned, that `complete()` is its last but one step and the
one `update()` after it its last, and `complete()` returned false in every earlier
timestep; with any larger budget the run returns in the same state with the same trace.
A run that is aborted or still running has no `complete()` that returned true. -/
theorem run_updates_once_after_complete_and_stops {W : Type} (env : Collaborators W)
    (fuel : Nat) (m : Machine W) :
    (∀ (a : Unit) (m4 : Machine W), output env (before_output env m) = .returned a m4 →
      (complete env m4).1 = true →
      timeloop env (fuel + 1) m = .returned () (update env (complete env m4).2) ∧
        (update env (complete env m4).2).trace =
          m4.trace ++ [Event.complete true, Event.update] ++
            (m4.bucket.orderedsystems_.map Prod.snd).map Event.system_update) ∧
    (∀ tr, (run env fuel m).state.trace = m.trace ++ tr →
      Event.complete true ∈ run_steps tr →
      ∃ m' j front, run env fuel m = .returned () m' ∧ j < fuel ∧
        run_steps tr = Event.output ::
          timeloop_steps m.bucket.nonlinear_iterations m.bucket.timestep
            m.bucket.current_time_ m.bucket.timestep_count_
            (List.replicate j false ++ [true]) ∧
        run_steps tr = front ++ [Event.complete true, Event.update] ∧
        Event.complete true ∉ front ∧
        ∀ extra, run env (fuel + extra) m = .returned () m') ∧
    (∀ m', run env fuel m = .returned () m' →
      ∃ tr, m'.trace = m.trace ++ tr ∧ Event.complete true ∈ run_steps tr) := by
  refine ⟨?_, ?_, ?_⟩
  · intro a m4 hout hc
    refine ⟨?_, ?_⟩
    · rw [timeloop_succ, hout]
      simp [hc]
    · have hcomplete : (complete env m4).2 =
          { m4 with trace := m4.trace ++ [Event.complete true] } := by
        rw [← hc]
        rfl
      rw [hcomplete]
      simp [update, for_each_system_eq]
  · intro tr htr hmem
    obtain ⟨tr', htr', hcases⟩ := run_steps_cases env fuel m
    have heq : tr = tr' := List.append_cancel_left (htr.symm.trans htr')
    subst heq
    rcases hcases with ⟨m', j, hrun, hj, hsteps⟩ | ⟨hnot, _⟩
    · obtain ⟨front, hfront, hfnot⟩ := timeloop_steps_last m.bucket.nonlinear_iterations
        m.bucket.timestep j m.bucket.current_time_ m.bucket.timestep_count_
      refine ⟨m', j, Event.output :: front, hrun, hj, hsteps, ?_, ?_, ?_⟩
      · rw [hsteps, hfront]; simp
      · simp [hfnot]
      · intro extra
        unfold run at hrun ⊢
        cases hout : output env m with
        | unfinished m0 => exact absurd hout (output_never_unfinished env _ _)
        | aborted e m0 => rw [hout] at hrun; cases hrun
        | returned a0 m0 =>
          rw [hout] at hrun
          exact timeloop_fuel_mono env fuel extra m0 () m' hrun
    · exact absurd hmem hnot
  · intro m' hrun
    obtain ⟨tr, htr, hcases⟩ := run_steps_cases env fuel m
    rw [hrun] at htr
    refine ⟨tr, htr, ?_⟩
    rcases hcases with ⟨m'', j, _, _, hsteps⟩ | ⟨_, hnever⟩
    · obtain ⟨front, hfront, _⟩ := timeloop_steps_last m.bucket.nonlinear_iterations
        m.bucket.timestep j m.bucket.current_time_ m.bucket.timestep_count_
      rw [hsteps, hfront]
      simp
    · exact absurd hrun (hnever m')

/-- Witness for C3: the sample run returns, and its last steps are `complete()` returning
true and then `update()`. -/
theorem run_updates_once_after_complete_and_stops_witness :
    ∃ m', run idle 3 ⟨sample_bucket, (), []⟩ = .returned () m' ∧
      ∃ front, run_steps m'.trace = front ++ [Event.complete true, Event.update] ∧
        Event.complete true ∉ front ∧
        ∀ extra, run idle (3 + extra) ⟨sample_bucket, (), []⟩ = .returned () m' := by
  obtain ⟨m', hrun, _⟩ := run_finishes idle 2 3 ⟨sample_bucket, (), []⟩
    (sample_bucket_output_ready 1) rfl (fun _ => rfl) (by norm_num [sample_bucket])
    (by norm_num [sample_bucket]) (by decide)
  obtain ⟨tr, htr, hmem⟩ :=
    (run_updates_once_after_complete_and_stops idle 3 ⟨sample_bucket, (), []⟩).2.2 m' hrun
  obtain ⟨m'', j, front, hrun', _, _, hfront, hnot, hmono⟩ :=
    (run_updates_once_after_complete_and_stops idle 3 ⟨sample_bucket, (), []⟩).2.1 tr
      (by rw [hrun]; exact htr) hmem
  have hm : m'' = m' := by
    rw [hrun] at hrun'
    injection hrun' with _ h
    exact h.symm
  subst hm
  refine ⟨m'', hrun, front, ?_, hnot, hmono⟩
  have htr' : m''.trace = tr := by simpa using htr
  rw [htr']
  exact hfront

/-! ## The timestep dump rule in `output` -/

theorem output_write_trace {W : Type} (env : Collaborators W)
    (vis stat steady det : Bool) (m : Machine W) :
    ∃ tr, (output_write env vis stat steady det m).state.trace = m.trace ++ tr ∧
      (vis = false → ∀ s, Event.system_output s ∉ tr) ∧
      (stat = false → Event.write_data .statfile ∉ tr) ∧
      (steady = false → Event.write_data .steadyfile ∉ tr) ∧
      (det = false → Event.write_data .detfile ∉ tr) := by
  unfold output_write
  by_cases h : (stat && !m.bucket.statfile_) = true
  · refine ⟨[], ?_, ?_, ?_, ?_, ?_⟩ <;> simp [h, Outcome.state]
  · simp only [h, if_false]
    refine ⟨(if stat then [Event.write_data .statfile] else []) ++
      (if (det && m.bucket.detfile_) = true then [Event.write_data .detfile] else []) ++
      (if (steady && m.bucket.steadyfile_ && decide (m.bucket.timestep_count > 0)) = true
        then [Event.write_data .steadyfile] else []) ++
      (if vis then (m.bucket.systems_.map Prod.snd).map Event.system_output else []),
      ?_, ?_, ?_, ?_, ?_⟩
    · cases stat <;> cases hd : (det && m.bucket.detfile_) <;>
        cases hs : (steady && m.bucket.steadyfile_ && decide (m.bucket.timestep_count > 0)) <;>
        cases vis <;> simp [hd, hs, for_each_system_eq, Outcome.state]
    · intro hv s
      subst hv
      cases stat <;> cases (det && m.bucket.detfile_) <;>
        cases (steady && m.bucket.steadyfile_ && decide (m.bucket.timestep_count > 0)) <;>
        simp
    · intro hv
      subst hv
      cases (det && m.bucket.detfile_) <;>
        cases (steady && m.bucket.steadyfile_ && decide (m.bucket.timestep_count > 0)) <;>
        cases vis <;> simp
    · intro hv
      subst hv
      cases stat <;> cases (det && m.bucket.detfile_) <;> cases vis <;> simp
    · intro hv
      subst hv
      cases stat <;>
        cases (steady && m.bucket.steadyfile_ && decide (m.bucket.timestep_count > 0)) <;>
        cases vis <;> simp

theorem dump_false_of_all {b : Bucket} {period : Option ℚ} {period_timesteps : Option Int}
    (h : ∀ previous, dump_ b period previous period_timesteps = .ok (false, previous))
    {previous : Option ℚ} {d : Bool} {t : Option ℚ}
    (hd : dump_ b period previous period_timesteps = .ok (d, t)) : d = false := by
  rw [h previous] at hd
  injection hd with hd
  injection hd with hd _
  exact hd.symm

theorem output_skips_streams {W : Type} (env : Collaborators W) (m : Machine W) :
    ∃ tr, (output env m).state.trace = m.trace ++ tr ∧
      ((∀ previous, dump_ m.bucket m.bucket.visualization_period_ previous
          m.bucket.visualization_period_timesteps_ = .ok (false, previous)) →
        ∀ s, Event.system_output s ∉ tr) ∧
      ((∀ previous, dump_ m.bucket m.bucket.statistics_period_ previous
          m.bucket.statistics_period_timesteps_ = .ok (false, previous)) →
        Event.write_data .statfile ∉ tr) ∧
      ((∀ previous, dump_ m.bucket m.bucket.steadystate_period_ previous
          m.bucket.steadystate_period_timesteps_ = .ok (false, previous)) →
        Event.write_data .steadyfile ∉ tr) ∧
      ((∀ previous, dump_ m.bucket m.bucket.detectors_period_ previous
          m.bucket.detectors_period_timesteps_ = .ok (false, previous)) →
        Event.write_data .detfile ∉ tr) := by
  unfold output
  simp only []
  split
  · exact ⟨[Event.output], rfl, by simp⟩
  · next vis t1 h1 =>
    split
    · exact ⟨[Event.output], rfl, by simp⟩
    · next stat t2 h2 =>
      split
      · exact ⟨[Event.output], rfl, by simp⟩
      · next steady t3 h3 =>
        split
        · exact ⟨[Event.output], rfl, by simp⟩
        · next det t4 h4 =>
          have h1' : dump_ m.bucket m.bucket.visualization_period_
              m.bucket.visualization_dumptime_ m.bucket.visualization_period_timesteps_ =
              .ok (vis, t1) := h1
          have h2' : dump_ m.bucket m.bucket.statistics_period_ m.bucket.statistics_dumptime_
              m.bucket.statistics_period_timesteps_ = .ok (stat, t2) := h2
          have h3' : dump_ m.bucket m.bucket.steadystate_period_
              m.bucket.steadystate_dumptime_ m.bucket.steadystate_period_timesteps_ =
              .ok (steady, t3) := h3
          have h4' : dump_ m.bucket m.bucket.detectors_period_ m.bucket.detectors_dumptime_
              m.bucket.detectors_period_timesteps_ = .ok (det, t4) := h4
          obtain ⟨tr, htr, hvis, hstat, hsteady, hdet⟩ := output_write_trace env vis stat
            steady det
            (⟨m.bucket.advanced m.bucket.current_time_ m.bucket.timestep_count_
                m.bucket.iteration_count_ t1 t2 t3 t4, m.world, m.trace ++ [Event.output]⟩ :
              Machine W)
          have htr' := htr
          simp only [Bucket.advanced] at htr'
          refine ⟨Event.output :: tr, ?_, ?_, ?_, ?_, ?_⟩
          · rw [htr']
            simp
          · intro h s
            simpa using hvis (dump_false_of_all h h1') s
          · intro h
            simpa using hstat (dump_false_of_all h h2')
          · intro h
            simpa using hsteady (dump_false_of_all h h3')
          · intro h
            simpa using hdet (dump_false_of_all h h4')

/-- C31: for a stream with a timestep period `K` other than 0 and no time period, `dump_`
returns false at every timestep count above `|K|`, and at a timestep count from 1 to `|K|`
it returns true exactly when the timestep count divides `K`.  So an `output()` call made at
a timestep count above `|K|` does not dump the stream, whichever of the four streams it is:
no system writes its visualization output, and no data is written to the statistics, the
steady state or the detectors file. -/
theorem dump_timestep_period_is_one_shot (b : Bucket) (previous : Option ℚ) (K : Int)
    (hK : K ≠ 0) :
    (|K| < b.timestep_count_ → dump_ b none previous (some K) = .ok (false, previous)) ∧
    (0 < b.timestep_count_ → b.timestep_count_ ≤ |K| →
      dump_ b none previous (some K) = .ok (decide (b.timestep_count_ ∣ K), previous)) ∧
    (∀ (W : Type) (env : Collaborators W) (m : Machine W), m.bucket = b →
      |K| < b.timestep_count_ →
      ∃ tr, (output env m).state.trace = m.trace ++ tr ∧
        (b.visualization_period_ = none → b.visualization_period_timesteps_ = some K →
          ∀ s, Event.system_output s ∉ tr) ∧
        (b.statistics_period_ = none → b.statistics_period_timesteps_ = some K →
          Event.write_data .statfile ∉ tr) ∧
        (b.steadystate_period_ = none → b.steadystate_period_timesteps_ = some K →
          Event.write_data .steadyfile ∉ tr) ∧
        (b.detectors_period_ = none → b.detectors_period_timesteps_ = some K →
          Event.write_data .detfile ∉ tr)) := by
  have hfalse : |K| < b.timestep_count_ → ∀ previous,
      dump_ b none previous (some K) = .ok (false, previous) := by
    intro hn previous
    have h0 : b.timestep_count_ ≠ 0 := by
      have := abs_nonneg K
      omega
    rw [dump_timestep_period b previous K h0, decide_eq_false (not_dvd_of_abs_lt hK hn)]
  refine ⟨fun hn => hfalse hn previous, ?_, ?_⟩
  · intro hpos _
    exact dump_timestep_period b previous K (by omega)
  · intro W env m hm hn
    obtain ⟨tr, htr, hvis, hstat, hsteady, hdet⟩ := output_skips_streams env m
    rw [hm] at hvis hstat hsteady hdet
    refine ⟨tr, htr, ?_, ?_, ?_, ?_⟩
    · intro hp hk
      exact hvis (by rw [hp, hk]; exact hfalse hn)
    · intro hp hk
      exact hstat (by rw [hp, hk]; exact hfalse hn)
    · intro hp hk
      exact hsteady (by rw [hp, hk]; exact hfalse hn)
    · intro hp hk
      exact hdet (by rw [hp, hk]; exact hfalse hn)

/-- Witness for C31: with the timestep period 4, `dump_` returns true at the timestep
count 2, which divides 4, false at the count 3, which does not, and false at the count 5,
above 4; and the `output()` call at the count 5 of a bucket whose four streams all have
the timestep period 4 dumps none of them: its only step is the entry into `output()`. -/
theorem dump_timestep_period_is_one_shot_witness :
    dump_ { sample_bucket_every_four with timestep_count_ := 2 } none none (some 4) =
        .ok (true, none) ∧
      dump_ { sample_bucket_every_four with timestep_count_ := 3 } none none (some 4) =
        .ok (false, none) ∧
      dump_ { sample_bucket_every_four with timestep_count_ := 5 } none none (some 4) =
        .ok (false, none) ∧
      (∃ tr, (output idle
            ⟨{ sample_bucket_every_four with timestep_count_ := 5 }, (), []⟩).state.trace =
          [] ++ tr ∧
        (∀ s, Event.system_output s ∉ tr) ∧ Event.write_data .statfile ∉ tr ∧
        Event.write_data .steadyfile ∉ tr ∧ Event.write_data .detfile ∉ tr) ∧
      (output idle ⟨{ sample_bucket_every_four with timestep_count_ := 5 }, (), []⟩).state.trace =
        [Event.output] := by
  refine ⟨?_, ?_, ?_, ?_, ?_⟩
  · exact (dump_timestep_period_is_one_shot
      { sample_bucket_every_four with timestep_count_ := 2 } none 4 (by decide)).2.1
      (by decide) (by decide)
  · exact (dump_timestep_period_is_one_shot
      { sample_bucket_every_four with timestep_count_ := 3 } none 4 (by decide)).2.1
      (by decide) (by decide)
  · exact (dump_timestep_period_is_one_shot
      { sample_bucket_every_four with timestep_count_ := 5 } none 4 (by decide)).1 (by decide)
  · obtain ⟨tr, htr, hvis, hstat, hsteady, hdet⟩ := (dump_timestep_period_is_one_shot
      { sample_bucket_every_four with timestep_count_ := 5 } none 4 (by decide)).2.2
      Unit idle ⟨{ sample_bucket_every_four with timestep_count_ := 5 }, (), []⟩ rfl
      (by decide)
    exact ⟨tr, htr, hvis rfl rfl, hstat rfl rfl, hsteady rfl rfl, hdet rfl rfl⟩
  · simp [output, dump_, output_write, sample_bucket_every_four, sample_bucket_all_files,
      sample_bucket, Bucket.timestep_count, Outcome.state]
    decide

/-! ## The steady state check against the maximum -/

/-- C22 as amended: with a tolerance configured and a non-empty collection of systems,
for every real tolerance: when at least one system reports a change of 0 or more,
`steadystate_` returns exactly (maxchange < tolerance), where maxchange is the maximum over
all registered systems of `maxchange()`; when every system reports a change below 0 it
returns (0 < tolerance), the running maximum having started at 0. -/
theorem steadystate_compares_maximum_with_tolerance {W : Type} (env : Collaborators W)
    (m : Machine W) (tol : ℚ) (p : String × SystemBucket) (rest : List (String × SystemBucket))
    (htol : m.bucket.steadystate_tol_ = some tol) (hsys : m.bucket.systems_ = p :: rest) :
    ((∃ s ∈ m.bucket.systems_, 0 ≤ env.system_maxchange s.2 m.world) →
      steadystate_ env m =
        decide (maximum_of (env.system_maxchange p.2 m.world)
          (rest.map fun s => env.system_maxchange s.2 m.world) < tol)) ∧
    ((∀ s ∈ m.bucket.systems_, env.system_maxchange s.2 m.world < 0) →
      steadystate_ env m = decide (0 < tol)) := by
  refine ⟨?_, ?_⟩
  · intro hpos
    rw [Bool.eq_iff_iff, steadystate_with_tolerance env m tol htol, decide_eq_true_eq,
      maximum_of, foldl_max_lt_iff]
    obtain ⟨q, hq, hq0⟩ := hpos
    rw [hsys] at hq ⊢
    simp only [List.mem_cons, forall_eq_or_imp, List.mem_map, forall_exists_index, and_imp,
      forall_apply_eq_imp_iff₂]
    constructor
    · rintro ⟨_, hp, hr⟩
      exact ⟨hp, hr⟩
    · rintro ⟨hp, hr⟩
      refine ⟨?_, hp, hr⟩
      rcases List.mem_cons.1 hq with rfl | hq
      · exact lt_of_le_of_lt hq0 hp
      · exact lt_of_le_of_lt hq0 (hr q hq)
  · intro hneg
    rw [Bool.eq_iff_iff, steadystate_with_tolerance env m tol htol, decide_eq_true_eq]
    constructor
    · exact fun h => h.1
    · exact fun h => ⟨h, fun s hs => lt_trans (hneg s hs) h⟩

/-- Witness for C22 as amended: with `Advection` reporting 1/4, `Stokes` reporting 1/2 and
the tolerance 1/3, the maximum 1/2 is not below the tolerance, and `steadystate_` returns
false although the change of `Advection` is below it; with the tolerance 1 it returns true.
With one system reporting -1 and the tolerance 1/2 it returns (0 < 1/2). -/
theorem steadystate_compares_maximum_with_tolerance_witness :
    steadystate_ graded ⟨sample_bucket_two_systems (1 / 3), (), []⟩ =
        decide (maximum_of (1 / 4) [1 / 2] < (1 / 3 : ℚ)) ∧
      steadystate_ graded ⟨sample_bucket_two_systems (1 / 3), (), []⟩ = false ∧
      steadystate_ graded ⟨sample_bucket_two_systems 1, (), []⟩ = true ∧
      steadystate_ receding ⟨sample_bucket_with_tolerance (1 / 2), (), []⟩ =
        decide ((0 : ℚ) < 1 / 2) := by
  have h := fun tol => (steadystate_compares_maximum_with_tolerance graded
    ⟨sample_bucket_two_systems tol, (), []⟩ tol ("Advection", sample_system_advection)
    [("Stokes", sample_system_stokes)] rfl rfl).1
    ⟨("Stokes", sample_system_stokes), by simp [sample_bucket_two_systems],
      by simp [graded, sample_system_stokes]⟩
  have hmax : maximum_of (graded.system_maxchange sample_system_advection ())
      ([("Stokes", sample_system_stokes)].map fun s => graded.system_maxchange s.2 ()) =
      maximum_of (1 / 4) [1 / 2] := by
    simp [graded, sample_system_advection, sample_system_stokes]
  have hval : maximum_of (1 / 4) [1 / 2] = (1 / 2 : ℚ) := by
    simp only [maximum_of, List.foldl_cons, List.foldl_nil]
    norm_num
  refine ⟨?_, ?_, ?_, ?_⟩
  · rw [h (1 / 3)]
    simp only [hmax]
  · rw [h (1 / 3)]
    simp only [hmax, hval]
    norm_num
  · rw [h 1]
    simp only [hmax, hval]
    norm_num
  · exact (steadystate_compares_maximum_with_tolerance receding
      ⟨sample_bucket_with_tolerance (1 / 2), (), []⟩ (1 / 2) ("Stokes", sample_system_stokes)
      [] rfl rfl).2 (by simp [sample_bucket_with_tolerance, receding])

/-! ## The destructor -/

theorem round_half_even_near (q : ℚ) (f : Int) (h1 : (f : ℚ) - 1 / 2 < q)
    (h2 : q < (f : ℚ) + 1 / 2) : round_half_even q = f := by
  unfold round_half_even
  by_cases hq : (f : ℚ) ≤ q
  · have hfloor : ⌊q⌋ = f := Int.floor_eq_iff.2 ⟨hq, by linarith⟩
    simp only [hfloor]
    rw [if_pos (by linarith)]
  · have hfloor : ⌊q⌋ = f - 1 := Int.floor_eq_iff.2 ⟨by push_cast; linarith, by
      push_cast; linarith⟩
    simp only [hfloor]
    push_cast
    rw [if_neg (by linarith), if_pos (by linarith)]
    ring

theorem round_half_even_tie (f : Int) (hf : f % 2 = 0) :
    round_half_even ((f : ℚ) + 1 / 2) = f := by
  unfold round_half_even
  have hfloor : ⌊(f : ℚ) + 1 / 2⌋ = f := Int.floor_eq_iff.2 ⟨by linarith, by linarith⟩
  simp only [hfloor]
  rw [if_neg (by linarith), if_neg (by linarith), if_pos hf]

theorem round_to_double_binade (x : ℚ) (e : Int) (h1 : (2 : ℚ) ^ e ≤ |x|)
    (h2 : |x| < (2 : ℚ) ^ (e + 1)) :
    round_to_double x = round_half_even (x / 2 ^ (e - 52)) * 2 ^ (e - 52) := by
  have hpos : 0 < |x| := lt_of_lt_of_le (by positivity) h1
  have hx : x ≠ 0 := abs_pos.1 hpos
  have hlog : Int.log 2 |x| = e := by
    apply le_antisymm
    · have := (@Int.lt_zpow_iff_log_lt ℚ _ _ 2 (by norm_num) (e + 1) |x| hpos).1
        (by exact_mod_cast h2)
      omega
    · exact (@Int.zpow_le_iff_le_log ℚ _ _ 2 (by norm_num) e |x| hpos).1
        (by exact_mod_cast h1)
  unfold round_to_double
  rw [if_neg hx]
  simp only [hlog]

theorem round_to_double_stall :
    round_to_double (9007199254740992 + 1) = 9007199254740992 := by
  rw [round_to_double_binade _ 53 (by norm_num [abs_of_pos]) (by norm_num [abs_of_pos])]
  have h : ((9007199254740992 + 1 : ℚ) / 2 ^ ((53 : Int) - 52)) =
      ((4503599627370496 : Int) : ℚ) + 1 / 2 := by norm_num
  rw [h, round_half_even_tie _ (by decide)]
  norm_num

theorem round_to_double_gap :
    round_to_double (3602879701896397 / 4503599627370496 -
      5404319552844595 / 18014398509481984) = 1 / 2 := by
  rw [round_to_double_binade _ (-1) (by norm_num [abs_of_pos]) (by norm_num [abs_of_pos])]
  have h : (((3602879701896397 : ℚ) / 4503599627370496 -
      5404319552844595 / 18014398509481984) / 2 ^ ((-1 : Int) - 52)) =
      ((4503599627370496 : Int) : ℚ) + 1 / 2 := by norm_num
  rw [h, round_half_even_tie _ (by decide)]
  norm_num

theorem round_to_double_eight_tenths :
    round_to_double (8 / 10) = 3602879701896397 / 4503599627370496 := by
  rw [round_to_double_binade _ (-1) (by norm_num [abs_of_pos]) (by norm_num [abs_of_pos])]
  rw [round_half_even_near _ 7205759403792794 (by norm_num) (by norm_num)]
  norm_num

theorem round_to_double_three_tenths :
    round_to_double (3 / 10) = 5404319552844595 / 18014398509481984 := by
  rw [round_to_double_binade _ (-2) (by norm_num [abs_of_pos]) (by norm_num [abs_of_pos])]
  rw [round_half_even_near _ 5404319552844595 (by norm_num) (by norm_num)]
  norm_num

theorem round_to_double_half : round_to_double (1 / 2) = 1 / 2 := by
  rw [round_to_double_binade _ (-1) (by norm_num [abs_of_pos]) (by norm_num [abs_of_pos])]
  rw [round_half_even_near _ 4503599627370496 (by norm_num) (by norm_num)]
  norm_num

theorem round_to_double_three_halves : round_to_double (3 / 2) = 3 / 2 := by
  rw [round_to_double_binade _ 0 (by norm_num [abs_of_pos]) (by norm_num [abs_of_pos])]
  rw [round_half_even_near _ 6755399441055744 (by norm_num) (by norm_num)]
  norm_num

theorem round_to_double_stall_times :
    round_to_double 9007199254740992 = 9007199254740992 ∧
      round_to_double 9007199254740994 = 9007199254740994 ∧ round_to_double 1 = 1 := by
  refine ⟨?_, ?_, ?_⟩
  · rw [round_to_double_binade _ 53 (by norm_num [abs_of_pos]) (by norm_num [abs_of_pos])]
    rw [round_half_even_near _ 4503599627370496 (by norm_num) (by norm_num)]
    norm_num
  · rw [round_to_double_binade _ 53 (by norm_num [abs_of_pos]) (by norm_num [abs_of_pos])]
    rw [round_half_even_near _ 4503599627370497 (by norm_num) (by norm_num)]
    norm_num
  · rw [round_to_double_binade _ 0 (by norm_num [abs_of_pos]) (by norm_num [abs_of_pos])]
    rw [round_half_even_near _ 4503599627370496 (by norm_num) (by norm_num)]
    norm_num

theorem dump_rounded_exact (fl : ℚ → ℚ) (hfl : ∀ x, fl x = x) (b : Bucket)
    (period previous : Option ℚ) (period_timesteps : Option Int) :
    dump_rounded fl b period previous period_timesteps =
      dump_ b period previous period_timesteps := by
  unfold dump_rounded dump_
  simp only [hfl]

theorem dump_rounded_without_time_period (fl : ℚ → ℚ) (b : Bucket) (previous : Option ℚ)
    (period_timesteps : Option Int) :
    dump_rounded fl b none previous period_timesteps =
      dump_ b none previous period_timesteps := rfl

theorem output_rounded_exact {W : Type} (fl : ℚ → ℚ) (hfl : ∀ x, fl x = x)
    (env : Collaborators W) (m : Machine W) : output_rounded fl env m = output env m := by
  unfold output_rounded output
  simp only [dump_rounded_exact fl hfl]

theorem output_rounded_without_time_period {W : Type} (fl : ℚ → ℚ) (env : Collaborators W)
    (m : Machine W) (hvis : m.bucket.visualization_period_ = none)
    (hstat : m.bucket.statistics_period_ = none) (hsteady : m.bucket.steadystate_period_ = none)
    (hdet : m.bucket.detectors_period_ = none) :
    output_rounded fl env m = output env m := by
  unfold output_rounded output
  simp only [hvis, hstat, hsteady, hdet, dump_rounded_without_time_period]

theorem timeloop_rounded_exact {W : Type} (fl : ℚ → ℚ) (hfl : ∀ x, fl x = x)
    (env : Collaborators W) (fuel : Nat) (m : Machine W) :
    timeloop_rounded fl env fuel m = timeloop env fuel m := by
  induction fuel generalizing m with
  | zero => rfl
  | succ fuel ih =>
    unfold timeloop_rounded timeloop
    simp only [hfl, output_rounded_exact fl hfl, ih]

theorem run_rounded_exact {W : Type} (fl : ℚ → ℚ) (hfl : ∀ x, fl x = x)
    (env : Collaborators W) (fuel : Nat) (m : Machine W) :
    run_rounded fl env fuel m = run env fuel m := by
  unfold run_rounded run
  simp only [output_rounded_exact fl hfl, timeloop_rounded_exact fl hfl]

/-! ## The time dump rule in double arithmetic -/

/-- C16 as stated fails: at the current time 0.8 with the last dump at 0.3 and the period
0.5, all three as the `double` values nearest to them, the gap between the two times is
above the period (it is 0.5 + 2^-54), yet `dump_` in `double` arithmetic returns false and
leaves the last dump time: the difference the code compares is that gap rounded to the
nearest `double`, which is 0.5. -/
theorem dump_rounded_gap_above_period_does_not_dump :
    round_to_double (8 / 10) = sample_bucket_at_eight_tenths.current_time_ ∧
      round_to_double (3 / 10) = 5404319552844595 / 18014398509481984 ∧
      round_to_double (1 / 2) = 1 / 2 ∧
      sample_bucket_at_eight_tenths.current_time_ ≠ sample_bucket_at_eight_tenths.start_time_ ∧
      sample_bucket_at_eight_tenths.current_time_ - 5404319552844595 / 18014398509481984 >
        1 / 2 ∧
      dump_rounded round_to_double sample_bucket_at_eight_tenths (some (1 / 2))
          (some (5404319552844595 / 18014398509481984)) none =
        .ok (false, some (5404319552844595 / 18014398509481984)) := by
  refine ⟨round_to_double_eight_tenths, round_to_double_three_tenths, round_to_double_half,
    ?_, ?_, ?_⟩
  · simp [sample_bucket_at_eight_tenths, sample_bucket]
  · simp only [sample_bucket_at_eight_tenths]
    norm_num
  · have hne : ¬ sample_bucket_at_eight_tenths.current_time =
        sample_bucket_at_eight_tenths.start_time := by
      simp [sample_bucket_at_eight_tenths, sample_bucket, Bucket.current_time,
        Bucket.start_time]
    have hgap : round_to_double (sample_bucket_at_eight_tenths.current_time -
        5404319552844595 / 18014398509481984) = 1 / 2 := round_to_double_gap
    unfold dump_rounded
    simp only [hne, if_false, hgap, gt_iff_lt, lt_irrefl]

/-- C16 as amended: for a stream with a time period `P` and a last dump time, at a current
time other than the start time `dump_` returns true exactly when the difference
`current_time - lastDumpTime` as the code computes it, that is the exact difference rounded
to a `double` by `fl`, is above `P`, and then leaves the current time as the last dump
time; otherwise, also when the computed difference is exactly `P`, it returns false and
the last dump time stays.  Where no rounding occurs this is the comparison of the exact
gap with `P`. -/
theorem dump_time_period_compares_rounded_gap (fl : ℚ → ℚ) (b : Bucket) (period previous : ℚ)
    (period_timesteps : Option Int) (h : b.current_time_ ≠ b.start_time_) :
    dump_rounded fl b (some period) (some previous) period_timesteps =
      .ok (decide (fl (b.current_time_ - previous) > period),
        if fl (b.current_time_ - previous) > period then some b.current_time_
        else some previous) ∧
    (fl (b.current_time_ - previous) = period →
      dump_rounded fl b (some period) (some previous) period_timesteps =
        .ok (false, some previous)) ∧
    (fl (b.current_time_ - previous) = b.current_time_ - previous →
      dump_rounded fl b (some period) (some previous) period_timesteps =
        .ok (decide (b.current_time_ - previous > period),
          if b.current_time_ - previous > period then some b.current_time_
          else some previous)) := by
  have hne : ¬ b.current_time = b.start_time := h
  have h1 : dump_rounded fl b (some period) (some previous) period_timesteps =
      .ok (decide (fl (b.current_time_ - previous) > period),
        if fl (b.current_time_ - previous) > period then some b.current_time_
        else some previous) := by
    unfold dump_rounded
    simp only [hne, if_false]
    by_cases hg : fl (b.current_time - previous) > period
    · have hg' : fl (b.current_time_ - previous) > period := hg
      simp only [hg, hg', if_true, decide_True]
      rfl
    · have hg' : ¬ fl (b.current_time_ - previous) > period := hg
      simp only [hg, hg', if_false, decide_False]
  refine ⟨h1, ?_, ?_⟩
  · intro he
    rw [h1, he]
    simp
  · intro he
    rw [h1, he]

/-- Witness for C16 as amended: in `double` arithmetic, with period 1 and the last dump at
time 0, the call at time 1/2 does not dump and leaves the last dump time 0; the following
call at time 3/2 dumps and moves the last dump time to 3/2. -/
theorem dump_time_period_compares_rounded_gap_witness :
    dump_rounded round_to_double { sample_bucket with current_time_ := 1 / 2 } (some 1)
        (some 0) none = .ok (false, some 0) ∧
      dump_rounded round_to_double { sample_bucket with current_time_ := 3 / 2 } (some 1)
        (some 0) none = .ok (true, some (3 / 2)) := by
  have h1 := (dump_time_period_compares_rounded_gap round_to_double
    { sample_bucket with current_time_ := 1 / 2 } 1 0 none (by norm_num [sample_bucket])).2.2
    (by
      show round_to_double (1 / 2 - 0) = 1 / 2 - 0
      rw [sub_zero]
      exact round_to_double_half)
  have h2 := (dump_time_period_compares_rounded_gap round_to_double
    { sample_bucket with current_time_ := 3 / 2 } 1 0 none (by norm_num [sample_bucket])).2.2
    (by
      show round_to_double (3 / 2 - 0) = 3 / 2 - 0
      rw [sub_zero]
      exact round_to_double_three_halves)
  constructor
  · rw [h1]; norm_num
  · rw [h2]; norm_num

/-! ## The run in double arithmetic -/

theorem timeloop_rounded_succ {W : Type} (fl : ℚ → ℚ) (env : Collaborators W) (fuel : Nat)
    (m : Machine W) :
    timeloop_rounded fl env (fuel + 1) m =
      match output_rounded fl env (before_output_rounded fl env m) with
      | .aborted e m4 => .aborted e m4
      | .unfinished m4 => .unfinished m4
      | .returned _ m4 =>
        if (!(complete env m4).1) = true then
          timeloop_rounded fl env fuel (update env (complete env m4).2)
        else .returned () (update env (complete env m4).2) := rfl

theorem before_output_rounded_bucket {W : Type} (fl : ℚ → ℚ) (env : Collaborators W)
    (m : Machine W) :
    (before_output_rounded fl env m).bucket =
      m.bucket.advanced (fl (m.bucket.current_time_ + m.bucket.timestep))
        (m.bucket.timestep_count_ + 1) (m.bucket.nonlinear_iterations.toNat)
        m.bucket.visualization_dumptime_ m.bucket.statistics_dumptime_
        m.bucket.steadystate_dumptime_ m.bucket.detectors_dumptime_ := by
  obtain ⟨hb, _⟩ := nonlinear_loop_spec env m.bucket.nonlinear_iterations.toNat
    { m with bucket := { m.bucket with iteration_count_ := 0 } }
    (by simp [Bucket.nonlinear_iterations])
  simp only [before_output_rounded, hb, Bucket.advanced, Bucket.timestep, zero_add]

theorem timeloop_rounded_stalls (fuel : Nat) (m : Machine Unit)
    (ht : m.bucket.current_time_ = 9007199254740992)
    (hf : m.bucket.finish_time_ = 9007199254740994) (hdt : m.bucket.timestep_value = 1)
    (htol : m.bucket.steadystate_tol_ = none)
    (hvis : m.bucket.visualization_period_ = none) (hstat : m.bucket.statistics_period_ = none)
    (hsteady : m.bucket.steadystate_period_ = none) (hdet : m.bucket.detectors_period_ = none)
    (m' : Machine Unit) :
    timeloop_rounded round_to_double idle fuel m ≠ .returned () m' := by
  induction fuel generalizing m with
  | zero => simp [timeloop_rounded]
  | succ fuel ih =>
    have hb := before_output_rounded_bucket round_to_double idle m
    rw [Bucket.timestep, ht, hdt, round_to_double_stall] at hb
    rw [timeloop_rounded_succ, output_rounded_without_time_period _ _ _
      (by rw [hb]; exact hvis) (by rw [hb]; exact hstat) (by rw [hb]; exact hsteady)
      (by rw [hb]; exact hdet)]
    cases hout : output idle (before_output_rounded round_to_double idle m) with
    | unfinished m4 => simp
    | aborted e m4 => simp
    | returned a m4 =>
      have ho := output_spec idle (before_output_rounded round_to_double idle m)
      rw [hout] at ho
      obtain ⟨⟨vis, stat, steady, det, hb4⟩, _, _⟩ := ho
      rw [hb] at hb4
      have ht4 : m4.bucket.current_time_ = 9007199254740992 := by rw [hb4]; rfl
      have hf4 : m4.bucket.finish_time_ = 9007199254740994 := by rw [hb4]; exact hf
      have htol4 : m4.bucket.steadystate_tol_ = none := by rw [hb4]; exact htol
      have hc : (complete idle m4).1 = false := by
        rw [complete_result, ht4, hf4, steadystate_without_tolerance idle m4 htol4]
        simp [idle]
        norm_num
      simp only [hc, Bool.not_false, if_true]
      apply ih
      · exact ht4
      · exact hf4
      · show m4.bucket.timestep_value = 1
        rw [hb4]; exact hdt
      · exact htol4
      · show m4.bucket.visualization_period_ = none
        rw [hb4]; exact hvis
      · show m4.bucket.statistics_period_ = none
        rw [hb4]; exact hstat
      · show m4.bucket.steadystate_period_ = none
        rw [hb4]; exact hsteady
      · show m4.bucket.detectors_period_ = none
        rw [hb4]; exact hdet

/-- C34 as stated fails: a run in `double` arithmetic entered at the time 2^53 with the
timestep 1 and the finish time 2^53 + 2 (all three are `double` values, the timestep is
above 0 and the bound max(1, ceil((finish_time - t0)/dt)) is 2) never returns, whatever
room it is given: the sum 2^53 + 1 is rounded to 2^53, so the time does not advance. -/
theorem run_rounded_never_returns :
    round_to_double stalled_bucket.current_time_ = stalled_bucket.current_time_ ∧
      round_to_double stalled_bucket.finish_time_ = stalled_bucket.finish_time_ ∧
      round_to_double stalled_bucket.timestep_value = stalled_bucket.timestep_value ∧
      0 < stalled_bucket.timestep_value ∧
      max_timesteps stalled_bucket.current_time_ stalled_bucket.finish_time_
        stalled_bucket.timestep_value = 2 ∧
      round_to_double (stalled_bucket.current_time_ + stalled_bucket.timestep_value) =
        stalled_bucket.current_time_ ∧
      ¬ ∃ fuel m', run_rounded round_to_double idle fuel ⟨stalled_bucket, (), []⟩ =
        .returned () m' := by
  refine ⟨round_to_double_stall_times.1, round_to_double_stall_times.2.1,
    round_to_double_stall_times.2.2, by simp [stalled_bucket], ?_, round_to_double_stall, ?_⟩
  · simp only [max_timesteps, stalled_bucket]
    norm_num
  · rintro ⟨fuel, m', hrun⟩
    unfold run_rounded at hrun
    rw [output_rounded_without_time_period _ _ _ rfl rfl rfl rfl] at hrun
    cases hout : output idle ⟨stalled_bucket, (), []⟩ with
    | unfinished m0 => exact absurd hout (output_never_unfinished idle _ _)
    | aborted e m0 =>
      rw [hout] at hrun
      cases hrun
    | returned a m0 =>
      rw [hout] at hrun
      simp only [] at hrun
      have ho := output_spec idle ⟨stalled_bucket, (), []⟩
      rw [hout] at ho
      obtain ⟨⟨vis, stat, steady, det, hb0⟩, _, _⟩ := ho
      exact timeloop_rounded_stalls fuel m0 (by rw [hb0]; rfl) (by rw [hb0]; rfl)
        (by rw [hb0]; rfl) (by rw [hb0]; rfl) (by rw [hb0]; rfl) (by rw [hb0]; rfl)
        (by rw [hb0]; rfl) (by rw [hb0]; rfl) m' hrun

/-- C34 as amended: in exact arithmetic, that is when no sum or difference of times that
the run computes is rounded, with a timestep `dt > 0`, a run given room for
max(1, ceil((finish_time - t0)/dt)) timesteps, `t0` being the current time on entry, does
not run out of that room, whatever the steady state check and the interrupt return; on a
bucket whose `output()` cannot fail it returns after at most that many timesteps, and after
exactly that many when the steady state check and the interrupt never fire. -/
theorem run_terminates_within_max_timesteps {W : Type} (fl : ℚ → ℚ) (env : Collaborators W)
    (fuel : Nat) (m : Machine W) (hfl : ∀ x, fl x = x) (hdt : 0 < m.bucket.timestep_value)
    (hfuel : max_timesteps m.bucket.current_time_ m.bucket.finish_time_ m.bucket.timestep_value
      ≤ fuel) :
    (∀ m', run_rounded fl env fuel m ≠ .unfinished m') ∧
    (m.bucket.output_ready →
      ∃ m' timesteps, run_rounded fl env fuel m = .returned () m' ∧ 1 ≤ timesteps ∧
        timesteps ≤ max_timesteps m.bucket.current_time_ m.bucket.finish_time_
          m.bucket.timestep_value ∧
        m.reaches m' (Event.output ::
          timeloop_steps m.bucket.nonlinear_iterations m.bucket.timestep
            m.bucket.current_time_ m.bucket.timestep_count_
            (List.replicate (timesteps - 1) false ++ [true])) ∧
        m'.bucket.timestep_count_ = m.bucket.timestep_count_ + timesteps ∧
        ((∀ m'' : Machine W, m''.bucket.steadystate_tol_ = m.bucket.steadystate_tol_ →
            m''.bucket.systems_ = m.bucket.systems_ → steadystate_ env m'' = false) →
          (∀ w, env.sigint_received w = false) →
          timesteps = max_timesteps m.bucket.current_time_ m.bucket.finish_time_
            m.bucket.timestep_value)) := by
  rw [run_rounded_exact fl hfl]
  obtain ⟨h1, hfin, hbefore⟩ := max_timesteps_spec m.bucket.current_time_
    m.bucket.finish_time_ m.bucket.timestep_value hdt
  refine ⟨?_, ?_⟩
  · intro m' hrun
    unfold run at hrun
    cases hout : output env m with
    | unfinished m0 => exact absurd hout (output_never_unfinished env _ _)
    | aborted e m0 =>
      rw [hout] at hrun
      cases hrun
    | returned a m0 =>
      rw [hout] at hrun
      simp only [] at hrun
      obtain ⟨_, _, _, ht0, _, hf0, _, hv0, _⟩ := run_returned env m a m0 hout
      exact timeloop_not_unfinished env _ fuel m0 (by rw [hf0, ht0, hv0]; exact hfin)
        (by omega) m' hrun
  · intro hready
    obtain ⟨m', j, hj, hrun, hr, hn, hexact⟩ := run_terminates env _ fuel m hready hfin
      (by omega)
    refine ⟨m', j + 1, hrun, Nat.succ_pos _, by omega, by simpa using hr, ?_, ?_⟩
    · rw [hn]; push_cast; ring
    · intro hsteady hsig
      have := hexact hbefore hsteady hsig
      omega

/-- Witness for C34 as amended: in exact arithmetic the sample bucket runs from time 0 to
time 3 in steps of 1, without tolerance or interrupt: the bound is 3 and the run returns
after exactly 3 timesteps. -/
theorem run_terminates_within_max_timesteps_witness :
    ∃ m', run_rounded (fun x => x) idle 3 ⟨sample_bucket, (), []⟩ = .returned () m' ∧
      m'.bucket.timestep_count_ = 3 ∧ max_timesteps 0 3 1 = 3 := by
  have hmax : max_timesteps 0 3 1 = 3 := by
    simp [max_timesteps]
  obtain ⟨m', timesteps, hrun, _, _, _, hn, hexact⟩ :=
    (run_terminates_within_max_timesteps (fun x => x) idle 3 ⟨sample_bucket, (), []⟩
      (fun _ => rfl) (by simp [sample_bucket])
      (by
        show max_timesteps 0 3 1 ≤ 3
        rw [hmax])).2
      (by simp [Bucket.output_ready, sample_bucket])
  have h3 : timesteps = 3 := by
    have := hexact (fun m'' h _ => steadystate_without_tolerance idle m'' (by rw [h]; rfl))
      (fun _ => rfl)
    rw [this]
    exact hmax
  subst h3
  exact ⟨m', hrun, by simpa [sample_bucket] using hn, hmax⟩

end buckettools
